import Mathlib

/-!
Verification of the NVM3 image codec (node-zwave-js `nvmedit`): a shallow
embedding of `page.ts` and the image codec file (`parseNVM` / `encodeNVM`),
together with models of the object codec and the integrity utilities, which
this repository snapshot references but whose sources are not included.
Buffers are lists of bytes (`Nat`, each < 256); fallible code returns
`Except NVMError`.
-/

namespace NVM3

/-- A byte buffer: JS `Buffer` modelled as a list of byte values. -/
abbrev Buffer := List Nat

/-- Error kinds, one per distinct failure site of the codec
(the source throws `Error` objects; the spec names the kinds). -/
inductive NVMError where
  | badMagic
  | unsupportedVersion (v : Nat)
  | bergerMismatch
  | eraseCountMismatch
  | shortBuffer
  | unknownObjectType (t : Nat)
  | malformedObject
  | insufficientSpace
  | rangeError
  deriving Repr, DecidableEq

/-- `NVM3_WORD_SIZE = 4`: on-media word alignment. -/
def NVM3_WORD_SIZE : Nat := 4

/-- `(n + NVM3_WORD_SIZE - 1) & ~(NVM3_WORD_SIZE - 1)`: round `n` up to a
multiple of the 4-byte word size. -/
def align4 (n : Nat) : Nat := ((n + NVM3_WORD_SIZE - 1) / NVM3_WORD_SIZE) * NVM3_WORD_SIZE

/-- Little-endian bytes of a 16-bit value. -/
def u16Bytes (v : Nat) : Buffer := [v % 256, (v / 256) % 256]

/-- Little-endian bytes of a 32-bit value. -/
def u32Bytes (v : Nat) : Buffer :=
  [v % 256, (v / 256) % 256, (v / 65536) % 256, (v / 16777216) % 256]

/-- `buffer.readUInt16LE(offset)`: fails (JS `RangeError`) past the end. -/
def readUInt16LE (b : Buffer) (off : Nat) : Except NVMError Nat :=
  if off + 2 ≤ b.length then .ok (b.getD off 0 + 256 * b.getD (off + 1) 0)
  else .error .shortBuffer

/-- `buffer.readUInt32LE(offset)`: fails (JS `RangeError`) past the end. -/
def readUInt32LE (b : Buffer) (off : Nat) : Except NVMError Nat :=
  if off + 4 ≤ b.length then
    .ok (b.getD off 0 + 256 * b.getD (off + 1) 0 + 65536 * b.getD (off + 2) 0 +
      16777216 * b.getD (off + 3) 0)
  else .error .shortBuffer

/-- `buffer.writeUInt16LE(value, …)` as a value check: Node throws
`ERR_OUT_OF_RANGE` for a value outside `[0, 0xFFFF]`. -/
def writeUInt16LEChecked (v : Int) : Except NVMError Buffer :=
  if 0 ≤ v ∧ v ≤ 0xFFFF then .ok (u16Bytes v.toNat) else .error .rangeError

/-- `buffer.writeUInt32LE(value, …)` as a value check. -/
def writeUInt32LEChecked (v : Nat) : Except NVMError Buffer :=
  if v ≤ 0xFFFFFFFF then .ok (u32Bytes v) else .error .rangeError

/-- `source.copy(target, targetStart)`: JS `Buffer.copy` clamps — it copies
`min(source.length, target.length - targetStart)` bytes and never grows the
target. -/
def bufCopy (src : Buffer) (tgt : Buffer) (tstart : Nat) : Buffer :=
  tgt.take tstart ++ src.take (tgt.length - tstart) ++ tgt.drop (tstart + src.length)

theorem bufCopy_length (src tgt : Buffer) (tstart : Nat) :
    (bufCopy src tgt tstart).length = tgt.length := by
  simp only [bufCopy, List.length_append, List.length_take, List.length_drop]
  omega

/-! ## Integrity utilities (`utils.ts`, not included in this snapshot)

Modelled from the spec: `berger_code(value, width_bits)` returns
`width_bits − popcount(value & ((1<<width_bits)−1))` truncated to
`ceil(log2(width_bits+1))` bits; `validate(value, code, width)` recomputes
and compares, reporting a mismatch as an integrity error. -/

/-- Binary popcount, fuel-based so that it reduces in the kernel
(`n` itself is always enough fuel since `n / 2 < n` for positive `n`). -/
def popcountGo : Nat → Nat → Nat
  | 0, _ => 0
  | fuel + 1, n => if n = 0 then 0 else n % 2 + popcountGo fuel (n / 2)

/-- Modelled from the spec: popcount of a value's binary representation. -/
def popcount (v : Nat) : Nat := popcountGo v v

/-- `Math.ceil(Math.log2 n)` on naturals, fuel-based: floor log2 of `n`. -/
def log2FloorGo : Nat → Nat → Nat
  | 0, _ => 0
  | fuel + 1, n => if n < 2 then 0 else log2FloorGo fuel (n / 2) + 1

/-- `Math.ceil(Math.log2 n)` for a natural `n` (0 for `n ≤ 1`). -/
def ceilLog2 (n : Nat) : Nat :=
  if n ≤ 1 then 0 else log2FloorGo (n - 1) (n - 1) + 1

/-- Modelled from the spec: `computeBergerCode` from `utils.ts` returns
`width − popcount(value & ((1<<width)−1))` truncated to
`ceil(log2(width+1))` bits. -/
def computeBergerCode (value : Nat) (width : Nat) : Nat :=
  (width - popcount (value &&& ((1 <<< width) - 1))) &&& ((1 <<< ceilLog2 (width + 1)) - 1)

/-- Modelled from the spec: `validateBergerCode` from `utils.ts` recomputes
the code and compares; a mismatch is an integrity error. -/
def validateBergerCode (value code width : Nat) : Except NVMError Unit :=
  if computeBergerCode value width = code then .ok () else .error .bergerMismatch

/-! ## Object codec (`object.ts`, not included in this snapshot)

Modelled from the spec: object types, the 4-byte bit-packed small header
(object type 3 bits, fragment status 2 bits, key 20 bits, length 7 bits —
these widths fill the 32-bit word, so no header CRC field is modelled),
the extended length word of large objects, 4-byte payload alignment, the
erased pattern 0xFF, `read_objects` stopping on an erased word,
`write_object`, `fragment_large_object` and the compaction pass. -/

/-- Object types (`ObjectType` from `object.ts`). -/
inductive ObjectType where
  | Deleted
  | DataSmall
  | DataLarge
  | CounterSmall
  | CounterLarge
  | Link
  deriving Repr, DecidableEq

/-- Fragment statuses of a fragmented large object. -/
inductive FragmentType where
  | first
  | next
  | last
  deriving Repr, DecidableEq

/-- A logical NVM3 object (`NVMObject` from `object.ts`). -/
structure NVMObject where
  type : ObjectType
  key : Nat
  fragmentType : Option FragmentType
  data : Option Buffer
  deriving Repr, DecidableEq

/-- `NVM3_OBJ_HEADER_SIZE_SMALL = 4` (spec constants table). -/
def NVM3_OBJ_HEADER_SIZE_SMALL : Nat := 4

/-- Large objects prepend an extended length word to the small header. -/
def NVM3_OBJ_HEADER_SIZE_LARGE : Nat := 8

/-- Modelled from the spec: the placement pass reserves
`NVM3_OBJ_HEADER_SIZE_SMALL + NVM_COUNTER_SIZE = 20` bytes for a small
counter (spec: remaining space < header + counter size (20)). The wire
payload of a counter is 4 bytes (`NVM_COUNTER_PAYLOAD_SIZE`). -/
def NVM_COUNTER_SIZE : Nat := 16

/-- Counters always carry exactly 4 bytes of payload on the wire. -/
def NVM_COUNTER_PAYLOAD_SIZE : Nat := 4

/-- Wire code of each object type (3 header bits; codes 6 and 7 are unknown,
and the all-ones erased word can therefore never be a valid header). -/
def ObjectType.code : ObjectType → Nat
  | .Deleted => 0
  | .DataSmall => 1
  | .DataLarge => 2
  | .CounterSmall => 3
  | .CounterLarge => 4
  | .Link => 5

/-- Decode the 3 object-type bits; unknown codes are an error. -/
def objectTypeFromCode (c : Nat) : Except NVMError ObjectType :=
  match c with
  | 0 => .ok .Deleted
  | 1 => .ok .DataSmall
  | 2 => .ok .DataLarge
  | 3 => .ok .CounterSmall
  | 4 => .ok .CounterLarge
  | 5 => .ok .Link
  | t => .error (.unknownObjectType t)

/-- Wire code of a fragment status (2 header bits; 0 = not fragmented). -/
def fragCode : Option FragmentType → Nat
  | none => 0
  | some .first => 1
  | some .next => 2
  | some .last => 3

/-- Decode the 2 fragment-status bits. -/
def fragFromCode (c : Nat) : Option FragmentType :=
  match c with
  | 1 => some .first
  | 2 => some .next
  | 3 => some .last
  | _ => none

/-- The payload of an object, empty when absent (`obj.data ?? []`). -/
def objData (o : NVMObject) : Buffer := o.data.getD []

/-- The bit-packed 32-bit object header: key bits 0–19, length bits 20–26,
fragment status bits 27–28, type bits 29–31. -/
def objHeaderWord (o : NVMObject) (len7 : Nat) : Nat :=
  (o.key &&& 0xFFFFF) ||| ((len7 &&& 0x7F) <<< 20) |||
    (fragCode o.fragmentType <<< 27) ||| (o.type.code <<< 29)

/-- Pad a serialized object with erased bytes to the 4-byte word alignment. -/
def padTo4 (raw : Buffer) : Buffer :=
  raw ++ List.replicate (align4 raw.length - raw.length) 0xFF

/-- Modelled from the spec: `write_object` emits the header, any extended
length word, the payload and 4-byte alignment padding. -/
def writeObject (o : NVMObject) : Buffer :=
  let d := objData o
  match o.type with
  | .Deleted => u32Bytes (objHeaderWord o 0)
  | .Link => u32Bytes (objHeaderWord o 0)
  | .DataSmall => padTo4 (u32Bytes (objHeaderWord o d.length) ++ d)
  | .CounterSmall => padTo4 (u32Bytes (objHeaderWord o 0) ++ d)
  | .DataLarge => padTo4 (u32Bytes (objHeaderWord o 0) ++ u32Bytes d.length ++ d)
  | .CounterLarge => padTo4 (u32Bytes (objHeaderWord o 0) ++ u32Bytes d.length ++ d)

/-- Bytes consumed by one object: its aligned size, clamped at the window
end (aligned padding is consumed but does not belong to the object). -/
def objConsumed (data : Buffer) (offset size : Nat) : Nat :=
  min (align4 size) (data.length - offset)

/-- Modelled from the spec: `read_object(window, offset)` decodes one object
starting at `offset`; it fails on an unknown type or when the declared
length exceeds the window. -/
def readObject (data : Buffer) (offset : Nat) : Except NVMError (NVMObject × Nat) := do
  let w ← readUInt32LE data offset
  let t ← objectTypeFromCode (w >>> 29)
  let key := w &&& 0xFFFFF
  let frag := fragFromCode ((w >>> 27) &&& 3)
  match t with
  | .Deleted => return (⟨.Deleted, key, frag, none⟩, objConsumed data offset 4)
  | .Link => return (⟨.Link, key, frag, none⟩, objConsumed data offset 4)
  | .DataSmall =>
      let len := (w >>> 20) &&& 0x7F
      if offset + NVM3_OBJ_HEADER_SIZE_SMALL + len ≤ data.length then
        return (⟨.DataSmall, key, frag, some ((data.drop (offset + 4)).take len)⟩,
          objConsumed data offset (NVM3_OBJ_HEADER_SIZE_SMALL + len))
      else throw .malformedObject
  | .CounterSmall =>
      if offset + NVM3_OBJ_HEADER_SIZE_SMALL + NVM_COUNTER_PAYLOAD_SIZE ≤ data.length then
        return (⟨.CounterSmall, key, frag,
          some ((data.drop (offset + 4)).take NVM_COUNTER_PAYLOAD_SIZE)⟩,
          objConsumed data offset (NVM3_OBJ_HEADER_SIZE_SMALL + NVM_COUNTER_PAYLOAD_SIZE))
      else throw .malformedObject
  | .DataLarge =>
      let extLen ← readUInt32LE data (offset + 4)
      if offset + NVM3_OBJ_HEADER_SIZE_LARGE + extLen ≤ data.length then
        return (⟨.DataLarge, key, frag, some ((data.drop (offset + 8)).take extLen)⟩,
          objConsumed data offset (NVM3_OBJ_HEADER_SIZE_LARGE + extLen))
      else throw .malformedObject
  | .CounterLarge =>
      let extLen ← readUInt32LE data (offset + 4)
      if offset + NVM3_OBJ_HEADER_SIZE_LARGE + extLen ≤ data.length then
        return (⟨.CounterLarge, key, frag, some ((data.drop (offset + 8)).take extLen)⟩,
          objConsumed data offset (NVM3_OBJ_HEADER_SIZE_LARGE + extLen))
      else throw .malformedObject

/-- The iteration of `read_objects`, with fuel (each decoded object consumes
at least 4 bytes, so `data.length` iterations always suffice). -/
def readObjectsGo (data : Buffer) : Nat → Nat → Except NVMError (List NVMObject)
  | 0, _ => .ok []
  | fuel + 1, offset =>
    if data.length < offset + 4 then .ok []
    else do
      let w ← readUInt32LE data offset
      if w = 0xFFFFFFFF then return []
      else
        let (o, n) ← readObject data offset
        let rest ← readObjectsGo data fuel (offset + n)
        return o :: rest

/-- Modelled from the spec: `read_objects(page_body)` repeatedly decodes
objects until the next word is the erased pattern (all 0xFF) or the body
ends. -/
def readObjects (data : Buffer) : Except NVMError (List NVMObject) :=
  readObjectsGo data (data.length + 1) 0

/-- Split a list into chunks of `n` elements (the last may be shorter),
fuel-based so that it reduces in the kernel (`l.length` is always enough
fuel since each step drops at least one element). A chunk size of 0 yields
the list whole. -/
def chunkListGo (n : Nat) : Nat → Buffer → List Buffer
  | 0, l => if l = [] then [] else [l]
  | fuel + 1, l =>
    if l = [] then []
    else if n = 0 then [l]
    else l.take n :: chunkListGo n fuel (l.drop n)

/-- Split a list into chunks of `n` elements (the last may be shorter). -/
def chunkList (n : Nat) (l : Buffer) : List Buffer := chunkListGo n l.length l

/-- Label the fragments after the first: `next`* then a final `last`. -/
def fragTail (obj : NVMObject) : List Buffer → List NVMObject
  | [] => []
  | [p] => [{ obj with fragmentType := some .last, data := some p }]
  | p :: rest => { obj with fragmentType := some .next, data := some p } :: fragTail obj rest

/-- Modelled from the spec: `fragment_large_object(object, first_fit,
subsequent_fit)` returns the object itself when header + payload fit
`first_fit`, and otherwise splits the payload so that the first fragment
fits `first_fit` bytes and each subsequent fragment fits `subsequent_fit`
bytes, with statuses `first`, `next`*, `last`. -/
def fragmentLargeObject (obj : NVMObject) (maxFirstFragmentSize maxFragmentSize : Int) :
    List NVMObject :=
  let d := objData obj
  if ((NVM3_OBJ_HEADER_SIZE_LARGE + d.length : Nat) : Int) ≤ maxFirstFragmentSize then [obj]
  else
    let firstLen := (maxFirstFragmentSize - (NVM3_OBJ_HEADER_SIZE_LARGE : Int)).toNat
    let restLen := (maxFragmentSize - (NVM3_OBJ_HEADER_SIZE_LARGE : Int)).toNat
    { obj with fragmentType := some .first, data := some (d.take firstLen) } ::
      fragTail obj (chunkList restLen (d.drop firstLen))

/-- Ordered-map lookup (`Map.get`). -/
def mapGet {α : Type} (m : List (Nat × α)) (k : Nat) : Option α :=
  (m.find? (·.1 = k)).map (·.2)

/-- Ordered-map insert/overwrite (`Map.set`): overwriting keeps the key's
position in iteration order; a new key is appended. -/
def mapSet {α : Type} (m : List (Nat × α)) (k : Nat) (v : α) : List (Nat × α) :=
  if m.any (·.1 = k) then m.map (fun kv => if kv.1 = k then (k, v) else kv)
  else m ++ [(k, v)]

/-- Ordered-map delete (`Map.delete`). -/
def mapDelete {α : Type} (m : List (Nat × α)) (k : Nat) : List (Nat × α) :=
  m.filter (fun kv => kv.1 ≠ k)

/-- State of the compaction pass: the live map and, per key, the partially
reassembled fragmented object. -/
structure CompressState where
  live : List (Nat × NVMObject)
  partials : List (Nat × NVMObject)
  deriving Repr

/-- One step of compaction, in log order (spec: `Deleted` removes the key;
a complete object inserts/overwrites; fragments are buffered per key until
`last` arrives, a `first` discards an outstanding partial, and orphaned
`next`/`last` fragments are ignored). -/
def compressStep (st : CompressState) (obj : NVMObject) : CompressState :=
  match obj.type with
  | .Deleted => { st with live := mapDelete st.live obj.key }
  | .Link => st
  | _ =>
    match obj.fragmentType with
    | none => { st with live := mapSet st.live obj.key obj }
    | some .first => { st with partials := mapSet st.partials obj.key obj }
    | some .next =>
        match mapGet st.partials obj.key with
        | some acc =>
            let merged : NVMObject := { acc with data := some (objData acc ++ objData obj) }
            { st with partials := mapSet st.partials obj.key merged }
        | none => st
    | some .last =>
        match mapGet st.partials obj.key with
        | some acc =>
            let done : NVMObject :=
              { acc with fragmentType := none, data := some (objData acc ++ objData obj) }
            { live := mapSet st.live obj.key done,
              partials := mapDelete st.partials obj.key }
        | none => st

/-- Modelled from the spec: `compressObjects` reduces the ordered object log
to the live key → object map. -/
def compressObjects (objects : List NVMObject) : List (Nat × NVMObject) :=
  (objects.foldl compressStep ⟨[], []⟩).live

/-! ## Page codec (`src/packages/nvmedit/src/page.ts`) -/

def NVM3_MIN_PAGE_SIZE : Nat := 512

def FLASH_MAX_PAGE_SIZE : Nat := 2048

def NVM3_PAGE_HEADER_SIZE : Nat := 20

def NVM3_PAGE_COUNTER_SIZE : Nat := 27

def NVM3_PAGE_COUNTER_MASK : Nat := (1 <<< NVM3_PAGE_COUNTER_SIZE) - 1

def NVM3_PAGE_MAGIC : Nat := 0xb29a

/-- `PageStatus.OK`. -/
def PageStatus.OK : Nat := 0xffffffff

/-- `PageStatus.OK_ErasePending`. -/
def PageStatus.OK_ErasePending : Nat := 0xffffa5a5

/-- `PageStatus.Bad`. -/
def PageStatus.Bad : Nat := 0x0000ffff

/-- `PageStatus.Bad_ErasePending`. -/
def PageStatus.Bad_ErasePending : Nat := 0x0000a5a5

/-- `PageWriteSize.WRITE_SIZE_32` (only single writes allowed). -/
def PageWriteSize.WRITE_SIZE_32 : Nat := 0

/-- `PageWriteSize.WRITE_SIZE_16` (two writes allowed). -/
def PageWriteSize.WRITE_SIZE_16 : Nat := 1

/-- `PageHeader` from `page.ts` (the status is the raw u32 word). -/
structure PageHeader where
  offset : Nat
  version : Nat
  eraseCount : Nat
  status : Nat
  encrypted : Bool
  pageSize : Nat
  writeSize : Nat
  memoryMapped : Bool
  deviceFamily : Nat
  deriving Repr, DecidableEq

/-- `NVMPage` from `page.ts`. -/
structure NVMPage where
  header : PageHeader
  objects : List NVMObject
  deriving Repr, DecidableEq

/-- `pageSizeToBits`: `Math.ceil(Math.log2(pageSize) - Math.log2(512))`,
i.e. `ceil(log2 pageSize) - 9` (negative for sizes below 512, matching the
JS real-valued computation). -/
def pageSizeToBits (pageSize : Nat) : Int :=
  (ceilLog2 pageSize : Int) - 9

/-- `pageSizeFromBits`: `512 * 2 ** bits`. -/
def pageSizeFromBits (bits : Nat) : Nat :=
  NVM3_MIN_PAGE_SIZE * 2 ^ bits

/-- `readPage(buffer, offset)` from `page.ts`: validates magic and version,
decodes and validates both Berger-coded erase-count words and their mutual
complement, decodes the device info, clamps the declared page size to the
flash maximum, checks the buffer holds the whole page, slices the body and
delegates to `readObjects`. -/
def readPage (buffer : Buffer) (offset : Nat) : Except NVMError (NVMPage × Nat) := do
  let version ← readUInt16LE buffer offset
  let magic ← readUInt16LE buffer (offset + 2)
  if magic ≠ NVM3_PAGE_MAGIC then throw .badMagic
  if version ≠ 0x01 then throw (.unsupportedVersion version)
  let ecWord ← readUInt32LE buffer (offset + 4)
  let eraseCountCode := ecWord >>> NVM3_PAGE_COUNTER_SIZE
  let eraseCount := ecWord &&& NVM3_PAGE_COUNTER_MASK
  validateBergerCode eraseCount eraseCountCode NVM3_PAGE_COUNTER_SIZE
  let ecInvWord ← readUInt32LE buffer (offset + 8)
  let eraseCountInvCode := ecInvWord >>> NVM3_PAGE_COUNTER_SIZE
  let eraseCountInv := ecInvWord &&& NVM3_PAGE_COUNTER_MASK
  validateBergerCode eraseCountInv eraseCountInvCode NVM3_PAGE_COUNTER_SIZE
  -- `eraseCount !== (~eraseCountInv & NVM3_PAGE_COUNTER_MASK)`
  if eraseCount ≠ NVM3_PAGE_COUNTER_MASK ^^^ eraseCountInv then throw .eraseCountMismatch
  let status ← readUInt32LE buffer (offset + 12)
  let devInfo ← readUInt16LE buffer (offset + 16)
  let deviceFamily := devInfo &&& 0x7ff
  let writeSize := (devInfo >>> 11) &&& 0b1
  let memoryMapped := ((devInfo >>> 12) &&& 0b1) ≠ 0
  let pageSize := pageSizeFromBits ((devInfo >>> 13) &&& 0b111)
  let actualPageSize := min pageSize FLASH_MAX_PAGE_SIZE
  if buffer.length < offset + actualPageSize then throw .shortBuffer
  let formatInfo ← readUInt16LE buffer (offset + 18)
  let encrypted := formatInfo &&& 0b1 = 0
  let header : PageHeader :=
    { offset, version, eraseCount, status, encrypted, pageSize, writeSize,
      memoryMapped, deviceFamily }
  let bytesRead := actualPageSize
  let data := (buffer.drop (offset + 20)).take (bytesRead - 20)
  let objects ← readObjects data
  return ({ header, objects }, bytesRead)

/-- `writePageHeader(header)` from `page.ts`: emits the 20-byte header with
freshly computed Berger codes. The 32-bit erase-count words are stored via
`writeInt32LE`, whose int32 argument always fits, so only the device-info
`writeUInt16LE` can fail (JS `RangeError` for a value outside 0..0xFFFF,
as happens for page sizes below 512 or above 65536). -/
def writePageHeader (version eraseCount status : Nat) (encrypted : Bool)
    (pageSize writeSize : Nat) (memoryMapped : Bool) (deviceFamily : Nat) :
    Except NVMError Buffer := do
  let versionBytes ← writeUInt16LEChecked (version : Int)
  let magicBytes := u16Bytes NVM3_PAGE_MAGIC
  let ec := eraseCount &&& NVM3_PAGE_COUNTER_MASK
  let ecWord := ec ||| (computeBergerCode ec NVM3_PAGE_COUNTER_SIZE <<< NVM3_PAGE_COUNTER_SIZE)
  -- `~header.eraseCount & NVM3_PAGE_COUNTER_MASK`
  let ecInv := NVM3_PAGE_COUNTER_MASK ^^^ (eraseCount &&& NVM3_PAGE_COUNTER_MASK)
  let ecInvWord := ecInv |||
    (computeBergerCode ecInv NVM3_PAGE_COUNTER_SIZE <<< NVM3_PAGE_COUNTER_SIZE)
  let statusBytes ← writeUInt32LEChecked status
  let devInfoBase := (deviceFamily &&& 0x7ff) ||| ((writeSize &&& 0b1) <<< 11) |||
    ((if memoryMapped then 1 else 0) <<< 12)
  let bits := pageSizeToBits pageSize
  let devInfoBytes ←
    if bits < 0 then throw .rangeError
    else writeUInt16LEChecked ((devInfoBase ||| (bits.toNat <<< 13) : Nat) : Int)
  let formatInfo := if encrypted then 0xfffe else 0xffff
  return versionBytes ++ magicBytes ++ u32Bytes ecWord ++ u32Bytes ecInvWord ++
    statusBytes ++ devInfoBytes ++ u16Bytes formatInfo

/-! ## Image codec (`src/unnamed/part_000`): `parseNVM` and `encodeNVM` -/

def ZWAVE_APPLICATION_NVM_SIZE : Nat := 0x3000

/-- `0xc000 - ZWAVE_APPLICATION_NVM_SIZE` (= 0x9000). -/
def ZWAVE_PROTOCOL_NVM_SIZE : Nat := 0xc000 - ZWAVE_APPLICATION_NVM_SIZE

/-- `comparePages(p1, p2)`: erase count difference, ties broken by the
original byte offset difference. -/
def comparePages (p1 p2 : NVMPage) : Int :=
  if p1.header.eraseCount = p2.header.eraseCount then
    (p1.header.offset : Int) - (p2.header.offset : Int)
  else
    (p1.header.eraseCount : Int) - (p2.header.eraseCount : Int)

/-- Stable insertion of a page into an already-processed prefix: the page
goes after every earlier page that compares `≤ 0` against it, which is the
placement a stable comparator sort (JS `Array.prototype.sort`) produces. -/
def insertPageSorted (p : NVMPage) : List NVMPage → List NVMPage
  | [] => [p]
  | q :: qs => if comparePages q p ≤ 0 then q :: insertPageSorted p qs else p :: q :: qs

/-- `pages.sort(comparePages)` as a stable insertion sort. -/
def sortPages (pages : List NVMPage) : List NVMPage :=
  pages.foldl (fun acc p => insertPageSorted p acc) []

/-- The page-walking loop of `parseNVM`, with fuel (every page reads at
least 512 bytes, so `buffer.length` iterations always suffice). -/
def parsePagesGo (buffer : Buffer) : Nat → Nat → Except NVMError (List NVMPage)
  | 0, _ => .ok []
  | fuel + 1, offset =>
    if offset < buffer.length then do
      let (page, bytesRead) ← readPage buffer offset
      let rest ← parsePagesGo buffer fuel (offset + bytesRead)
      return page :: rest
    else .ok []

/-- The result record of `parseNVM`. -/
structure ParseResult where
  applicationPages : List NVMPage
  protocolPages : List NVMPage
  applicationObjects : List (Nat × NVMObject)
  protocolObjects : List (Nat × NVMObject)
  deriving Repr

/-- `parseNVM(buffer)`: walk the buffer into pages, partition by offset into
application (< 0x3000) and protocol (≥ 0x3000) regions, sort each partition
in ring order with `comparePages`, concatenate each partition's objects in
sorted order and compact them (the `verbose` logging parameter is dropped). -/
def parseNVM (buffer : Buffer) : Except NVMError ParseResult := do
  let pages ← parsePagesGo buffer (buffer.length + 1) 0
  let applicationPages :=
    pages.filter (fun p => p.header.offset < ZWAVE_APPLICATION_NVM_SIZE)
  let protocolPages :=
    pages.filter (fun p => ZWAVE_APPLICATION_NVM_SIZE ≤ p.header.offset)
  let appSorted := sortPages applicationPages
  let protoSorted := sortPages protocolPages
  let applicationObjects :=
    compressObjects (appSorted.foldl (fun acc page => acc ++ page.objects) [])
  let protocolObjects :=
    compressObjects (protoSorted.foldl (fun acc page => acc ++ page.objects) [])
  return { applicationPages := appSorted, protocolPages := protoSorted,
           applicationObjects, protocolObjects }

/-- `EncodeNVMOptions`: all fields optional. -/
structure EncodeNVMOptions where
  pageSize : Option Nat := none
  deviceFamily : Option Nat := none
  writeSize : Option Nat := none
  memoryMapped : Option Bool := none
  deriving Repr

/-- The mutable placement state of `writeObjects`: the region's page
buffers, `pageIndex` (starts at −1) and `offsetInPage`. `writes` is an
observation log of `(pageIndex, offsetInPage, bytes)` recorded at each
`objBuffer.copy(currentPage, offsetInPage)` call; it does not affect the
produced bytes. -/
structure WriteState where
  pages : List Buffer
  pageIndex : Int
  offsetInPage : Nat
  writes : List (Int × Nat × Buffer)

/-- `remainingSpace = pageSize - offsetInPage` (may be negative). -/
def remainingSpace (pageSize : Nat) (st : WriteState) : Int :=
  (pageSize : Int) - (st.offsetInPage : Int)

/-- `nextPage()`: advance to the next page of the region, failing
(`Not enough pages!`) when the index moves past the region's last page. -/
def nextPage (st : WriteState) : Except NVMError WriteState :=
  let pageIndex := st.pageIndex + 1
  if (st.pages.length : Int) ≤ pageIndex then .error .insufficientSpace
  else .ok { st with pageIndex, offsetInPage := NVM3_PAGE_HEADER_SIZE }

/-- Serialize one fragment and copy it into the current page at
`offsetInPage`, then `incrementOffset` by the 4-byte-aligned length. -/
def writeFragment (st : WriteState) (fragment : NVMObject) : WriteState :=
  let objBuffer := writeObject fragment
  let pi := st.pageIndex.toNat
  let page' := bufCopy objBuffer (st.pages.getD pi []) st.offsetInPage
  { st with pages := st.pages.set pi page',
            offsetInPage := st.offsetInPage + align4 objBuffer.length,
            writes := st.writes ++ [(st.pageIndex, st.offsetInPage, objBuffer)] }

/-- The fragment loop: write each fragment and, when the object produced
more than one fragment (`multi`), advance to the next page after each. -/
def writeFragmentsGo (multi : Bool) (st : WriteState) :
    List NVMObject → Except NVMError WriteState
  | [] => .ok st
  | f :: rest => do
      let st := writeFragment st f
      let st ← if multi then nextPage st else pure st
      writeFragmentsGo multi st rest

/-- The body of the `writeObjects` loop for one object: skip `Deleted`
entries; advance to the next page for a small object that does not fit
(`remainingSpace < header + counter size` for `CounterSmall`,
`remainingSpace < header + payload length` for `DataSmall` — small objects
cannot be fragmented); fragment large objects with the pre-advance
remaining space (a large object never takes the small-advance branch, so
the remaining space is unchanged when `fragmentLargeObject` is called);
then write the fragments. -/
def placeObject (pageSize : Nat) (st0 : WriteState) (obj : NVMObject) :
    Except NVMError WriteState := do
  if obj.type = .Deleted then return st0
  let st1 ←
    if (obj.type = .CounterSmall ∧
          remainingSpace pageSize st0 <
            ((NVM3_OBJ_HEADER_SIZE_SMALL + NVM_COUNTER_SIZE : Nat) : Int)) ∨
       (obj.type = .DataSmall ∧
          remainingSpace pageSize st0 <
            ((NVM3_OBJ_HEADER_SIZE_SMALL + (objData obj).length : Nat) : Int))
    then nextPage st0 else pure st0
  let fragments :=
    if obj.type = .DataLarge ∨ obj.type = .CounterLarge then
      fragmentLargeObject obj (remainingSpace pageSize st0)
        ((pageSize : Int) - (NVM3_PAGE_HEADER_SIZE : Int))
    else [obj]
  writeFragmentsGo (decide (1 < fragments.length)) st1 fragments

/-- `writeObjects(pages, objects)`: start on the first page and place every
object of the map, in iteration order, returning the final state. -/
def writeObjects (pageSize : Nat) (pages : List Buffer)
    (objects : List (Nat × NVMObject)) : Except NVMError WriteState := do
  let st ← nextPage { pages, pageIndex := -1, offsetInPage := 0, writes := [] }
  (objects.map Prod.snd).foldlM (placeObject pageSize) st

/-- `encodeNVM(applicationObjects, protocolObjects, options?)`: allocate
`0x3000 / pageSize` application pages and `0x9000 / pageSize` protocol
pages, each a fresh `0xff`-filled page with a header (erase count 0, status
OK), place each region's objects, and concatenate application pages then
protocol pages. The JS `for (let i = 0; i < size / pageSize; i++)` loop
over a real-valued quotient runs ⌈size / pageSize⌉ times (for `pageSize = 0`
the JS loop does not terminate; the model returns 0 pages, and every
theorem below stays away from that point). -/
def encodeNVM (applicationObjects protocolObjects : List (Nat × NVMObject))
    (options : Option EncodeNVMOptions) : Except NVMError Buffer := do
  let opts := options.getD {}
  let pageSize := opts.pageSize.getD FLASH_MAX_PAGE_SIZE
  let deviceFamily := opts.deviceFamily.getD 2047
  let writeSize := opts.writeSize.getD PageWriteSize.WRITE_SIZE_16
  let memoryMapped := opts.memoryMapped.getD true
  let header ← writePageHeader 0x01 0 PageStatus.OK false pageSize writeSize
    memoryMapped deviceFamily
  let createEmptyPage := bufCopy header (List.replicate pageSize 0xff) 0
  let appPageCount := (ZWAVE_APPLICATION_NVM_SIZE + pageSize - 1) / pageSize
  let protocolPageCount := (ZWAVE_PROTOCOL_NVM_SIZE + pageSize - 1) / pageSize
  let applicationPages := List.replicate appPageCount createEmptyPage
  let protocolPages := List.replicate protocolPageCount createEmptyPage
  let stA ← writeObjects pageSize applicationPages applicationObjects
  let stP ← writeObjects pageSize protocolPages protocolObjects
  return stA.pages.flatten ++ stP.pages.flatten

/-! ## General lemmas about the embedding -/

theorem except_bind_ok {α β : Type} {x : Except NVMError α} {f : α → Except NVMError β}
    {b : β} (h : x >>= f = .ok b) : ∃ a, x = .ok a ∧ f a = .ok b := by
  cases x with
  | ok a => exact ⟨a, rfl, h⟩
  | error e => simp [Bind.bind, Except.bind] at h

theorem except_bind_ok' {α β : Type} {x : Except NVMError α} {f : α → Except NVMError β}
    {b : β} (h : Except.bind x f = .ok b) : ∃ a, x = .ok a ∧ f a = .ok b :=
  except_bind_ok h

theorem foldlM_except_preserves {α σ : Type} {f : σ → α → Except NVMError σ}
    {P : σ → Prop} (hstep : ∀ s a s', P s → f s a = .ok s' → P s') :
    ∀ (l : List α) (s s' : σ), P s → List.foldlM f s l = .ok s' → P s' := by
  intro l
  induction l with
  | nil =>
      intro s s' hP h
      simp only [List.foldlM_nil, pure, Except.pure, Except.ok.injEq] at h
      exact h ▸ hP
  | cons a t ih =>
      intro s s' hP h
      rw [List.foldlM_cons] at h
      rcases except_bind_ok h with ⟨s1, hs1, hrest⟩
      exact ih s1 s' (hstep s a s1 hP hs1) hrest

/-- Pages shape invariant: the region has `n` pages, each of `sz` bytes. -/
def PagesInv (n sz : Nat) (st : WriteState) : Prop :=
  st.pages.length = n ∧ ∀ p ∈ st.pages, p.length = sz

theorem writeFragment_pages_length (st : WriteState) (f : NVMObject) :
    (writeFragment st f).pages.length = st.pages.length := by
  simp [writeFragment]

theorem writeFragment_pagesInv {n sz : Nat} (st : WriteState) (f : NVMObject)
    (h : PagesInv n sz st) : PagesInv n sz (writeFragment st f) := by
  obtain ⟨hn, hsz⟩ := h
  refine ⟨by simpa [writeFragment] using hn, ?_⟩
  intro p hp
  simp only [writeFragment] at hp
  by_cases hpi : st.pageIndex.toNat < st.pages.length
  · rcases List.mem_or_eq_of_mem_set hp with hmem | heq
    · exact hsz p hmem
    · subst heq
      rw [bufCopy_length]
      rw [List.getD_eq_getElem st.pages [] hpi]
      exact hsz _ (List.getElem_mem hpi)
  · rw [List.set_eq_of_length_le (le_of_not_lt hpi)] at hp
    exact hsz p hp

theorem nextPage_ok_pages {st st' : WriteState} (h : nextPage st = .ok st') :
    st'.pages = st.pages ∧ st'.pageIndex = st.pageIndex + 1 ∧
      st'.offsetInPage = NVM3_PAGE_HEADER_SIZE ∧ st'.writes = st.writes := by
  dsimp only [nextPage] at h
  split at h
  · exact absurd h (by simp)
  · simp only [Except.ok.injEq] at h
    subst h
    exact ⟨rfl, rfl, rfl, rfl⟩

theorem nextPage_ok_pagesInv {n sz : Nat} {st st' : WriteState}
    (h : nextPage st = .ok st') (hP : PagesInv n sz st) : PagesInv n sz st' := by
  obtain ⟨hpg, -, -⟩ := nextPage_ok_pages h
  unfold PagesInv
  rw [hpg]
  exact hP

theorem writeFragmentsGo_pagesInv {n sz : Nat} (multi : Bool) :
    ∀ (l : List NVMObject) (st st' : WriteState), PagesInv n sz st →
      writeFragmentsGo multi st l = .ok st' → PagesInv n sz st' := by
  intro l
  induction l with
  | nil =>
      intro st st' hP h
      simp only [writeFragmentsGo, Except.ok.injEq] at h
      exact h ▸ hP
  | cons f rest ih =>
      intro st st' hP h
      simp only [writeFragmentsGo] at h
      have hw := writeFragment_pagesInv st f hP
      cases multi with
      | true =>
          rw [if_pos rfl] at h
          rcases except_bind_ok h with ⟨st1, hst1, hrest⟩
          exact ih st1 st' (nextPage_ok_pagesInv hst1 hw) hrest
      | false =>
          rw [if_neg (by simp)] at h
          rcases except_bind_ok h with ⟨st1, hst1, hrest⟩
          simp only [pure, Except.pure, Except.ok.injEq] at hst1
          exact ih st1 st' (hst1 ▸ hw) hrest

theorem placeObject_pagesInv {n sz : Nat} (ps : Nat) (st st' : WriteState)
    (obj : NVMObject) (hP : PagesInv n sz st)
    (h : placeObject ps st obj = .ok st') : PagesInv n sz st' := by
  unfold placeObject at h
  by_cases hdel : obj.type = .Deleted
  · rw [if_pos hdel] at h
    simp only [pure, Except.pure, Except.ok.injEq] at h
    exact h ▸ hP
  · rw [if_neg hdel] at h
    rcases except_bind_ok h with ⟨u, -, h2⟩
    dsimp only at h2
    split at h2
    · rcases except_bind_ok h2 with ⟨st1, hst1, hrest⟩
      exact writeFragmentsGo_pagesInv _ _ st1 st' (nextPage_ok_pagesInv hst1 hP) hrest
    · rcases except_bind_ok h2 with ⟨st1, hst1, hrest⟩
      simp only [pure, Except.pure, Except.ok.injEq] at hst1
      exact writeFragmentsGo_pagesInv _ _ st1 st' (hst1 ▸ hP) hrest

theorem writeObjects_pagesInv {sz : Nat} (ps : Nat) (pages : List Buffer)
    (objs : List (Nat × NVMObject)) (st' : WriteState)
    (hsz : ∀ p ∈ pages, p.length = sz)
    (h : writeObjects ps pages objs = .ok st') :
    PagesInv pages.length sz st' := by
  unfold writeObjects at h
  rcases except_bind_ok h with ⟨st1, hst1, hrest⟩
  have hP1 : PagesInv pages.length sz st1 := nextPage_ok_pagesInv hst1 ⟨rfl, hsz⟩
  exact foldlM_except_preserves
    (fun s a s2 hPs hf => placeObject_pagesInv ps s s2 a hPs hf) _ st1 st' hP1 hrest

theorem flatten_length_const {l : List Buffer} {sz : Nat}
    (h : ∀ p ∈ l, p.length = sz) : l.flatten.length = l.length * sz := by
  induction l with
  | nil => simp
  | cons p t ih =>
      simp only [List.flatten_cons, List.length_append, List.length_cons]
      rw [h p (by simp), ih (fun q hq => h q (by simp [hq]))]
      ring

/-- The default empty page `encodeNVM` builds: 2048 bytes of 0xff with the
default header (version 1, erase count 0, status OK, device family 2047,
write size 16, memory-mapped) copied at offset 0. -/
def defaultPageHeaderBytes : Buffer :=
  [0x01, 0x00, 0x9a, 0xb2, 0x00, 0x00, 0x00, 0xd8, 0xff, 0xff, 0xff, 0x07,
   0xff, 0xff, 0xff, 0xff, 0xff, 0x5f, 0xff, 0xff]

theorem writePageHeader_default :
    writePageHeader 0x01 0 PageStatus.OK false FLASH_MAX_PAGE_SIZE
      PageWriteSize.WRITE_SIZE_16 true 2047 = .ok defaultPageHeaderBytes := rfl

def emptyPageDefault : Buffer :=
  bufCopy defaultPageHeaderBytes (List.replicate FLASH_MAX_PAGE_SIZE 0xff) 0

theorem emptyPageDefault_length : emptyPageDefault.length = FLASH_MAX_PAGE_SIZE := by
  simp [emptyPageDefault, bufCopy_length]

/-- With default options, `encodeNVM` is the placement of the two regions
over 6 application and 18 protocol empty pages. -/
theorem encodeNVM_none_eq (A P : List (Nat × NVMObject)) :
    encodeNVM A P none =
      (writeObjects FLASH_MAX_PAGE_SIZE (List.replicate 6 emptyPageDefault) A) >>=
        (fun stA =>
          (writeObjects FLASH_MAX_PAGE_SIZE (List.replicate 18 emptyPageDefault) P) >>=
            (fun stP => pure (stA.pages.flatten ++ stP.pages.flatten))) := rfl

theorem encodeNVM_default_regions (A P : List (Nat × NVMObject)) (buf : Buffer)
    (h : encodeNVM A P none = .ok buf) :
    ∃ app proto, buf = app ++ proto ∧ app.length = ZWAVE_APPLICATION_NVM_SIZE ∧
      proto.length = ZWAVE_PROTOCOL_NVM_SIZE := by
  rw [encodeNVM_none_eq] at h
  rcases except_bind_ok h with ⟨stA, hA, h2⟩
  rcases except_bind_ok h2 with ⟨stP, hP, h3⟩
  simp only [pure, Except.pure, Except.ok.injEq] at h3
  have hmem : ∀ p ∈ List.replicate 6 emptyPageDefault, p.length = FLASH_MAX_PAGE_SIZE :=
    fun p hp => (List.eq_of_mem_replicate hp) ▸ emptyPageDefault_length
  have hmem' : ∀ p ∈ List.replicate 18 emptyPageDefault, p.length = FLASH_MAX_PAGE_SIZE :=
    fun p hp => (List.eq_of_mem_replicate hp) ▸ emptyPageDefault_length
  have hinvA := writeObjects_pagesInv _ _ _ _ hmem hA
  have hinvP := writeObjects_pagesInv _ _ _ _ hmem' hP
  refine ⟨stA.pages.flatten, stP.pages.flatten, h3.symm, ?_, ?_⟩
  · rw [flatten_length_const hinvA.2, hinvA.1]
    simp [List.length_replicate, FLASH_MAX_PAGE_SIZE, ZWAVE_APPLICATION_NVM_SIZE]
  · rw [flatten_length_const hinvP.2, hinvP.1]
    simp [List.length_replicate, FLASH_MAX_PAGE_SIZE, ZWAVE_PROTOCOL_NVM_SIZE,
      ZWAVE_APPLICATION_NVM_SIZE]

theorem log2FloorGo_spec :
    ∀ fuel n, n ≤ fuel → 1 ≤ n →
      2 ^ log2FloorGo fuel n ≤ n ∧ n < 2 ^ (log2FloorGo fuel n + 1) := by
  intro fuel
  induction fuel with
  | zero => intro n hn h1; omega
  | succ f ih =>
      intro n hn h1
      simp only [log2FloorGo]
      by_cases h2 : n < 2
      · rw [if_pos h2]; simp; omega
      · rw [if_neg h2]
        have hrec := ih (n / 2) (by omega) (by omega)
        constructor
        · calc 2 ^ (log2FloorGo f (n / 2) + 1) = 2 ^ log2FloorGo f (n / 2) * 2 := by ring
          _ ≤ n / 2 * 2 := by exact Nat.mul_le_mul_right 2 hrec.1
          _ ≤ n := by omega
        · calc n < n / 2 * 2 + 2 := by omega
          _ ≤ 2 ^ (log2FloorGo f (n / 2) + 1) * 2 := by
              have := hrec.2; omega
          _ = 2 ^ (log2FloorGo f (n / 2) + 1 + 1) := by ring

theorem ceilLog2_le_bound {p : Nat} (h2 : 2 ≤ p) :
    p ≤ 2 ^ ceilLog2 p ∧ 2 ^ (ceilLog2 p - 1) < p := by
  have hspec := log2FloorGo_spec (p - 1) (p - 1) (le_refl _) (by omega)
  unfold ceilLog2
  rw [if_neg (by omega)]
  constructor
  · have := hspec.2
    calc p ≤ (p - 1) + 1 := by omega
    _ ≤ 2 ^ (log2FloorGo (p - 1) (p - 1) + 1) := by omega
  · simp only [Nat.add_sub_cancel]
    have := hspec.1
    omega

theorem ceilLog2_range {p : Nat} (hlo : 512 ≤ p) (hhi : p ≤ 65536) :
    9 ≤ ceilLog2 p ∧ ceilLog2 p ≤ 16 := by
  obtain ⟨hup, hdown⟩ := ceilLog2_le_bound (p := p) (by omega)
  constructor
  · by_contra hc
    push_neg at hc
    have : 2 ^ ceilLog2 p ≤ 2 ^ 8 := Nat.pow_le_pow_right (by omega) (by omega)
    omega
  · by_contra hc
    push_neg at hc
    have : 2 ^ 16 ≤ 2 ^ (ceilLog2 p - 1) := Nat.pow_le_pow_right (by omega) (by omega)
    omega

theorem ok_bind {α β : Type} (a : α) (f : α → Except NVMError β) :
    (Except.ok a : Except NVMError α) >>= f = f a := rfl

theorem pureu_bind {α β : Type} (a : α) (f : α → Except NVMError β) :
    (pure a : Except NVMError α) >>= f = f a := rfl

theorem devInfo_or_bound {base t : Nat} (hbase : base ≤ 0x1fff) (ht : t ≤ 7) :
    base ||| (t <<< 13) ≤ 0xffff := by
  have h2 : t <<< 13 < 2 ^ 16 := by
    have : t <<< 13 = t * 2 ^ 13 := by simp [Nat.shiftLeft_eq]
    omega
  have h3 : base < 2 ^ 16 := by omega
  have := Nat.or_lt_two_pow h3 h2
  omega

theorem writePageHeader_ok_of_pageSize {p : Nat} (hlo : 512 ≤ p) (hhi : p ≤ 65536) :
    ∃ b, writePageHeader 0x01 0 PageStatus.OK false p
      PageWriteSize.WRITE_SIZE_16 true 2047 = .ok b := by
  obtain ⟨h9, h16⟩ := ceilLog2_range hlo hhi
  have hbits : ¬ pageSizeToBits p < 0 := by
    unfold pageSizeToBits; omega
  have htoNat : (pageSizeToBits p).toNat ≤ 7 := by
    unfold pageSizeToBits; omega
  unfold writePageHeader
  simp only [show writeUInt16LEChecked (((0x01 : Nat) : Int)) = .ok [1, 0] from rfl,
    show writeUInt32LEChecked PageStatus.OK = .ok [255, 255, 255, 255] from rfl,
    if_true, show u16Bytes (if false = true then 65534 else 65535) = [255, 255] from rfl,
    ok_bind]
  rw [if_neg hbits]
  simp only [writeUInt16LEChecked]
  split
  · simp only [ok_bind]
    exact ⟨_, rfl⟩
  · rename_i hcond
    exact absurd ⟨Int.natCast_nonneg _,
      by exact_mod_cast devInfo_or_bound (by decide) htoNat⟩ hcond

theorem writeObjects_nil_ok (ps : Nat) (pages : List Buffer) (h : pages ≠ []) :
    ∃ st, writeObjects ps pages [] = .ok st := by
  have hlen : 0 < pages.length := List.length_pos.mpr h
  unfold writeObjects nextPage
  rw [if_neg (by push_cast; omega)]
  exact ⟨_, rfl⟩

/-! ## Claim C1 -/

/-- Claim C1 counterexample: `encode_nvm(∅, ∅)` with default options
succeeds, and the returned buffer has 0xC000 bytes, not the claimed
0xF000: the protocol region is `0xC000 − 0x3000 = 0x9000` bytes, so the
total image is 0xC000 bytes. -/
theorem C1_counterexample :
    ∃ buf, encodeNVM [] [] none = .ok buf ∧
      buf.length = 0xc000 ∧ ¬ buf.length = 0xf000 := by
  have hok : (encodeNVM [] [] none).isOk = true := rfl
  cases h : encodeNVM [] [] none with
  | ok buf =>
      rcases encodeNVM_default_regions [] [] buf h with ⟨app, proto, hsum, happ, hproto⟩
      have : buf.length = 0xc000 := by
        rw [hsum]
        simp [happ, hproto, ZWAVE_APPLICATION_NVM_SIZE, ZWAVE_PROTOCOL_NVM_SIZE]
      exact ⟨buf, rfl, this, by omega⟩
  | error e =>
      rw [h] at hok
      simp [Except.isOk, Except.toBool] at hok

/-- Claim C1 (corrected): for every call of `encodeNVM` with default
options that returns a buffer, the buffer is the application region bytes
followed by the protocol region bytes, where the application region
occupies 0x3000 bytes and the protocol region 0x9000 bytes, for a total of
0xC000 bytes (the claimed protocol size 0xC000 and total 0xF000 do not
match the code). -/
theorem C1_theorem (A P : List (Nat × NVMObject)) (buf : Buffer)
    (h : encodeNVM A P none = .ok buf) :
    ∃ app proto, buf = app ++ proto ∧ app.length = ZWAVE_APPLICATION_NVM_SIZE ∧
      proto.length = ZWAVE_PROTOCOL_NVM_SIZE ∧ buf.length = 0xc000 := by
  rcases encodeNVM_default_regions A P buf h with ⟨app, proto, hsum, happ, hproto⟩
  refine ⟨app, proto, hsum, happ, hproto, ?_⟩
  rw [hsum]
  simp [happ, hproto, ZWAVE_APPLICATION_NVM_SIZE, ZWAVE_PROTOCOL_NVM_SIZE]

/-! ## Claim C2 -/

/-- Claim C2 counterexample: `pageSize = 2560` divides neither region size,
yet `encode_nvm` succeeds and produces a buffer — there is no
`InvalidOption` validation in the code. -/
theorem C2_counterexample :
    (encodeNVM [] [] (some { pageSize := some 2560 })).isOk = true ∧
      ¬ ((2560 : Nat) ∣ ZWAVE_APPLICATION_NVM_SIZE) := by
  constructor
  · rfl
  · decide

/-- Claim C2 (corrected): `encode_nvm` performs no page-size validation at
all. For every `pageSize` between 512 and 65536 — whether or not it divides
the region sizes — encoding two empty maps succeeds and returns a buffer
instead of failing with `InvalidOption`. -/
theorem C2_theorem (p : Nat) (hlo : 512 ≤ p) (hhi : p ≤ 65536) :
    (encodeNVM [] [] (some { pageSize := some p })).isOk = true := by
  obtain ⟨hdr, hhdr⟩ := writePageHeader_ok_of_pageSize hlo hhi
  have h1 : (1 : Nat) ≤ (ZWAVE_APPLICATION_NVM_SIZE + p - 1) / p := by
    rw [Nat.one_le_div_iff (by omega)]
    unfold ZWAVE_APPLICATION_NVM_SIZE
    omega
  have h2 : (1 : Nat) ≤ (ZWAVE_PROTOCOL_NVM_SIZE + p - 1) / p := by
    rw [Nat.one_le_div_iff (by omega)]
    unfold ZWAVE_PROTOCOL_NVM_SIZE ZWAVE_APPLICATION_NVM_SIZE
    omega
  obtain ⟨stA, hstA⟩ := writeObjects_nil_ok p
    (List.replicate ((ZWAVE_APPLICATION_NVM_SIZE + p - 1) / p)
      (bufCopy hdr (List.replicate p 0xff) 0))
    (List.length_pos.mp (by rw [List.length_replicate]; omega))
  obtain ⟨stP, hstP⟩ := writeObjects_nil_ok p
    (List.replicate ((ZWAVE_PROTOCOL_NVM_SIZE + p - 1) / p)
      (bufCopy hdr (List.replicate p 0xff) 0))
    (List.length_pos.mp (by rw [List.length_replicate]; omega))
  unfold encodeNVM
  simp only [Option.getD_some, Option.getD_none]
  rw [hhdr]
  simp only [ok_bind]
  rw [hstA]
  simp only [ok_bind]
  rw [hstP]
  simp only [ok_bind]
  rfl

/-! ## Claim C3 -/

/-- Claim C3: during placement, a `CounterSmall` object advances to the
next page when the remaining space is below header + counter size (= 20),
and a `DataSmall` object advances when it is below header + payload
length; in both cases the object is then written whole — a single
unfragmented write of the complete serialized object — at the start
(offset 20) of the next page. -/
theorem C3_theorem (ps : Nat) (st : WriteState) (obj : NVMObject)
    (hsmall : (obj.type = .CounterSmall ∧
        remainingSpace ps st <
          ((NVM3_OBJ_HEADER_SIZE_SMALL + NVM_COUNTER_SIZE : Nat) : Int)) ∨
      (obj.type = .DataSmall ∧
        remainingSpace ps st <
          ((NVM3_OBJ_HEADER_SIZE_SMALL + (objData obj).length : Nat) : Int)))
    (hroom : st.pageIndex + 1 < (st.pages.length : Int)) :
    (NVM3_OBJ_HEADER_SIZE_SMALL + NVM_COUNTER_SIZE : Nat) = 20 ∧
    ∃ st', placeObject ps st obj = .ok st' ∧
      st'.pageIndex = st.pageIndex + 1 ∧
      st'.writes = st.writes ++
        [(st.pageIndex + 1, NVM3_PAGE_HEADER_SIZE, writeObject obj)] ∧
      st'.offsetInPage = NVM3_PAGE_HEADER_SIZE + align4 (writeObject obj).length := by
  refine ⟨rfl, ?_⟩
  have hdel : ¬ obj.type = .Deleted := by
    rcases hsmall with ⟨h, -⟩ | ⟨h, -⟩ <;> simp [h]
  have hlarge : ¬ (obj.type = .DataLarge ∨ obj.type = .CounterLarge) := by
    rcases hsmall with ⟨h, -⟩ | ⟨h, -⟩ <;> simp [h]
  have hnp : nextPage st =
      .ok { st with pageIndex := st.pageIndex + 1, offsetInPage := NVM3_PAGE_HEADER_SIZE } := by
    unfold nextPage
    rw [if_neg (by omega)]
  unfold placeObject
  rw [if_neg hdel]
  simp only [ok_bind]
  rw [if_pos hsmall, hnp]
  simp only [ok_bind]
  rw [if_neg hlarge]
  refine ⟨_, rfl, ?_, ?_, ?_⟩ <;> simp [writeFragment]

/-- A concrete placement state for the C3 witness: two fresh 2048-byte
pages, currently at page 0 with only 8 bytes remaining. -/
def c3state : WriteState :=
  { pages := [List.replicate 2048 0xff, List.replicate 2048 0xff],
    pageIndex := 0, offsetInPage := 2040, writes := [] }

/-- A small counter object for the C3 witness. -/
def c3obj : NVMObject := ⟨.CounterSmall, 5, none, some [1, 2, 3, 4]⟩

/-- Witness for C3 at a concrete state: 8 bytes remain (< 20), so the
counter goes whole onto page 1 at offset 20. -/
theorem C3_witness :
    (NVM3_OBJ_HEADER_SIZE_SMALL + NVM_COUNTER_SIZE : Nat) = 20 ∧
    ∃ st', placeObject 2048 c3state c3obj = .ok st' ∧
      st'.pageIndex = c3state.pageIndex + 1 ∧
      st'.writes = c3state.writes ++
        [(c3state.pageIndex + 1, NVM3_PAGE_HEADER_SIZE, writeObject c3obj)] ∧
      st'.offsetInPage = NVM3_PAGE_HEADER_SIZE + align4 (writeObject c3obj).length :=
  C3_theorem 2048 c3state c3obj (Or.inl ⟨rfl, by decide⟩) (by decide)

/-! ## Claim C7 -/

/-- The write log a multi-fragment object produces: the first fragment at
the current `(pageIndex, offsetInPage)`, each following fragment at the
start of the next page. -/
def fragWrites (pi : Int) (off : Nat) : List NVMObject → List (Int × Nat × Buffer)
  | [] => []
  | f :: rest => (pi, off, writeObject f) :: fragWrites (pi + 1) NVM3_PAGE_HEADER_SIZE rest

theorem fragWrites_length (pi : Int) (off : Nat) (l : List NVMObject) :
    (fragWrites pi off l).length = l.length := by
  induction l generalizing pi off with
  | nil => rfl
  | cons f rest ih => simp [fragWrites, ih]

theorem fragWrites_pageIndex_ge (pi : Int) (off : Nat) (l : List NVMObject) :
    ∀ e ∈ fragWrites pi off l, pi ≤ e.1 := by
  induction l generalizing pi off with
  | nil => intro e he; simp [fragWrites] at he
  | cons f rest ih =>
      intro e he
      simp only [fragWrites, List.mem_cons] at he
      rcases he with rfl | he
      · simp
      · have := ih (pi + 1) NVM3_PAGE_HEADER_SIZE e he
        omega

theorem fragWrites_pairwise_lt (pi : Int) (off : Nat) (l : List NVMObject) :
    (fragWrites pi off l).Pairwise (fun a b => a.1 < b.1) := by
  induction l generalizing pi off with
  | nil => exact List.Pairwise.nil
  | cons f rest ih =>
      refine List.Pairwise.cons ?_ (ih (pi + 1) NVM3_PAGE_HEADER_SIZE)
      intro e he
      have := fragWrites_pageIndex_ge (pi + 1) NVM3_PAGE_HEADER_SIZE rest e he
      simp only
      omega

/-- Running the fragment loop with the page-advance flag set appends the
`fragWrites` log and advances one page per fragment. -/
theorem writeFragmentsGo_true_spec :
    ∀ (l : List NVMObject) (st st' : WriteState),
      writeFragmentsGo true st l = .ok st' →
      st'.writes = st.writes ++ fragWrites st.pageIndex st.offsetInPage l ∧
        st'.pageIndex = st.pageIndex + l.length := by
  intro l
  induction l with
  | nil =>
      intro st st' h
      simp only [writeFragmentsGo, Except.ok.injEq] at h
      subst h
      simp [fragWrites]
  | cons f rest ih =>
      intro st st' h
      simp only [writeFragmentsGo, if_true] at h
      rcases except_bind_ok h with ⟨st1, hst1, hrest⟩
      obtain ⟨hpg, hpi, hoff, hwr⟩ := nextPage_ok_pages hst1
      obtain ⟨hw, hp⟩ := ih st1 st' hrest
      constructor
      · rw [hw, hwr, hpi, hoff]
        simp only [writeFragment]
        simp [fragWrites, List.append_assoc]
      · rw [hp, hpi]
        simp only [writeFragment]
        simp [List.length_cons]
        omega

theorem fragTail_length (obj : NVMObject) : ∀ l : List Buffer, (fragTail obj l).length = l.length
  | [] => rfl
  | [_] => rfl
  | p :: q :: rest => by
      simp only [fragTail, List.length_cons]
      rw [fragTail_length obj (q :: rest)]
      simp

theorem chunkList_ne_nil {n : Nat} {l : Buffer} (h : l ≠ []) : chunkList n l ≠ [] := by
  unfold chunkList
  cases l with
  | nil => exact absurd rfl h
  | cons a t =>
      simp only [List.length_cons, chunkListGo]
      rw [if_neg (by simp)]
      split
      · simp
      · simp

theorem fragmentLargeObject_two {obj : NVMObject} {firstFit maxFrag : Int}
    (hbig : ¬ (((NVM3_OBJ_HEADER_SIZE_LARGE + (objData obj).length : Nat) : Int) ≤ firstFit))
    (hfirst : (firstFit - (NVM3_OBJ_HEADER_SIZE_LARGE : Int)).toNat < (objData obj).length) :
    2 ≤ (fragmentLargeObject obj firstFit maxFrag).length := by
  unfold fragmentLargeObject
  rw [if_neg hbig]
  simp only [List.length_cons, fragTail_length]
  have hdrop : (objData obj).drop ((firstFit - (NVM3_OBJ_HEADER_SIZE_LARGE : Int)).toNat) ≠ [] := by
    intro hc
    have := congrArg List.length hc
    simp only [List.length_drop, List.length_nil] at this
    omega
  have hpos : 0 < (chunkList ((maxFrag - (NVM3_OBJ_HEADER_SIZE_LARGE : Int)).toNat)
      ((objData obj).drop ((firstFit - (NVM3_OBJ_HEADER_SIZE_LARGE : Int)).toNat))).length :=
    List.length_pos.mpr (chunkList_ne_nil hdrop)
  omega

/-- Claim C7: when `fragmentLargeObject` returns more than one fragment for
a `CounterLarge` or `DataLarge` object, the writer advances to the next
page after writing each fragment, so the fragments land at strictly
increasing page indexes (one fragment per page) and the page index ends up
advanced by the number of fragments; in particular a `DataLarge` payload
exceeding one page body (`pageSize − 20`) yields at least 2 fragments. -/
theorem C7_theorem (ps : Nat) (st : WriteState) (obj : NVMObject) (st' : WriteState)
    (htype : obj.type = .DataLarge ∨ obj.type = .CounterLarge)
    (hok : placeObject ps st obj = .ok st') :
    (1 < (fragmentLargeObject obj (remainingSpace ps st)
        ((ps : Int) - (NVM3_PAGE_HEADER_SIZE : Int))).length →
      st'.writes = st.writes ++ fragWrites st.pageIndex st.offsetInPage
        (fragmentLargeObject obj (remainingSpace ps st)
          ((ps : Int) - (NVM3_PAGE_HEADER_SIZE : Int))) ∧
      (fragWrites st.pageIndex st.offsetInPage
        (fragmentLargeObject obj (remainingSpace ps st)
          ((ps : Int) - (NVM3_PAGE_HEADER_SIZE : Int)))).Pairwise (fun a b => a.1 < b.1) ∧
      st'.pageIndex = st.pageIndex + (fragmentLargeObject obj (remainingSpace ps st)
        ((ps : Int) - (NVM3_PAGE_HEADER_SIZE : Int))).length) ∧
    (obj.type = .DataLarge → NVM3_PAGE_HEADER_SIZE ≤ st.offsetInPage →
      ((ps - NVM3_PAGE_HEADER_SIZE : Nat) : Int) < ((objData obj).length : Int) →
      2 ≤ (fragmentLargeObject obj (remainingSpace ps st)
        ((ps : Int) - (NVM3_PAGE_HEADER_SIZE : Int))).length) := by
  have hdel : ¬ obj.type = .Deleted := by rcases htype with h | h <;> simp [h]
  have hsm : ¬ ((obj.type = .CounterSmall ∧
      remainingSpace ps st < ((NVM3_OBJ_HEADER_SIZE_SMALL + NVM_COUNTER_SIZE : Nat) : Int)) ∨
    (obj.type = .DataSmall ∧
      remainingSpace ps st <
        ((NVM3_OBJ_HEADER_SIZE_SMALL + (objData obj).length : Nat) : Int))) := by
    rcases htype with h | h <;> simp [h]
  unfold placeObject at hok
  rw [if_neg hdel] at hok
  rcases except_bind_ok hok with ⟨u, -, h2⟩
  dsimp only at h2
  rw [if_neg hsm] at h2
  rcases except_bind_ok h2 with ⟨st1, hst1, h3⟩
  simp only [pure, Except.pure, Except.ok.injEq] at hst1
  subst hst1
  rw [if_pos htype] at h3
  constructor
  · intro hmulti
    rw [decide_eq_true hmulti] at h3
    obtain ⟨hw, hp⟩ := writeFragmentsGo_true_spec _ st st' h3
    exact ⟨hw, fragWrites_pairwise_lt _ _ _, hp⟩
  · intro _ hoff hbig
    apply fragmentLargeObject_two
    · unfold remainingSpace
      unfold NVM3_OBJ_HEADER_SIZE_LARGE
      unfold NVM3_PAGE_HEADER_SIZE at hbig hoff
      omega
    · unfold remainingSpace
      unfold NVM3_OBJ_HEADER_SIZE_LARGE
      unfold NVM3_PAGE_HEADER_SIZE at hbig hoff
      omega

/-- A concrete placement state for the C7 witness: four fresh 64-byte
pages, at the start of page 0 (a small page size keeps the witness
evaluation shallow; `C7_theorem` is generic in the page size). -/
def c7state : WriteState :=
  { pages := List.replicate 4 (List.replicate 64 0xff),
    pageIndex := 0, offsetInPage := 20, writes := [] }

/-- A large data object whose 100-byte payload exceeds the 44-byte page
body. -/
def c7obj : NVMObject := ⟨.DataLarge, 9, none, some (List.replicate 100 7)⟩

set_option maxRecDepth 8192 in
/-- Witness for C7 at a concrete state and object. -/
theorem C7_witness :
    ∃ st', placeObject 64 c7state c7obj = .ok st' ∧
      ((1 < (fragmentLargeObject c7obj (remainingSpace 64 c7state)
          ((64 : Int) - (NVM3_PAGE_HEADER_SIZE : Int))).length →
        st'.writes = c7state.writes ++ fragWrites c7state.pageIndex c7state.offsetInPage
          (fragmentLargeObject c7obj (remainingSpace 64 c7state)
            ((64 : Int) - (NVM3_PAGE_HEADER_SIZE : Int))) ∧
        (fragWrites c7state.pageIndex c7state.offsetInPage
          (fragmentLargeObject c7obj (remainingSpace 64 c7state)
            ((64 : Int) - (NVM3_PAGE_HEADER_SIZE : Int)))).Pairwise
              (fun a b => a.1 < b.1) ∧
        st'.pageIndex = c7state.pageIndex +
          (fragmentLargeObject c7obj (remainingSpace 64 c7state)
            ((64 : Int) - (NVM3_PAGE_HEADER_SIZE : Int))).length) ∧
      (c7obj.type = .DataLarge → NVM3_PAGE_HEADER_SIZE ≤ c7state.offsetInPage →
        ((64 - NVM3_PAGE_HEADER_SIZE : Nat) : Int) < ((objData c7obj).length : Int) →
        2 ≤ (fragmentLargeObject c7obj (remainingSpace 64 c7state)
          ((64 : Int) - (NVM3_PAGE_HEADER_SIZE : Int))).length)) := by
  have hok : (placeObject 64 c7state c7obj).isOk = true := rfl
  cases h : placeObject 64 c7state c7obj with
  | ok st' => exact ⟨st', rfl, C7_theorem 64 c7state c7obj st' (Or.inl rfl) h⟩
  | error e =>
      rw [h] at hok
      simp [Except.isOk, Except.toBool] at hok

/-! ## Claim C9 -/

theorem except_bind_error {α β : Type} {x : Except NVMError α} {f : α → Except NVMError β}
    {e : NVMError} (h : x >>= f = .error e) :
    x = .error e ∨ ∃ a, x = .ok a ∧ f a = .error e := by
  cases x with
  | ok a => exact Or.inr ⟨a, rfl, h⟩
  | error e' =>
      left
      have : (Except.error e' : Except NVMError β) = .error e := h
      simp only [Except.error.injEq] at this
      rw [this]

theorem nextPage_error {st : WriteState} {e : NVMError}
    (h : nextPage st = .error e) : e = .insufficientSpace := by
  dsimp only [nextPage] at h
  split at h
  · simp only [Except.error.injEq] at h
    exact h.symm
  · exact absurd h (by simp)

theorem writeFragmentsGo_error (multi : Bool) :
    ∀ (l : List NVMObject) (st : WriteState) (e : NVMError),
      writeFragmentsGo multi st l = .error e → e = .insufficientSpace := by
  intro l
  induction l with
  | nil => intro st e h; simp [writeFragmentsGo] at h
  | cons f rest ih =>
      intro st e h
      simp only [writeFragmentsGo] at h
      cases multi with
      | true =>
          rw [if_pos rfl] at h
          rcases except_bind_error h with herr | ⟨st1, -, hrest⟩
          · exact nextPage_error herr
          · exact ih st1 e hrest
      | false =>
          rw [if_neg (by simp)] at h
          rcases except_bind_error h with herr | ⟨st1, -, hrest⟩
          · simp [pure, Except.pure] at herr
          · exact ih st1 e hrest

theorem placeObject_error (ps : Nat) (st : WriteState) (obj : NVMObject) (e : NVMError)
    (h : placeObject ps st obj = .error e) : e = .insufficientSpace := by
  unfold placeObject at h
  by_cases hdel : obj.type = .Deleted
  · rw [if_pos hdel] at h
    simp [pure, Except.pure] at h
  · rw [if_neg hdel] at h
    rcases except_bind_error h with herr | ⟨u, -, h2⟩
    · simp [pure, Except.pure] at herr
    · dsimp only at h2
      split at h2
      · rcases except_bind_error h2 with herr | ⟨st1, -, h3⟩
        · exact nextPage_error herr
        · exact writeFragmentsGo_error _ _ st1 e h3
      · rcases except_bind_error h2 with herr | ⟨st1, -, h3⟩
        · simp [pure, Except.pure] at herr
        · exact writeFragmentsGo_error _ _ st1 e h3

theorem foldlM_placeObject_error (ps : Nat) :
    ∀ (l : List NVMObject) (st : WriteState) (e : NVMError),
      List.foldlM (placeObject ps) st l = .error e → e = .insufficientSpace := by
  intro l
  induction l with
  | nil => intro st e h; simp [List.foldlM, pure, Except.pure] at h
  | cons a t ih =>
      intro st e h
      rw [List.foldlM_cons] at h
      rcases except_bind_error h with herr | ⟨st1, -, hrest⟩
      · exact placeObject_error ps st a e herr
      · exact ih st1 e hrest

theorem writeObjects_error (ps : Nat) (pages : List Buffer)
    (objs : List (Nat × NVMObject)) (e : NVMError)
    (h : writeObjects ps pages objs = .error e) : e = .insufficientSpace := by
  unfold writeObjects at h
  rcases except_bind_error h with herr | ⟨st1, -, hrest⟩
  · exact nextPage_error herr
  · exact foldlM_placeObject_error ps _ st1 e hrest

theorem encodeNVM_default_error (A P : List (Nat × NVMObject)) (e : NVMError)
    (h : encodeNVM A P none = .error e) : e = .insufficientSpace := by
  rw [encodeNVM_none_eq] at h
  rcases except_bind_error h with herr | ⟨stA, -, h2⟩
  · exact writeObjects_error _ _ _ _ herr
  · rcases except_bind_error h2 with herr | ⟨stP, -, h3⟩
    · exact writeObjects_error _ _ _ _ herr
    · simp [pure, Except.pure] at h3

theorem align4_le (n : Nat) : n ≤ align4 n := by
  unfold align4 NVM3_WORD_SIZE; omega

theorem align4_lt (n : Nat) : align4 n ≤ n + 3 := by
  unfold align4 NVM3_WORD_SIZE; omega

theorem align4_mod (n : Nat) : align4 n % 4 = 0 := by
  unfold align4 NVM3_WORD_SIZE; omega

theorem align4_idem (n : Nat) : align4 (align4 n) = align4 n := by
  unfold align4 NVM3_WORD_SIZE; omega

theorem padTo4_length (raw : Buffer) : (padTo4 raw).length = align4 raw.length := by
  have := align4_le raw.length
  simp only [padTo4, List.length_append, List.length_replicate]
  omega

theorem writeObject_dataSmall_length {o : NVMObject} (h : o.type = .DataSmall) :
    (writeObject o).length =
      align4 (NVM3_OBJ_HEADER_SIZE_SMALL + (objData o).length) := by
  obtain ⟨t, k, fr, dt⟩ := o
  simp only at h
  subst h
  simp [writeObject, padTo4_length, u32Bytes, objData, NVM3_OBJ_HEADER_SIZE_SMALL]
  congr 1
  omega

/-- Bytes one small object needs on a page: its aligned serialized size
(4-byte header plus payload, word-aligned). -/
def smallCost (o : NVMObject) : Nat :=
  align4 (4 + (objData o).length)

/-- The capacity the placement has consumed: full bodies of the pages
before the current one plus the bytes used on the current page. -/
def consumed (st : WriteState) : Int :=
  st.pageIndex * 2028 + ((st.offsetInPage : Int) - 20)

/-- State invariant of a placement running over default-sized pages on
small objects only. -/
def SmallInv (st : WriteState) : Prop :=
  0 ≤ st.pageIndex ∧ st.pageIndex < (st.pages.length : Int) ∧
    20 ≤ st.offsetInPage ∧ st.offsetInPage ≤ 2048 ∧ st.offsetInPage % 4 = 0

/-- The state after `nextPage` succeeds: next page, offset 20. -/
def advancePage (st : WriteState) : WriteState :=
  { st with pageIndex := st.pageIndex + 1, offsetInPage := NVM3_PAGE_HEADER_SIZE }

theorem placeObject_small_char (ps : Nat) (st : WriteState) (o : NVMObject)
    (st' : WriteState) (htype : o.type = .DataSmall)
    (hok : placeObject ps st o = .ok st') :
    (¬ remainingSpace ps st <
        ((NVM3_OBJ_HEADER_SIZE_SMALL + (objData o).length : Nat) : Int) ∧
      st' = writeFragment st o) ∨
    (remainingSpace ps st <
        ((NVM3_OBJ_HEADER_SIZE_SMALL + (objData o).length : Nat) : Int) ∧
      st.pageIndex + 1 < (st.pages.length : Int) ∧
      st' = writeFragment (advancePage st) o) := by
  have hdel : ¬ o.type = .Deleted := by simp [htype]
  have hlarge : ¬ (o.type = .DataLarge ∨ o.type = .CounterLarge) := by simp [htype]
  have hnotCounter : ¬ o.type = .CounterSmall := by simp [htype]
  unfold placeObject at hok
  rw [if_neg hdel] at hok
  rcases except_bind_ok hok with ⟨u, -, h2⟩
  dsimp only at h2
  by_cases hc : remainingSpace ps st <
      ((NVM3_OBJ_HEADER_SIZE_SMALL + (objData o).length : Nat) : Int)
  · rw [if_pos (Or.inr ⟨htype, hc⟩)] at h2
    rcases except_bind_ok h2 with ⟨st1, hst1, h3⟩
    obtain ⟨hpg, hpi, hoff, hwr⟩ := nextPage_ok_pages hst1
    have hroom : st.pageIndex + 1 < (st.pages.length : Int) := by
      dsimp only [nextPage] at hst1
      split at hst1
      · exact absurd hst1 (by simp)
      · rename_i hcond
        push_neg at hcond
        omega
    right
    refine ⟨hc, hroom, ?_⟩
    rw [if_neg hlarge] at h3
    have hst1eq : st1 = advancePage st := by
      dsimp only [nextPage, advancePage] at hst1 ⊢
      split at hst1
      · exact absurd hst1 (by simp)
      · simp only [Except.ok.injEq] at hst1
        exact hst1.symm
    rw [hst1eq] at h3
    simp only [List.length_cons, List.length_nil] at h3
    rw [show decide (1 < 0 + 1) = false from rfl] at h3
    simp only [writeFragmentsGo] at h3
    rw [if_neg (by simp)] at h3
    rcases except_bind_ok h3 with ⟨st2, hst2, h4⟩
    simp only [pure, Except.pure, Except.ok.injEq] at hst2 h4
    rw [← h4, ← hst2]
  · rw [if_neg (by
      intro hcontra
      rcases hcontra with ⟨ht, -⟩ | ⟨-, hlt⟩
      · exact hnotCounter ht
      · exact hc hlt)] at h2
    rcases except_bind_ok h2 with ⟨st1, hst1, h3⟩
    simp only [pure, Except.pure, Except.ok.injEq] at hst1
    subst hst1
    left
    refine ⟨hc, ?_⟩
    rw [if_neg hlarge] at h3
    simp only [List.length_cons, List.length_nil] at h3
    rw [show decide (1 < 0 + 1) = false from rfl] at h3
    simp only [writeFragmentsGo] at h3
    rw [if_neg (by simp)] at h3
    rcases except_bind_ok h3 with ⟨st2, hst2, h4⟩
    simp only [pure, Except.pure, Except.ok.injEq] at hst2 h4
    rw [← h4, ← hst2]

theorem place_small_bound :
    ∀ (l : List NVMObject) (st st' : WriteState),
      (∀ o ∈ l, o.type = .DataSmall ∧ 4 + (objData o).length ≤ 2028) →
      SmallInv st →
      List.foldlM (placeObject 2048) st l = .ok st' →
      SmallInv st' ∧ st'.pages.length = st.pages.length ∧
        consumed st + (((l.map smallCost).sum : Nat) : Int) ≤ consumed st' := by
  intro l
  induction l with
  | nil =>
      intro st st' hall hInv h
      simp only [List.foldlM_nil, pure, Except.pure, Except.ok.injEq] at h
      subst h
      exact ⟨hInv, rfl, by simp⟩
  | cons o t ih =>
      intro st st' hall hInv h
      rw [List.foldlM_cons] at h
      rcases except_bind_ok h with ⟨st1, hst1, hrest⟩
      obtain ⟨hto, hlen⟩ := hall o (by simp)
      have hWlen : (writeObject o).length = align4 (4 + (objData o).length) :=
        writeObject_dataSmall_length hto
      have ha_le := align4_le (4 + (objData o).length)
      have ha_lt := align4_lt (4 + (objData o).length)
      have ha_mod := align4_mod (4 + (objData o).length)
      obtain ⟨hpi0, hpiN, hoff20, hoff2048, hmod⟩ := hInv
      have hsum : (((o :: t).map smallCost).sum : Nat) =
          smallCost o + ((t.map smallCost).sum : Nat) := by simp
      have hcost : smallCost o = align4 (4 + (objData o).length) := rfl
      rcases placeObject_small_char 2048 st o st1 hto hst1 with
        ⟨hfit, rfl⟩ | ⟨hnofit, hroom, rfl⟩
      · have hfit' : ¬ remainingSpace 2048 st < ((4 + (objData o).length : Nat) : Int) := hfit
        have hfit2 : (st.offsetInPage : Int) + ((4 + (objData o).length : Nat) : Int) ≤ 2048 := by
          unfold remainingSpace at hfit'
          omega
        have hInv1 : SmallInv (writeFragment st o) := by
          unfold SmallInv
          simp only [writeFragment, hWlen, align4_idem, List.length_set]
          push_cast at hfit2
          refine ⟨hpi0, by simpa using hpiN, by omega, by omega, by omega⟩
        obtain ⟨hI, hL, hB⟩ := ih (writeFragment st o) st'
          (fun q hq => hall q (by simp [hq])) hInv1 hrest
        refine ⟨hI, ?_, ?_⟩
        · rw [hL]; simp [writeFragment]
        · have hcons : consumed (writeFragment st o) =
              consumed st + ((smallCost o : Nat) : Int) := by
            rw [hcost]
            unfold consumed
            simp only [writeFragment, hWlen, align4_idem]
            push_cast
            ring
          rw [hsum]
          push_cast at hB hcons ⊢
          omega
      · have hInv1 : SmallInv (writeFragment (advancePage st) o) := by
          unfold SmallInv
          simp only [writeFragment, advancePage, hWlen, align4_idem, List.length_set,
            show NVM3_PAGE_HEADER_SIZE = 20 from rfl]
          refine ⟨by omega, by simpa using hroom, by omega, by omega, by omega⟩
        obtain ⟨hI, hL, hB⟩ := ih (writeFragment (advancePage st) o) st'
          (fun q hq => hall q (by simp [hq])) hInv1 hrest
        refine ⟨hI, ?_, ?_⟩
        · rw [hL]; simp [writeFragment, advancePage]
        · have hoffI : (st.offsetInPage : Int) ≤ 2048 := by exact_mod_cast hoff2048
          have hcons : consumed st + ((smallCost o : Nat) : Int) ≤
              consumed (writeFragment (advancePage st) o) := by
            rw [hcost]
            unfold consumed
            simp only [writeFragment, advancePage, hWlen, align4_idem,
              show NVM3_PAGE_HEADER_SIZE = 20 from rfl]
            push_cast
            have hexp : (st.pageIndex + 1) * 2028 = st.pageIndex * 2028 + 2028 := by ring
            omega
          rw [hsum]
          push_cast at hB hcons ⊢
          omega

/-- The state right after `writeObjects`' initial `nextPage` on a region of
`n` default empty pages. -/
def writeStart (n : Nat) : WriteState where
  pages := List.replicate n emptyPageDefault
  pageIndex := 0
  offsetInPage := NVM3_PAGE_HEADER_SIZE
  writes := []

/-- Claim C9: if placement must advance past a region's last page,
`encodeNVM` fails with `InsufficientSpace` — with default options that is
the only possible failure (first conjunct); and in particular a region of
(well-formed) small objects whose total aligned payload + header size
exceeds the region capacity (6 pages × 2028 body bytes) always fails with
`InsufficientSpace` (second conjunct). -/
theorem C9_theorem :
    (∀ (A P : List (Nat × NVMObject)) (e : NVMError),
        encodeNVM A P none = .error e → e = .insufficientSpace) ∧
    (∀ A : List (Nat × NVMObject),
        (∀ kv ∈ A, (kv.2 : NVMObject).type = ObjectType.DataSmall ∧
          4 + (objData kv.2).length ≤ 2028) →
        (6 * 2028 : Int) < (((A.map (fun kv => smallCost kv.2)).sum : Nat) : Int) →
        encodeNVM A [] none = .error .insufficientSpace) := by
  constructor
  · exact encodeNVM_default_error
  · intro A hall hover
    cases h : encodeNVM A [] none with
    | error e => rw [encodeNVM_default_error A [] e h]
    | ok buf =>
        exfalso
        rw [encodeNVM_none_eq] at h
        rcases except_bind_ok h with ⟨stA, hA, -⟩
        unfold writeObjects at hA
        rcases except_bind_ok hA with ⟨st0, hst0, hfold⟩
        have hst0eq : st0 = writeStart 6 := by
          dsimp only [nextPage] at hst0
          rw [if_neg (by rw [List.length_replicate]; norm_num)] at hst0
          simp only [Except.ok.injEq] at hst0
          rw [← hst0]
          rfl
        have hInv0 : SmallInv st0 := by
          rw [hst0eq]
          unfold SmallInv
          refine ⟨?_, ?_, ?_, ?_, ?_⟩ <;> norm_num [writeStart, NVM3_PAGE_HEADER_SIZE]
        obtain ⟨⟨hpi0, hpiN, hoff20, hoff2048, -⟩, hL, hB⟩ :=
          place_small_bound (A.map Prod.snd) st0 stA
            (fun o ho => by
              rcases List.mem_map.mp ho with ⟨kv, hkv, rfl⟩
              exact hall kv hkv)
            hInv0 hfold
        have hsums : ((A.map Prod.snd).map smallCost).sum =
            (A.map (fun kv => smallCost kv.2)).sum := by
          rw [List.map_map]
          rfl
        have hlen6 : (stA.pages.length : Int) = 6 := by
          rw [hL, hst0eq]
          simp [writeStart]
        have hcons0 : consumed st0 = 0 := by
          rw [hst0eq]
          simp [consumed, writeStart, NVM3_PAGE_HEADER_SIZE]
        have hoffI : (stA.offsetInPage : Int) ≤ 2048 := by exact_mod_cast hoff2048
        have hconsA : consumed stA ≤ 6 * 2028 := by
          unfold consumed
          have hpi5 : stA.pageIndex ≤ 5 := by omega
          have : stA.pageIndex * 2028 ≤ 5 * 2028 := by
            exact mul_le_mul_of_nonneg_right hpi5 (by norm_num)
          omega
        rw [hsums, hcons0] at hB
        omega

/-! ## readPage characterization -/

/-- Everything `readPage` establishes when it succeeds: all header reads
succeed, magic and version are valid, both Berger codes check out, the two
erase counts are mutual complements, the consumed size is the declared
page size (bits 13–15 of the device info) clamped to the flash maximum,
the buffer holds the whole clamped page, the objects come from the body
slice, and the header fields are the decoded ones. -/
theorem readPage_ok_char {b : Buffer} {off : Nat} {page : NVMPage} {n : Nat}
    (h : readPage b off = .ok (page, n)) :
    ∃ version magic ecWord ecInvWord status devInfo formatInfo,
      readUInt16LE b off = .ok version ∧
      readUInt16LE b (off + 2) = .ok magic ∧
      magic = NVM3_PAGE_MAGIC ∧ version = 0x01 ∧
      readUInt32LE b (off + 4) = .ok ecWord ∧
      computeBergerCode (ecWord &&& NVM3_PAGE_COUNTER_MASK) NVM3_PAGE_COUNTER_SIZE =
        ecWord >>> NVM3_PAGE_COUNTER_SIZE ∧
      readUInt32LE b (off + 8) = .ok ecInvWord ∧
      computeBergerCode (ecInvWord &&& NVM3_PAGE_COUNTER_MASK) NVM3_PAGE_COUNTER_SIZE =
        ecInvWord >>> NVM3_PAGE_COUNTER_SIZE ∧
      ecWord &&& NVM3_PAGE_COUNTER_MASK =
        NVM3_PAGE_COUNTER_MASK ^^^ (ecInvWord &&& NVM3_PAGE_COUNTER_MASK) ∧
      readUInt32LE b (off + 12) = .ok status ∧
      readUInt16LE b (off + 16) = .ok devInfo ∧
      readUInt16LE b (off + 18) = .ok formatInfo ∧
      n = min (pageSizeFromBits ((devInfo >>> 13) &&& 0b111)) FLASH_MAX_PAGE_SIZE ∧
      ¬ b.length < off + n ∧
      readObjects ((b.drop (off + 20)).take (n - 20)) = .ok page.objects ∧
      page.header =
        { offset := off, version := version,
          eraseCount := ecWord &&& NVM3_PAGE_COUNTER_MASK, status := status,
          encrypted := formatInfo &&& 0b1 = 0,
          pageSize := pageSizeFromBits ((devInfo >>> 13) &&& 0b111),
          writeSize := (devInfo >>> 11) &&& 0b1,
          memoryMapped := ((devInfo >>> 12) &&& 0b1) ≠ 0,
          deviceFamily := devInfo &&& 0x7ff } := by
  unfold readPage at h
  rcases except_bind_ok h with ⟨version, hversion, h⟩
  rcases except_bind_ok h with ⟨magic, hmagic, h⟩
  try dsimp only at h
  split at h
  · rcases except_bind_ok h with ⟨y0, hy0, -⟩
    exact absurd (show (Except.error _ : Except NVMError PUnit) = .ok y0 from hy0) (by simp)
  · rename_i hmagicOk
    push_neg at hmagicOk
    rcases except_bind_ok h with ⟨u1, -, h⟩
    try dsimp only at h
    split at h
    · rcases except_bind_ok h with ⟨y1, hy1, -⟩
      exact absurd (show (Except.error _ : Except NVMError PUnit) = .ok y1 from hy1) (by simp)
    · rename_i hversionOk
      push_neg at hversionOk
      rcases except_bind_ok h with ⟨u2, -, h⟩
      rcases except_bind_ok h with ⟨ecWord, hecWord, h⟩
      rcases except_bind_ok h with ⟨u3, hval1, h⟩
      rcases except_bind_ok h with ⟨ecInvWord, hecInvWord, h⟩
      rcases except_bind_ok h with ⟨u4, hval2, h⟩
      try dsimp only at h
      split at h
      · rcases except_bind_ok h with ⟨y2, hy2, -⟩
        exact absurd (show (Except.error _ : Except NVMError PUnit) = .ok y2 from hy2) (by simp)
      · rename_i hcompOk
        push_neg at hcompOk
        rcases except_bind_ok h with ⟨u5, -, h⟩
        rcases except_bind_ok h with ⟨status, hstatus, h⟩
        rcases except_bind_ok h with ⟨devInfo, hdevInfo, h⟩
        try dsimp only at h
        split at h
        · rcases except_bind_ok h with ⟨y3, hy3, -⟩
          exact absurd (show (Except.error _ : Except NVMError PUnit) = .ok y3 from hy3) (by simp)
        · rename_i hlenOk
          rcases except_bind_ok h with ⟨u6, -, h⟩
          rcases except_bind_ok h with ⟨formatInfo, hformatInfo, h⟩
          rcases except_bind_ok h with ⟨objects, hobjects, h⟩
          simp only [pure, Except.pure, Except.ok.injEq, Prod.mk.injEq] at h
          obtain ⟨hpage, hn⟩ := h
          have hv1 : computeBergerCode (ecWord &&& NVM3_PAGE_COUNTER_MASK)
              NVM3_PAGE_COUNTER_SIZE = ecWord >>> NVM3_PAGE_COUNTER_SIZE := by
            unfold validateBergerCode at hval1
            split at hval1
            · assumption
            · exact absurd hval1 (by simp)
          have hv2 : computeBergerCode (ecInvWord &&& NVM3_PAGE_COUNTER_MASK)
              NVM3_PAGE_COUNTER_SIZE = ecInvWord >>> NVM3_PAGE_COUNTER_SIZE := by
            unfold validateBergerCode at hval2
            split at hval2
            · assumption
            · exact absurd hval2 (by simp)
          refine ⟨version, magic, ecWord, ecInvWord, status, devInfo, formatInfo,
            hversion, hmagic, hmagicOk, hversionOk, hecWord, hv1, hecInvWord, hv2,
            hcompOk, hstatus, hdevInfo, hformatInfo, hn.symm, ?_, ?_, ?_⟩
          · rw [← hn]; exact hlenOk
          · rw [← hpage, ← hn]
            exact hobjects
          · rw [← hpage]

/-! ## Claim C8 -/

theorem readPage_consumes (b : Buffer) (off : Nat) (page : NVMPage) (n : Nat)
    (h : readPage b off = .ok (page, n)) :
    n = min page.header.pageSize FLASH_MAX_PAGE_SIZE ∧
      (FLASH_MAX_PAGE_SIZE < page.header.pageSize → n = FLASH_MAX_PAGE_SIZE) ∧
      off + n ≤ b.length ∧
      readObjects ((b.drop (off + 20)).take (n - 20)) = .ok page.objects := by
  rcases readPage_ok_char h with ⟨version, magic, ecWord, ecInvWord, status, devInfo,
    formatInfo, -, -, -, -, -, -, -, -, -, -, -, -, hn, hlen, hobjects, hheader⟩
  have hps : page.header.pageSize = pageSizeFromBits ((devInfo >>> 13) &&& 0b111) := by
    rw [hheader]
  constructor
  · rw [hps, hn]
  constructor
  · intro hbig
    rw [hps] at hbig
    rw [hn]
    omega
  constructor
  · omega
  · exact hobjects

theorem readPage_short (b : Buffer) (off : Nat) (ecWord ecInvWord status devInfo : Nat)
    (h1 : readUInt16LE b off = .ok 0x01)
    (h2 : readUInt16LE b (off + 2) = .ok NVM3_PAGE_MAGIC)
    (h3 : readUInt32LE b (off + 4) = .ok ecWord)
    (hb1 : computeBergerCode (ecWord &&& NVM3_PAGE_COUNTER_MASK) NVM3_PAGE_COUNTER_SIZE =
      ecWord >>> NVM3_PAGE_COUNTER_SIZE)
    (h4 : readUInt32LE b (off + 8) = .ok ecInvWord)
    (hb2 : computeBergerCode (ecInvWord &&& NVM3_PAGE_COUNTER_MASK) NVM3_PAGE_COUNTER_SIZE =
      ecInvWord >>> NVM3_PAGE_COUNTER_SIZE)
    (hcomp : ecWord &&& NVM3_PAGE_COUNTER_MASK =
      NVM3_PAGE_COUNTER_MASK ^^^ (ecInvWord &&& NVM3_PAGE_COUNTER_MASK))
    (h5 : readUInt32LE b (off + 12) = .ok status)
    (h6 : readUInt16LE b (off + 16) = .ok devInfo)
    (hshort : b.length <
      off + min (pageSizeFromBits ((devInfo >>> 13) &&& 0b111)) FLASH_MAX_PAGE_SIZE) :
    readPage b off = .error .shortBuffer := by
  unfold readPage
  rw [h1]
  try simp only [ok_bind, pureu_bind]
  rw [h2]
  try simp only [ok_bind, pureu_bind]
  rw [if_neg (by simp)]
  try simp only [ok_bind, pureu_bind]
  rw [if_neg (by simp)]
  try simp only [ok_bind, pureu_bind]
  rw [h3]
  try simp only [ok_bind, pureu_bind]
  simp only [validateBergerCode]
  rw [if_pos hb1]
  try simp only [ok_bind, pureu_bind]
  rw [h4]
  try simp only [ok_bind, pureu_bind]
  rw [if_pos hb2]
  try simp only [ok_bind, pureu_bind]
  rw [if_neg (by simp [hcomp])]
  try simp only [ok_bind, pureu_bind]
  rw [h5]
  try simp only [ok_bind, pureu_bind]
  rw [h6]
  try simp only [ok_bind, pureu_bind]
  rw [if_pos hshort]
  rfl

theorem getD_replicate {n i a d : Nat} (h : i < n) :
    (List.replicate n a).getD i d = a := by
  rw [List.getD_eq_getElem?_getD, List.getElem?_replicate]
  simp [h]

theorem readUInt32LE_replicate_ff {n off : Nat} (h : off + 4 ≤ n) :
    readUInt32LE (List.replicate n 0xff) off = .ok 0xffffffff := by
  unfold readUInt32LE
  rw [List.length_replicate, if_pos h,
    getD_replicate (by omega), getD_replicate (by omega),
    getD_replicate (by omega), getD_replicate (by omega)]

/-- An erased (all 0xff) page body holds no objects. -/
theorem readObjects_replicate_ff (n : Nat) :
    readObjects (List.replicate n 0xff) = .ok [] := by
  unfold readObjects
  rw [List.length_replicate]
  simp only [readObjectsGo]
  rw [List.length_replicate]
  by_cases h : n < 0 + 4
  · rw [if_pos h]
  · rw [if_neg h, readUInt32LE_replicate_ff (by omega)]
    simp only [ok_bind]
    rw [if_pos trivial]
    rfl

/-- Constructor direction of the `readPage` characterization: valid header
reads, passing checks and a decodable body produce a successful page. -/
theorem readPage_ok_intro (b : Buffer) (off : Nat)
    (ecWord ecInvWord status devInfo formatInfo : Nat) (objs : List NVMObject)
    (h1 : readUInt16LE b off = .ok 0x01)
    (h2 : readUInt16LE b (off + 2) = .ok NVM3_PAGE_MAGIC)
    (h3 : readUInt32LE b (off + 4) = .ok ecWord)
    (hb1 : computeBergerCode (ecWord &&& NVM3_PAGE_COUNTER_MASK) NVM3_PAGE_COUNTER_SIZE =
      ecWord >>> NVM3_PAGE_COUNTER_SIZE)
    (h4 : readUInt32LE b (off + 8) = .ok ecInvWord)
    (hb2 : computeBergerCode (ecInvWord &&& NVM3_PAGE_COUNTER_MASK) NVM3_PAGE_COUNTER_SIZE =
      ecInvWord >>> NVM3_PAGE_COUNTER_SIZE)
    (hcomp : ecWord &&& NVM3_PAGE_COUNTER_MASK =
      NVM3_PAGE_COUNTER_MASK ^^^ (ecInvWord &&& NVM3_PAGE_COUNTER_MASK))
    (h5 : readUInt32LE b (off + 12) = .ok status)
    (h6 : readUInt16LE b (off + 16) = .ok devInfo)
    (hlen : ¬ b.length <
      off + min (pageSizeFromBits ((devInfo >>> 13) &&& 0b111)) FLASH_MAX_PAGE_SIZE)
    (h7 : readUInt16LE b (off + 18) = .ok formatInfo)
    (hobj : readObjects ((b.drop (off + 20)).take
        (min (pageSizeFromBits ((devInfo >>> 13) &&& 0b111)) FLASH_MAX_PAGE_SIZE - 20)) =
      .ok objs) :
    readPage b off = .ok
      (⟨{ offset := off, version := 0x01,
          eraseCount := ecWord &&& NVM3_PAGE_COUNTER_MASK,
          status := status, encrypted := formatInfo &&& 0b1 = 0,
          pageSize := pageSizeFromBits ((devInfo >>> 13) &&& 0b111),
          writeSize := (devInfo >>> 11) &&& 0b1,
          memoryMapped := ((devInfo >>> 12) &&& 0b1) ≠ 0,
          deviceFamily := devInfo &&& 0x7ff }, objs⟩,
        min (pageSizeFromBits ((devInfo >>> 13) &&& 0b111)) FLASH_MAX_PAGE_SIZE) := by
  unfold readPage
  rw [h1]
  try simp only [ok_bind, pureu_bind]
  rw [h2]
  try simp only [ok_bind, pureu_bind]
  rw [if_neg (by simp)]
  try simp only [ok_bind, pureu_bind]
  rw [if_neg (by simp)]
  try simp only [ok_bind, pureu_bind]
  rw [h3]
  try simp only [ok_bind, pureu_bind]
  simp only [validateBergerCode]
  rw [if_pos hb1]
  try simp only [ok_bind, pureu_bind]
  rw [h4]
  try simp only [ok_bind, pureu_bind]
  rw [if_pos hb2]
  try simp only [ok_bind, pureu_bind]
  rw [if_neg (by simp [hcomp])]
  try simp only [ok_bind, pureu_bind]
  rw [h5]
  try simp only [ok_bind, pureu_bind]
  rw [h6]
  try simp only [ok_bind, pureu_bind]
  rw [if_neg hlen]
  try simp only [ok_bind, pureu_bind]
  rw [h7]
  try simp only [ok_bind, pureu_bind]
  rw [hobj]
  try simp only [ok_bind, pureu_bind]
  rfl

/-- Claim C8: for every page `readPage` decodes, the consumed size is the
declared page size (decoded from device-info bits 13–15) clamped to the
flash maximum 2048 — in particular exactly 2048 when the declared size
exceeds it — the buffer must hold that many bytes from the page offset,
and the object body is the slice of clamped size minus the 20-byte header;
when the buffer is too short for the clamped size (with an otherwise valid
header), `readPage` fails with `ShortBuffer`. -/
theorem C8_theorem (b : Buffer) (off : Nat) :
    (∀ page n, readPage b off = .ok (page, n) →
      n = min page.header.pageSize FLASH_MAX_PAGE_SIZE ∧
      (FLASH_MAX_PAGE_SIZE < page.header.pageSize → n = FLASH_MAX_PAGE_SIZE) ∧
      off + n ≤ b.length ∧
      readObjects ((b.drop (off + 20)).take (n - 20)) = .ok page.objects) ∧
    (∀ ecWord ecInvWord status devInfo,
      readUInt16LE b off = .ok 0x01 →
      readUInt16LE b (off + 2) = .ok NVM3_PAGE_MAGIC →
      readUInt32LE b (off + 4) = .ok ecWord →
      computeBergerCode (ecWord &&& NVM3_PAGE_COUNTER_MASK) NVM3_PAGE_COUNTER_SIZE =
        ecWord >>> NVM3_PAGE_COUNTER_SIZE →
      readUInt32LE b (off + 8) = .ok ecInvWord →
      computeBergerCode (ecInvWord &&& NVM3_PAGE_COUNTER_MASK) NVM3_PAGE_COUNTER_SIZE =
        ecInvWord >>> NVM3_PAGE_COUNTER_SIZE →
      ecWord &&& NVM3_PAGE_COUNTER_MASK =
        NVM3_PAGE_COUNTER_MASK ^^^ (ecInvWord &&& NVM3_PAGE_COUNTER_MASK) →
      readUInt32LE b (off + 12) = .ok status →
      readUInt16LE b (off + 16) = .ok devInfo →
      b.length <
        off + min (pageSizeFromBits ((devInfo >>> 13) &&& 0b111)) FLASH_MAX_PAGE_SIZE →
      readPage b off = .error .shortBuffer) :=
  ⟨fun page n h => readPage_consumes b off page n h,
   fun ecWord ecInvWord status devInfo h1 h2 h3 hb1 h4 hb2 hcomp h5 h6 hshort =>
     readPage_short b off ecWord ecInvWord status devInfo h1 h2 h3 hb1 h4 hb2 hcomp
       h5 h6 hshort⟩

theorem readUInt16LE_eq {b : Buffer} {off : Nat} (h : off + 2 ≤ b.length) :
    readUInt16LE b off = .ok (b.getD off 0 + 256 * b.getD (off + 1) 0) := by
  unfold readUInt16LE
  rw [if_pos h]

theorem readUInt32LE_eq {b : Buffer} {off : Nat} (h : off + 4 ≤ b.length) :
    readUInt32LE b off = .ok (b.getD off 0 + 256 * b.getD (off + 1) 0 +
      65536 * b.getD (off + 2) 0 + 16777216 * b.getD (off + 3) 0) := by
  unfold readUInt32LE
  rw [if_pos h]

/-- The 20 header bytes of the C8 witness page: valid magic, version and
Berger-coded erase counts, and device info 0xFFFF (declared page-size bits
7, i.e. 65536 bytes — above the flash maximum). -/
def c8hdr : Buffer :=
  [0x01, 0x00, 0x9a, 0xb2, 0x00, 0x00, 0x00, 0xd8, 0xff, 0xff, 0xff, 0x07,
   0xff, 0xff, 0xff, 0xff, 0xff, 0xff, 0xff, 0xff]

/-- A 2048-byte page declaring a 65536-byte page size, with erased body. -/
def c8buf : Buffer := c8hdr ++ List.replicate 2028 0xff

theorem c8buf_length : c8buf.length = 2048 := by
  show (c8hdr ++ _).length = 2048
  rw [List.length_append, List.length_replicate]
  rfl

theorem c8buf_getD_lt {i : Nat} (h : i < 20) : c8buf.getD i 0 = c8hdr.getD i 0 :=
  List.getD_append _ _ _ _ (by rw [show c8hdr.length = 20 from rfl]; omega)

theorem c8buf_drop20 : c8buf.drop 20 = List.replicate 2028 0xff := by
  show (c8hdr ++ _).drop 20 = _
  rw [show (20 : Nat) = c8hdr.length from rfl]
  exact List.drop_left _ _

/-- Witness for C8: on `c8buf` (declared size 65536 > 2048) `readPage`
consumes exactly 2048 bytes. -/
theorem C8_witness :
    ∃ page n, readPage c8buf 0 = .ok (page, n) ∧
      (n = min page.header.pageSize FLASH_MAX_PAGE_SIZE ∧
        (FLASH_MAX_PAGE_SIZE < page.header.pageSize → n = FLASH_MAX_PAGE_SIZE) ∧
        0 + n ≤ c8buf.length ∧
        readObjects ((c8buf.drop (0 + 20)).take (n - 20)) = .ok page.objects) ∧
      FLASH_MAX_PAGE_SIZE < page.header.pageSize := by
  have hlen := c8buf_length
  have r0 : readUInt16LE c8buf 0 = .ok 0x01 := by
    rw [readUInt16LE_eq (by omega), c8buf_getD_lt (by omega), c8buf_getD_lt (by omega)]
    rfl
  have r1 : readUInt16LE c8buf (0 + 2) = .ok NVM3_PAGE_MAGIC := by
    rw [readUInt16LE_eq (by omega), c8buf_getD_lt (by omega), c8buf_getD_lt (by omega)]
    rfl
  have r3 : readUInt32LE c8buf (0 + 4) = .ok 0xd8000000 := by
    rw [readUInt32LE_eq (by omega), c8buf_getD_lt (by omega), c8buf_getD_lt (by omega),
      c8buf_getD_lt (by omega), c8buf_getD_lt (by omega)]
    rfl
  have r4 : readUInt32LE c8buf (0 + 8) = .ok 0x07ffffff := by
    rw [readUInt32LE_eq (by omega), c8buf_getD_lt (by omega), c8buf_getD_lt (by omega),
      c8buf_getD_lt (by omega), c8buf_getD_lt (by omega)]
    rfl
  have r5 : readUInt32LE c8buf (0 + 12) = .ok 0xffffffff := by
    rw [readUInt32LE_eq (by omega), c8buf_getD_lt (by omega), c8buf_getD_lt (by omega),
      c8buf_getD_lt (by omega), c8buf_getD_lt (by omega)]
    rfl
  have r6 : readUInt16LE c8buf (0 + 16) = .ok 0xffff := by
    rw [readUInt16LE_eq (by omega), c8buf_getD_lt (by omega), c8buf_getD_lt (by omega)]
    rfl
  have r7 : readUInt16LE c8buf (0 + 18) = .ok 0xffff := by
    rw [readUInt16LE_eq (by omega), c8buf_getD_lt (by omega), c8buf_getD_lt (by omega)]
    rfl
  have hobj : readObjects ((c8buf.drop (0 + 20)).take
      (min (pageSizeFromBits ((0xffff >>> 13) &&& 0b111)) FLASH_MAX_PAGE_SIZE - 20)) =
      .ok [] := by
    rw [show (0 + 20 : Nat) = 20 from rfl, c8buf_drop20]
    rw [show min (pageSizeFromBits ((0xffff >>> 13) &&& 0b111)) FLASH_MAX_PAGE_SIZE - 20 =
      2028 from by decide]
    rw [List.take_of_length_le (by rw [List.length_replicate])]
    exact readObjects_replicate_ff 2028
  have h := readPage_ok_intro c8buf 0 0xd8000000 0x07ffffff 0xffffffff 0xffff 0xffff []
    r0 r1 r3 (by decide) r4 (by decide) (by decide) r5 r6
    (by rw [hlen]; decide) r7 hobj
  exact ⟨_, _, h, (C8_theorem c8buf 0).1 _ _ h, by decide⟩

/-! ## Claim C6 -/

theorem error_bind {α β : Type} (e : NVMError) (f : α → Except NVMError β) :
    (Except.error e : Except NVMError α) >>= f = .error e := rfl

theorem parsePagesGo_done {b : Buffer} {off : Nat} (h : ¬ off < b.length) :
    ∀ fuel, parsePagesGo b fuel off = .ok [] := by
  intro fuel
  cases fuel with
  | zero => rfl
  | succ f =>
      simp only [parsePagesGo]
      rw [if_neg h]

theorem parsePagesGo_step {b : Buffer} {off : Nat} {page : NVMPage} {n : Nat}
    (h : off < b.length) (hread : readPage b off = .ok (page, n)) (fuel : Nat) :
    parsePagesGo b (fuel + 1) off =
      (parsePagesGo b fuel (off + n)).map (fun rest => page :: rest) := by
  simp only [parsePagesGo]
  rw [if_pos h, hread]
  simp only [ok_bind]
  cases hrest : parsePagesGo b fuel (off + n) with
  | ok l => rfl
  | error e => rfl

theorem parsePagesGo_step_error {b : Buffer} {off : Nat} {e : NVMError}
    (h : off < b.length) (hread : readPage b off = .error e) (fuel : Nat) :
    parsePagesGo b (fuel + 1) off = .error e := by
  simp only [parsePagesGo]
  rw [if_pos h, hread]
  rfl

/-- `readPage` rejects a page whose first erase-count word fails the
Berger check. -/
theorem readPage_berger1_error (b : Buffer) (off : Nat) (ecWord : Nat)
    (h1 : readUInt16LE b off = .ok 0x01)
    (h2 : readUInt16LE b (off + 2) = .ok NVM3_PAGE_MAGIC)
    (h3 : readUInt32LE b (off + 4) = .ok ecWord)
    (hbad : ¬ computeBergerCode (ecWord &&& NVM3_PAGE_COUNTER_MASK) NVM3_PAGE_COUNTER_SIZE =
      ecWord >>> NVM3_PAGE_COUNTER_SIZE) :
    readPage b off = .error .bergerMismatch := by
  unfold readPage
  rw [h1]
  try simp only [ok_bind, pureu_bind]
  rw [h2]
  try simp only [ok_bind, pureu_bind]
  rw [if_neg (by simp)]
  try simp only [ok_bind, pureu_bind]
  rw [if_neg (by simp)]
  try simp only [ok_bind, pureu_bind]
  rw [h3]
  try simp only [ok_bind, pureu_bind]
  simp only [validateBergerCode]
  rw [if_neg hbad]
  rfl

/-- A valid single-page image: the default page header followed by an
erased body. -/
def c6good : Buffer := defaultPageHeaderBytes ++ List.replicate 2028 0xff

/-- The 20 header bytes of `c6good` with one bit of the erase-count Berger
code flipped (byte 7, the high byte of the erase-count word, changes
0xd8 → 0xd0). -/
def c6hdr : Buffer :=
  [0x01, 0x00, 0x9a, 0xb2, 0x00, 0x00, 0x00, 0xd0, 0xff, 0xff, 0xff, 0x07,
   0xff, 0xff, 0xff, 0xff, 0xff, 0x5f, 0xff, 0xff]

/-- `c6good` with the single-bit flip of `c6hdr` applied. -/
def c6buf : Buffer := c6hdr ++ List.replicate 2028 0xff

theorem c6good_length : c6good.length = 2048 := by
  show (defaultPageHeaderBytes ++ _).length = 2048
  rw [List.length_append, List.length_replicate]
  rfl

theorem c6buf_length : c6buf.length = 2048 := by
  show (c6hdr ++ _).length = 2048
  rw [List.length_append, List.length_replicate]
  rfl

theorem c6good_getD_lt {i : Nat} (h : i < 20) :
    c6good.getD i 0 = defaultPageHeaderBytes.getD i 0 :=
  List.getD_append _ _ _ _ (by rw [show defaultPageHeaderBytes.length = 20 from rfl]; omega)

theorem c6buf_getD_lt {i : Nat} (h : i < 20) :
    c6buf.getD i 0 = c6hdr.getD i 0 :=
  List.getD_append _ _ _ _ (by rw [show c6hdr.length = 20 from rfl]; omega)

theorem c6good_drop20 : c6good.drop 20 = List.replicate 2028 0xff := by
  show (defaultPageHeaderBytes ++ _).drop 20 = _
  rw [show (20 : Nat) = defaultPageHeaderBytes.length from rfl]
  exact List.drop_left _ _

/-- The page decoded from `c6good`: erase count 0, status OK, page size
2048, write size 16, memory-mapped, device family 2047, no objects. -/
def c6page : NVMPage :=
  ⟨{ offset := 0, version := 0x01,
     eraseCount := 0xd8000000 &&& NVM3_PAGE_COUNTER_MASK,
     status := 0xffffffff, encrypted := (0xffff : Nat) &&& 0b1 = 0,
     pageSize := pageSizeFromBits (((0x5fff : Nat) >>> 13) &&& 0b111),
     writeSize := ((0x5fff : Nat) >>> 11) &&& 0b1,
     memoryMapped := (((0x5fff : Nat) >>> 12) &&& 0b1) ≠ 0,
     deviceFamily := (0x5fff : Nat) &&& 0x7ff }, []⟩

theorem readPage_c6good : readPage c6good 0 = .ok (c6page, 2048) := by
  have hlen := c6good_length
  have r0 : readUInt16LE c6good 0 = .ok 0x01 := by
    rw [readUInt16LE_eq (by omega), c6good_getD_lt (by omega), c6good_getD_lt (by omega)]
    rfl
  have r1 : readUInt16LE c6good (0 + 2) = .ok NVM3_PAGE_MAGIC := by
    rw [readUInt16LE_eq (by omega), c6good_getD_lt (by omega), c6good_getD_lt (by omega)]
    rfl
  have r3 : readUInt32LE c6good (0 + 4) = .ok 0xd8000000 := by
    rw [readUInt32LE_eq (by omega), c6good_getD_lt (by omega), c6good_getD_lt (by omega),
      c6good_getD_lt (by omega), c6good_getD_lt (by omega)]
    rfl
  have r4 : readUInt32LE c6good (0 + 8) = .ok 0x07ffffff := by
    rw [readUInt32LE_eq (by omega), c6good_getD_lt (by omega), c6good_getD_lt (by omega),
      c6good_getD_lt (by omega), c6good_getD_lt (by omega)]
    rfl
  have r5 : readUInt32LE c6good (0 + 12) = .ok 0xffffffff := by
    rw [readUInt32LE_eq (by omega), c6good_getD_lt (by omega), c6good_getD_lt (by omega),
      c6good_getD_lt (by omega), c6good_getD_lt (by omega)]
    rfl
  have r6 : readUInt16LE c6good (0 + 16) = .ok 0x5fff := by
    rw [readUInt16LE_eq (by omega), c6good_getD_lt (by omega), c6good_getD_lt (by omega)]
    rfl
  have r7 : readUInt16LE c6good (0 + 18) = .ok 0xffff := by
    rw [readUInt16LE_eq (by omega), c6good_getD_lt (by omega), c6good_getD_lt (by omega)]
    rfl
  have hobj : readObjects ((c6good.drop (0 + 20)).take
      (min (pageSizeFromBits (((0x5fff : Nat) >>> 13) &&& 0b111)) FLASH_MAX_PAGE_SIZE - 20)) =
      .ok [] := by
    rw [show (0 + 20 : Nat) = 20 from rfl, c6good_drop20]
    rw [show min (pageSizeFromBits (((0x5fff : Nat) >>> 13) &&& 0b111))
      FLASH_MAX_PAGE_SIZE - 20 = 2028 from by decide]
    rw [List.take_of_length_le (by rw [List.length_replicate])]
    exact readObjects_replicate_ff 2028
  exact readPage_ok_intro c6good 0 0xd8000000 0x07ffffff 0xffffffff 0x5fff 0xffff []
    r0 r1 r3 (by decide) r4 (by decide) (by decide) r5 r6
    (by rw [hlen]; decide) r7 hobj

theorem readPage_c6buf : readPage c6buf 0 = .error .bergerMismatch := by
  have hlen := c6buf_length
  have r0 : readUInt16LE c6buf 0 = .ok 0x01 := by
    rw [readUInt16LE_eq (by omega), c6buf_getD_lt (by omega), c6buf_getD_lt (by omega)]
    rfl
  have r1 : readUInt16LE c6buf (0 + 2) = .ok NVM3_PAGE_MAGIC := by
    rw [readUInt16LE_eq (by omega), c6buf_getD_lt (by omega), c6buf_getD_lt (by omega)]
    rfl
  have r3 : readUInt32LE c6buf (0 + 4) = .ok 0xd0000000 := by
    rw [readUInt32LE_eq (by omega), c6buf_getD_lt (by omega), c6buf_getD_lt (by omega),
      c6buf_getD_lt (by omega), c6buf_getD_lt (by omega)]
    rfl
  exact readPage_berger1_error c6buf 0 0xd0000000 r0 r1 r3 (by decide)

/-- Claim C6: every page `readPage` decodes satisfies the Berger checks on
both erase-count words and the complement equation
`eraseCount = ~eraseCountInv & ((1<<27)-1)`; and flipping one bit of a
valid page's erase-count Berger code (byte 7: 0xd8 → 0xd0, a single-bit
change inside code bits 27–31) makes `readPage` — and hence `parseNVM` —
fail with `BergerMismatch` on that page (the page at offset 0). -/
theorem C6_theorem :
    (∀ (b : Buffer) (off : Nat) (page : NVMPage) (n : Nat),
      readPage b off = .ok (page, n) →
      ∃ ecWord ecInvWord,
        readUInt32LE b (off + 4) = .ok ecWord ∧
        computeBergerCode (ecWord &&& NVM3_PAGE_COUNTER_MASK) NVM3_PAGE_COUNTER_SIZE =
          ecWord >>> NVM3_PAGE_COUNTER_SIZE ∧
        readUInt32LE b (off + 8) = .ok ecInvWord ∧
        computeBergerCode (ecInvWord &&& NVM3_PAGE_COUNTER_MASK) NVM3_PAGE_COUNTER_SIZE =
          ecInvWord >>> NVM3_PAGE_COUNTER_SIZE ∧
        page.header.eraseCount = ecWord &&& NVM3_PAGE_COUNTER_MASK ∧
        page.header.eraseCount =
          NVM3_PAGE_COUNTER_MASK ^^^ (ecInvWord &&& NVM3_PAGE_COUNTER_MASK)) ∧
    (∃ r, parseNVM c6good = .ok r) ∧
    c6buf = c6good.set 7 0xd0 ∧
    c6good.getD 7 0 = 0xd8 ∧
    popcount (0xd8 ^^^ 0xd0) = 1 ∧
    readPage c6buf 0 = .error .bergerMismatch ∧
    parseNVM c6buf = .error .bergerMismatch := by
  refine ⟨?_, ?_, ?_, ?_, ?_, readPage_c6buf, ?_⟩
  · intro b off page n h
    rcases readPage_ok_char h with ⟨version, magic, ecWord, ecInvWord, status, devInfo,
      formatInfo, -, -, -, -, hec, hb1, hinv, hb2, hcomp, -, -, -, -, -, -, hheader⟩
    have her : page.header.eraseCount = ecWord &&& NVM3_PAGE_COUNTER_MASK := by
      rw [hheader]
    exact ⟨ecWord, ecInvWord, hec, hb1, hinv, hb2, her, by rw [her, hcomp]⟩
  · have hdone : ∀ fuel, parsePagesGo c6good fuel (0 + 2048) = .ok [] :=
      parsePagesGo_done (by rw [c6good_length]; decide)
    have hgo : parsePagesGo c6good (c6good.length + 1) 0 = .ok [c6page] := by
      rw [parsePagesGo_step (by rw [c6good_length]; omega) readPage_c6good]
      rw [hdone]
      rfl
    unfold parseNVM
    rw [hgo]
    simp only [ok_bind]
    exact ⟨_, rfl⟩
  · rfl
  · rfl
  · decide
  · have hgo : parsePagesGo c6buf (c6buf.length + 1) 0 = .error .bergerMismatch :=
      parsePagesGo_step_error (by rw [c6buf_length]; omega) readPage_c6buf _
    unfold parseNVM
    rw [hgo]
    rfl

/-! ## Claim C4 -/

theorem comparePages_neg (p q : NVMPage) : comparePages q p = -comparePages p q := by
  unfold comparePages
  by_cases h : p.header.eraseCount = q.header.eraseCount
  · rw [if_pos h.symm, if_pos h]; ring
  · rw [if_neg (fun hh => h hh.symm), if_neg h]; ring

theorem comparePages_le_iff (p q : NVMPage) :
    comparePages p q ≤ 0 ↔ (p.header.eraseCount < q.header.eraseCount ∨
      (p.header.eraseCount = q.header.eraseCount ∧ p.header.offset ≤ q.header.offset)) := by
  unfold comparePages
  split <;> rename_i h <;> omega

theorem comparePages_trans {p q r : NVMPage}
    (h1 : comparePages p q ≤ 0) (h2 : comparePages q r ≤ 0) :
    comparePages p r ≤ 0 := by
  rw [comparePages_le_iff] at h1 h2 ⊢
  omega

theorem mem_insertPageSorted {x p : NVMPage} : ∀ {l : List NVMPage},
    x ∈ insertPageSorted p l → x = p ∨ x ∈ l := by
  intro l
  induction l with
  | nil =>
      intro hx
      simp only [insertPageSorted, List.mem_singleton] at hx
      exact Or.inl hx
  | cons q qs ih =>
      intro hx
      simp only [insertPageSorted] at hx
      split at hx
      · rcases List.mem_cons.mp hx with h | h
        · exact Or.inr (List.mem_cons.mpr (Or.inl h))
        · rcases ih h with h' | h'
          · exact Or.inl h'
          · exact Or.inr (List.mem_cons.mpr (Or.inr h'))
      · rcases List.mem_cons.mp hx with h | h
        · exact Or.inl h
        · exact Or.inr h

theorem insertPageSorted_pairwise {p : NVMPage} : ∀ {l : List NVMPage},
    l.Pairwise (fun a b => comparePages a b ≤ 0) →
    (insertPageSorted p l).Pairwise (fun a b => comparePages a b ≤ 0) := by
  intro l
  induction l with
  | nil =>
      intro _
      simp [insertPageSorted]
  | cons q qs ih =>
      intro hl
      rcases List.pairwise_cons.mp hl with ⟨hq, hqs⟩
      simp only [insertPageSorted]
      split
      · rename_i hqp
        refine List.pairwise_cons.mpr ⟨?_, ih hqs⟩
        intro x hx
        rcases mem_insertPageSorted hx with rfl | hx'
        · exact hqp
        · exact hq x hx'
      · rename_i hqp
        have hpq : comparePages p q ≤ 0 := by
          have h := comparePages_neg p q
          omega
        refine List.pairwise_cons.mpr ⟨?_, hl⟩
        intro x hx
        rcases List.mem_cons.mp hx with rfl | hx'
        · exact hpq
        · exact comparePages_trans hpq (hq x hx')

theorem sortPagesAux_pairwise : ∀ (pages acc : List NVMPage),
    acc.Pairwise (fun a b => comparePages a b ≤ 0) →
    (pages.foldl (fun acc p => insertPageSorted p acc) acc).Pairwise
      (fun a b => comparePages a b ≤ 0)
  | [], _, h => h
  | _ :: ps, acc, h => sortPagesAux_pairwise ps _ (insertPageSorted_pairwise h)

theorem sortPages_pairwise (pages : List NVMPage) :
    (sortPages pages).Pairwise (fun a b => comparePages a b ≤ 0) :=
  sortPagesAux_pairwise pages [] List.Pairwise.nil

theorem parseNVM_pages_sorted {b : Buffer} {r : ParseResult} (h : parseNVM b = .ok r) :
    r.applicationPages.Pairwise (fun p q => comparePages p q ≤ 0) ∧
    r.protocolPages.Pairwise (fun p q => comparePages p q ≤ 0) := by
  unfold parseNVM at h
  rcases except_bind_ok h with ⟨pages, hp, h2⟩
  simp only [pure, Except.pure, Except.ok.injEq] at h2
  subst h2
  exact ⟨sortPages_pairwise _, sortPages_pairwise _⟩

/-- Header of the S5 page with erase count 5: Berger code 25 (0xc8000005),
inverse word 0x17fffffa, status OK, device info 0x1fff (512-byte pages). -/
def s5hdrA : Buffer :=
  [0x01, 0x00, 0x9a, 0xb2, 0x05, 0x00, 0x00, 0xc8, 0xfa, 0xff, 0xff, 0x17,
   0xff, 0xff, 0xff, 0xff, 0xff, 0x1f, 0xff, 0xff]

/-- Header of the S5 page with erase count 3. -/
def s5hdrB : Buffer :=
  [0x01, 0x00, 0x9a, 0xb2, 0x03, 0x00, 0x00, 0xc8, 0xfc, 0xff, 0xff, 0x17,
   0xff, 0xff, 0xff, 0xff, 0xff, 0x1f, 0xff, 0xff]

/-- An S5 page body: one DataSmall object (key 7, 4-byte payload `v`
repeated, header word 0x20400007) followed by erased bytes. -/
def s5body (v : Nat) : Buffer :=
  [0x07, 0x00, 0x40, 0x20, v, v, v, v] ++ List.replicate 484 0xff

/-- The object decoded from `s5body v`. -/
def s5obj (v : Nat) : NVMObject := ⟨.DataSmall, 7, none, some [v, v, v, v]⟩

/-- The second S5 page (erase count 3, payload byte 0xb1 = value B). -/
def s5pgB : Buffer := s5hdrB ++ s5body 0xb1

/-- The S5 image: page with erase count 5 (value A) at offset 0, page with
erase count 3 (value B) at offset 512. -/
def s5img : Buffer := s5hdrA ++ (s5body 0xa1 ++ s5pgB)

/-- The decoded first S5 page (erase count 5, value A). -/
def s5pageA : NVMPage :=
  ⟨{ offset := 0, version := 0x01,
     eraseCount := 0xc8000005 &&& NVM3_PAGE_COUNTER_MASK,
     status := 0xffffffff, encrypted := (0xffff : Nat) &&& 0b1 = 0,
     pageSize := pageSizeFromBits (((0x1fff : Nat) >>> 13) &&& 0b111),
     writeSize := ((0x1fff : Nat) >>> 11) &&& 0b1,
     memoryMapped := (((0x1fff : Nat) >>> 12) &&& 0b1) ≠ 0,
     deviceFamily := (0x1fff : Nat) &&& 0x7ff }, [s5obj 0xa1]⟩

/-- The decoded second S5 page (erase count 3, value B). -/
def s5pageB : NVMPage :=
  ⟨{ offset := 512, version := 0x01,
     eraseCount := 0xc8000003 &&& NVM3_PAGE_COUNTER_MASK,
     status := 0xffffffff, encrypted := (0xffff : Nat) &&& 0b1 = 0,
     pageSize := pageSizeFromBits (((0x1fff : Nat) >>> 13) &&& 0b111),
     writeSize := ((0x1fff : Nat) >>> 11) &&& 0b1,
     memoryMapped := (((0x1fff : Nat) >>> 12) &&& 0b1) ≠ 0,
     deviceFamily := (0x1fff : Nat) &&& 0x7ff }, [s5obj 0xb1]⟩

theorem s5body_length (v : Nat) : (s5body v).length = 492 := by
  show ([0x07, 0x00, 0x40, 0x20, v, v, v, v] ++ List.replicate 484 (0xff : Nat)).length = 492
  rw [List.length_append, List.length_replicate]
  rfl

theorem s5pgB_length : s5pgB.length = 512 := by
  show (s5hdrB ++ _).length = 512
  rw [List.length_append, s5body_length]
  rfl

theorem s5img_length : s5img.length = 1024 := by
  show (s5hdrA ++ _).length = 1024
  rw [List.length_append, List.length_append, s5body_length, s5pgB_length]
  rfl

theorem s5img_getD_lt {i : Nat} (h : i < 20) : s5img.getD i 0 = s5hdrA.getD i 0 :=
  List.getD_append _ _ _ _ (by rw [show s5hdrA.length = 20 from rfl]; omega)

theorem s5pgB_getD_lt {i : Nat} (h : i < 20) : s5pgB.getD i 0 = s5hdrB.getD i 0 :=
  List.getD_append _ _ _ _ (by rw [show s5hdrB.length = 20 from rfl]; omega)

theorem s5body_getD_lt {v i : Nat} (h : i < 8) :
    (s5body v).getD i 0 = ([0x07, 0x00, 0x40, 0x20, v, v, v, v] : Buffer).getD i 0 :=
  List.getD_append _ _ _ _
    (by rw [show ([0x07, 0x00, 0x40, 0x20, v, v, v, v] : Buffer).length = 8 from rfl]; omega)

theorem s5body_getD_ff {v i : Nat} (h8 : 8 ≤ i) (h : i < 492) :
    (s5body v).getD i 0 = 0xff := by
  show ([0x07, 0x00, 0x40, 0x20, v, v, v, v] ++ List.replicate 484 (0xff : Nat)).getD i 0 = 0xff
  rw [List.getD_append_right _ _ _ _
    (by rw [show ([0x07, 0x00, 0x40, 0x20, v, v, v, v] : Buffer).length = 8 from rfl]; omega)]
  rw [show ([0x07, 0x00, 0x40, 0x20, v, v, v, v] : Buffer).length = 8 from rfl]
  exact getD_replicate (by omega)

theorem readUInt32LE_of_bytes {b : Buffer} {off b0 b1 b2 b3 : Nat}
    (h : off + 4 ≤ b.length)
    (h0 : b.getD off 0 = b0) (h1 : b.getD (off + 1) 0 = b1)
    (h2 : b.getD (off + 2) 0 = b2) (h3 : b.getD (off + 3) 0 = b3) :
    readUInt32LE b off = .ok (b0 + 256 * b1 + 65536 * b2 + 16777216 * b3) := by
  rw [readUInt32LE_eq h, h0, h1, h2, h3]

theorem s5body_b0 (v : Nat) : (s5body v).getD 0 0 = 0x07 := by
  rw [s5body_getD_lt (by omega)]
  rfl

theorem s5body_b1 (v : Nat) : (s5body v).getD (0 + 1) 0 = 0x00 := by
  rw [s5body_getD_lt (by omega)]
  rfl

theorem s5body_b2 (v : Nat) : (s5body v).getD (0 + 2) 0 = 0x40 := by
  rw [s5body_getD_lt (by omega)]
  rfl

theorem s5body_b3 (v : Nat) : (s5body v).getD (0 + 3) 0 = 0x20 := by
  rw [s5body_getD_lt (by omega)]
  rfl

theorem getD_drop (b : Buffer) (n i : Nat) : (b.drop n).getD i 0 = b.getD (n + i) 0 := by
  rw [List.getD_eq_getElem?_getD, List.getD_eq_getElem?_getD, List.getElem?_drop]

/-- A 16-bit read at `n + i` is a read at `i` of the buffer dropped by `n`. -/
theorem readUInt16LE_shift (b : Buffer) (n i : Nat) :
    readUInt16LE b (n + i) = readUInt16LE (b.drop n) i := by
  unfold readUInt16LE
  rw [List.length_drop, getD_drop, getD_drop]
  by_cases h : n + i + 2 ≤ b.length
  · rw [if_pos h, if_pos (by omega)]
    simp only [Nat.add_assoc]
  · rw [if_neg h, if_neg (by omega)]

/-- A 32-bit read at `n + i` is a read at `i` of the buffer dropped by `n`. -/
theorem readUInt32LE_shift (b : Buffer) (n i : Nat) :
    readUInt32LE b (n + i) = readUInt32LE (b.drop n) i := by
  unfold readUInt32LE
  rw [List.length_drop, getD_drop, getD_drop, getD_drop, getD_drop]
  by_cases h : n + i + 4 ≤ b.length
  · rw [if_pos h, if_pos (by omega)]
    simp only [Nat.add_assoc]
  · rw [if_neg h, if_neg (by omega)]

theorem s5body_word0 (v : Nat) : readUInt32LE (s5body v) 0 = .ok 0x20400007 :=
  (readUInt32LE_of_bytes (by rw [s5body_length]; omega) (s5body_b0 v) (s5body_b1 v)
    (s5body_b2 v) (s5body_b3 v)).trans (by rfl)

set_option maxRecDepth 8192 in
theorem readObject_s5body (v : Nat) : readObject (s5body v) 0 = .ok (s5obj v, 8) := by
  unfold readObject
  rw [s5body_word0]
  simp only [ok_bind]
  rw [show objectTypeFromCode ((0x20400007 : Nat) >>> 29) = .ok ObjectType.DataSmall from rfl]
  simp only [ok_bind]
  rw [if_pos (by rw [s5body_length]; decide)]
  rfl

theorem readObjectsGo_stop {data : Buffer} {off : Nat}
    (hw : readUInt32LE data off = .ok 0xFFFFFFFF) :
    ∀ fuel, readObjectsGo data fuel off = .ok []
  | 0 => rfl
  | fuel + 1 => by
      simp only [readObjectsGo]
      split
      · rfl
      · rw [hw]
        simp only [ok_bind]
        split
        · rfl
        · rename_i hne
          exact absurd trivial hne

theorem readObjectsGo_step {data : Buffer} {off w : Nat} {o : NVMObject} {n : Nat}
    (h4 : ¬ data.length < off + 4)
    (hw : readUInt32LE data off = .ok w) (hne : ¬ w = 0xFFFFFFFF)
    (hobj : readObject data off = .ok (o, n)) (fuel : Nat) :
    readObjectsGo data (fuel + 1) off =
      (readObjectsGo data fuel (off + n)).map (fun rest => o :: rest) := by
  simp only [readObjectsGo]
  rw [if_neg h4, hw]
  simp only [ok_bind]
  rw [if_neg hne, hobj]
  simp only [ok_bind]
  cases hrest : readObjectsGo data fuel (off + n) with
  | ok l => rfl
  | error e => rfl

theorem readObjects_s5body (v : Nat) : readObjects (s5body v) = .ok [s5obj v] := by
  have hff : readUInt32LE (s5body v) (0 + 8) = .ok 0xffffffff :=
    (readUInt32LE_of_bytes (by rw [s5body_length]; omega)
      (s5body_getD_ff (by omega) (by omega)) (s5body_getD_ff (by omega) (by omega))
      (s5body_getD_ff (by omega) (by omega)) (s5body_getD_ff (by omega) (by omega))).trans
      (by rfl)
  unfold readObjects
  rw [readObjectsGo_step (by rw [s5body_length]; decide) (s5body_word0 v) (by decide)
    (readObject_s5body v)]
  rw [readObjectsGo_stop hff]
  rfl

theorem readPage_s5imgA : readPage s5img 0 = .ok (s5pageA, 512) := by
  have r0 : readUInt16LE s5img 0 = .ok 0x01 := by
    rw [readUInt16LE_eq (by rw [s5img_length]; omega), s5img_getD_lt (by omega),
      s5img_getD_lt (by omega)]
    rfl
  have r1 : readUInt16LE s5img (0 + 2) = .ok NVM3_PAGE_MAGIC := by
    rw [readUInt16LE_eq (by rw [s5img_length]; omega), s5img_getD_lt (by omega),
      s5img_getD_lt (by omega)]
    rfl
  have r3 : readUInt32LE s5img (0 + 4) = .ok 0xc8000005 := by
    rw [readUInt32LE_eq (by rw [s5img_length]; omega), s5img_getD_lt (by omega),
      s5img_getD_lt (by omega), s5img_getD_lt (by omega), s5img_getD_lt (by omega)]
    rfl
  have r4 : readUInt32LE s5img (0 + 8) = .ok 0x17fffffa := by
    rw [readUInt32LE_eq (by rw [s5img_length]; omega), s5img_getD_lt (by omega),
      s5img_getD_lt (by omega), s5img_getD_lt (by omega), s5img_getD_lt (by omega)]
    rfl
  have r5 : readUInt32LE s5img (0 + 12) = .ok 0xffffffff := by
    rw [readUInt32LE_eq (by rw [s5img_length]; omega), s5img_getD_lt (by omega),
      s5img_getD_lt (by omega), s5img_getD_lt (by omega), s5img_getD_lt (by omega)]
    rfl
  have r6 : readUInt16LE s5img (0 + 16) = .ok 0x1fff := by
    rw [readUInt16LE_eq (by rw [s5img_length]; omega), s5img_getD_lt (by omega),
      s5img_getD_lt (by omega)]
    rfl
  have r7 : readUInt16LE s5img (0 + 18) = .ok 0xffff := by
    rw [readUInt16LE_eq (by rw [s5img_length]; omega), s5img_getD_lt (by omega),
      s5img_getD_lt (by omega)]
    rfl
  have hobj : readObjects ((s5img.drop (0 + 20)).take
      (min (pageSizeFromBits (((0x1fff : Nat) >>> 13) &&& 0b111)) FLASH_MAX_PAGE_SIZE - 20)) =
      .ok [s5obj 0xa1] := by
    have hdrop : s5img.drop (0 + 20) = s5body 0xa1 ++ s5pgB := by
      show (s5hdrA ++ _).drop (0 + 20) = _
      rw [show (0 + 20 : Nat) = s5hdrA.length from rfl]
      exact List.drop_left _ _
    rw [hdrop]
    rw [show min (pageSizeFromBits (((0x1fff : Nat) >>> 13) &&& 0b111))
      FLASH_MAX_PAGE_SIZE - 20 = 492 from by decide]
    rw [show (492 : Nat) = (s5body 0xa1).length from (s5body_length 0xa1).symm]
    rw [List.take_left]
    exact readObjects_s5body 0xa1
  exact readPage_ok_intro s5img 0 0xc8000005 0x17fffffa 0xffffffff 0x1fff 0xffff [s5obj 0xa1]
    r0 r1 r3 (by decide) r4 (by decide) (by decide) r5 r6
    (by rw [s5img_length]; decide) r7 hobj

theorem readPage_s5imgB : readPage s5img 512 = .ok (s5pageB, 512) := by
  have hdrop512 : s5img.drop 512 = s5pgB := by
    have h20 : s5img.drop 20 = s5body 0xa1 ++ s5pgB := by
      show (s5hdrA ++ _).drop 20 = _
      rw [show (20 : Nat) = s5hdrA.length from rfl]
      exact List.drop_left _ _
    have h492 : (s5img.drop 20).drop 492 = s5pgB := by
      rw [h20, show (492 : Nat) = (s5body 0xa1).length from (s5body_length 0xa1).symm]
      exact List.drop_left _ _
    rw [← h492, List.drop_drop]
  have r0 : readUInt16LE s5img (512 + 0) = .ok 0x01 := by
    rw [readUInt16LE_shift, hdrop512, readUInt16LE_eq (by rw [s5pgB_length]; omega),
      s5pgB_getD_lt (by omega), s5pgB_getD_lt (by omega)]
    rfl
  have r1 : readUInt16LE s5img (512 + 2) = .ok NVM3_PAGE_MAGIC := by
    rw [readUInt16LE_shift, hdrop512, readUInt16LE_eq (by rw [s5pgB_length]; omega),
      s5pgB_getD_lt (by omega), s5pgB_getD_lt (by omega)]
    rfl
  have r3 : readUInt32LE s5img (512 + 4) = .ok 0xc8000003 := by
    rw [readUInt32LE_shift, hdrop512, readUInt32LE_eq (by rw [s5pgB_length]; omega),
      s5pgB_getD_lt (by omega), s5pgB_getD_lt (by omega), s5pgB_getD_lt (by omega),
      s5pgB_getD_lt (by omega)]
    rfl
  have r4 : readUInt32LE s5img (512 + 8) = .ok 0x17fffffc := by
    rw [readUInt32LE_shift, hdrop512, readUInt32LE_eq (by rw [s5pgB_length]; omega),
      s5pgB_getD_lt (by omega), s5pgB_getD_lt (by omega), s5pgB_getD_lt (by omega),
      s5pgB_getD_lt (by omega)]
    rfl
  have r5 : readUInt32LE s5img (512 + 12) = .ok 0xffffffff := by
    rw [readUInt32LE_shift, hdrop512, readUInt32LE_eq (by rw [s5pgB_length]; omega),
      s5pgB_getD_lt (by omega), s5pgB_getD_lt (by omega), s5pgB_getD_lt (by omega),
      s5pgB_getD_lt (by omega)]
    rfl
  have r6 : readUInt16LE s5img (512 + 16) = .ok 0x1fff := by
    rw [readUInt16LE_shift, hdrop512, readUInt16LE_eq (by rw [s5pgB_length]; omega),
      s5pgB_getD_lt (by omega), s5pgB_getD_lt (by omega)]
    rfl
  have r7 : readUInt16LE s5img (512 + 18) = .ok 0xffff := by
    rw [readUInt16LE_shift, hdrop512, readUInt16LE_eq (by rw [s5pgB_length]; omega),
      s5pgB_getD_lt (by omega), s5pgB_getD_lt (by omega)]
    rfl
  have hobj : readObjects ((s5img.drop (512 + 20)).take
      (min (pageSizeFromBits (((0x1fff : Nat) >>> 13) &&& 0b111)) FLASH_MAX_PAGE_SIZE - 20)) =
      .ok [s5obj 0xb1] := by
    have hd : s5img.drop (512 + 20) = s5body 0xb1 := by
      have h20 : (s5img.drop 512).drop 20 = s5body 0xb1 := by
        rw [hdrop512]
        show (s5hdrB ++ _).drop 20 = _
        rw [show (20 : Nat) = s5hdrB.length from rfl]
        exact List.drop_left _ _
      rw [← h20, List.drop_drop]
    rw [hd]
    rw [show min (pageSizeFromBits (((0x1fff : Nat) >>> 13) &&& 0b111))
      FLASH_MAX_PAGE_SIZE - 20 = 492 from by decide]
    rw [show (492 : Nat) = (s5body 0xb1).length from (s5body_length 0xb1).symm]
    rw [List.take_length]
    exact readObjects_s5body 0xb1
  exact readPage_ok_intro s5img 512 0xc8000003 0x17fffffc 0xffffffff 0x1fff 0xffff [s5obj 0xb1]
    r0 r1 r3 (by decide) r4 (by decide) (by decide) r5 r6
    (by rw [s5img_length]; decide) r7 hobj

/-- `parseNVM` on the S5 image: pages reordered to erase counts 3, 5 and
key 7 compacted to value A. -/
theorem parseNVM_s5img :
    parseNVM s5img = .ok ⟨[s5pageB, s5pageA], [], [(7, s5obj 0xa1)], []⟩ := by
  have hgo : parsePagesGo s5img (s5img.length + 1) 0 = .ok [s5pageA, s5pageB] := by
    rw [s5img_length]
    rw [parsePagesGo_step (by rw [s5img_length]; decide) readPage_s5imgA]
    rw [show (0 + 512 : Nat) = 512 from rfl]
    rw [show (1024 : Nat) = 1023 + 1 from rfl]
    rw [parsePagesGo_step (by rw [s5img_length]; decide) readPage_s5imgB]
    rw [show (512 + 512 : Nat) = 1024 from rfl]
    have hdone : ∀ fuel, parsePagesGo s5img fuel 1024 = .ok [] :=
      parsePagesGo_done (by rw [s5img_length]; decide)
    rw [hdone]
    rfl
  unfold parseNVM
  rw [hgo]
  simp only [ok_bind]
  rfl

/-- Claim C4: `parseNVM` sorts the pages of each region by erase count
ascending with ties broken by original byte offset ascending (every
successfully parsed result's page lists are pairwise so ordered); and in
scenario S5 — two application pages with erase counts 5 and 3, each holding
one write of key 7 (value A = 0xa1-bytes on the erase-count-5 page at
offset 0, value B = 0xb1-bytes on the erase-count-3 page at offset 512) —
the pages are reordered to erase counts [3, 5] and the compacted live value
of key 7 is value A. -/
theorem C4_theorem :
    (∀ (b : Buffer) (r : ParseResult), parseNVM b = .ok r →
      r.applicationPages.Pairwise (fun p q =>
        p.header.eraseCount < q.header.eraseCount ∨
          (p.header.eraseCount = q.header.eraseCount ∧
            p.header.offset ≤ q.header.offset)) ∧
      r.protocolPages.Pairwise (fun p q =>
        p.header.eraseCount < q.header.eraseCount ∨
          (p.header.eraseCount = q.header.eraseCount ∧
            p.header.offset ≤ q.header.offset))) ∧
    (∃ r, parseNVM s5img = .ok r ∧
      s5pageA.header.eraseCount = 5 ∧ s5pageB.header.eraseCount = 3 ∧
      s5pageA.header.offset = 0 ∧ s5pageB.header.offset = 512 ∧
      s5pageA.objects = [s5obj 0xa1] ∧ s5pageB.objects = [s5obj 0xb1] ∧
      r.applicationPages = [s5pageB, s5pageA] ∧
      r.applicationObjects = [(7, s5obj 0xa1)] ∧
      objData (s5obj 0xa1) = [0xa1, 0xa1, 0xa1, 0xa1] ∧
      objData (s5obj 0xb1) = [0xb1, 0xb1, 0xb1, 0xb1]) := by
  constructor
  · intro b r h
    have hs := parseNVM_pages_sorted h
    have himp : ∀ p q : NVMPage, comparePages p q ≤ 0 →
        (p.header.eraseCount < q.header.eraseCount ∨
          (p.header.eraseCount = q.header.eraseCount ∧
            p.header.offset ≤ q.header.offset)) :=
      fun p q => (comparePages_le_iff p q).mp
    exact ⟨hs.1.imp (fun h' => himp _ _ h'), hs.2.imp (fun h' => himp _ _ h')⟩
  · exact ⟨_, parseNVM_s5img, rfl, rfl, rfl, rfl, rfl, rfl, rfl, rfl, rfl, rfl⟩

/-! ## Claim C10 -/

theorem pageSizeFromBits_ge (bits : Nat) : 512 ≤ pageSizeFromBits bits := by
  unfold pageSizeFromBits NVM3_MIN_PAGE_SIZE
  have h2 : 0 < 2 ^ bits := pow_pos (by decide) bits
  calc (512 : Nat) = 512 * 1 := by omega
    _ ≤ 512 * 2 ^ bits := Nat.mul_le_mul_left 512 h2

theorem readPage_offset_eq {b : Buffer} {off : Nat} {page : NVMPage} {n : Nat}
    (h : readPage b off = .ok (page, n)) : page.header.offset = off := by
  rcases readPage_ok_char h with ⟨v, m, ec, eci, st, di, fi,
    -, -, -, -, -, -, -, -, -, -, -, -, -, -, -, hheader⟩
  rw [hheader]

theorem readPage_n_ge {b : Buffer} {off : Nat} {page : NVMPage} {n : Nat}
    (h : readPage b off = .ok (page, n)) : 512 ≤ n ∧ off + n ≤ b.length := by
  rcases readPage_ok_char h with ⟨v, m, ec, eci, st, di, fi,
    -, -, -, -, -, -, -, -, -, -, -, -, hn, hlenchk, -, -⟩
  constructor
  · rw [hn]
    have h1 := pageSizeFromBits_ge ((di >>> 13) &&& 0b111)
    have h2048 : (512 : Nat) ≤ FLASH_MAX_PAGE_SIZE := by decide
    omega
  · omega

/-- Pages recording all `parsePagesGo` offsets lie at or after the start. -/
theorem parsePagesGo_offsets_ge (b : Buffer) : ∀ fuel off pages,
    parsePagesGo b fuel off = .ok pages → ∀ p ∈ pages, off ≤ p.header.offset := by
  intro fuel
  induction fuel with
  | zero =>
      intro off pages h p hp
      simp only [parsePagesGo, Except.ok.injEq] at h
      subst h
      simp at hp
  | succ fuel ih =>
      intro off pages h p hp
      simp only [parsePagesGo] at h
      by_cases hoff : off < b.length
      · rw [if_pos hoff] at h
        rcases except_bind_ok h with ⟨⟨page, n⟩, hread, h'⟩
        rcases except_bind_ok h' with ⟨rest, hrest, h''⟩
        simp only [pure, Except.pure, Except.ok.injEq] at h''
        subst h''
        rcases List.mem_cons.mp hp with rfl | hp'
        · rw [readPage_offset_eq hread]
        · have := ih (off + n) rest hrest p hp'
          omega
      · rw [if_neg hoff] at h
        simp only [Except.ok.injEq] at h
        subst h
        simp at hp

/-- A 16-bit read is unchanged between two buffers of one length agreeing
on its two bytes. -/
theorem readUInt16LE_congr {b1 b2 : Buffer} (off : Nat) (hlen : b1.length = b2.length)
    (h : ∀ j, off ≤ j → j < off + 2 → b1[j]? = b2[j]?) :
    readUInt16LE b2 off = readUInt16LE b1 off := by
  have g : ∀ j, off ≤ j → j < off + 2 → List.getD b2 j 0 = List.getD b1 j 0 := by
    intro j h1 h2
    rw [List.getD_eq_getElem?_getD, List.getD_eq_getElem?_getD, h j h1 h2]
  unfold readUInt16LE
  rw [← hlen]
  by_cases h2 : off + 2 ≤ b1.length
  · rw [if_pos h2, if_pos h2, g off (Nat.le_refl _) (by omega), g (off + 1) (by omega) (by omega)]
  · rw [if_neg h2, if_neg h2]

/-- A 32-bit read is unchanged between two buffers of one length agreeing
on its four bytes. -/
theorem readUInt32LE_congr {b1 b2 : Buffer} (off : Nat) (hlen : b1.length = b2.length)
    (h : ∀ j, off ≤ j → j < off + 4 → b1[j]? = b2[j]?) :
    readUInt32LE b2 off = readUInt32LE b1 off := by
  have g : ∀ j, off ≤ j → j < off + 4 → List.getD b2 j 0 = List.getD b1 j 0 := by
    intro j h1 h2
    rw [List.getD_eq_getElem?_getD, List.getD_eq_getElem?_getD, h j h1 h2]
  unfold readUInt32LE
  rw [← hlen]
  by_cases h4 : off + 4 ≤ b1.length
  · rw [if_pos h4, if_pos h4, g off (Nat.le_refl _) (by omega), g (off + 1) (by omega) (by omega),
      g (off + 2) (by omega) (by omega), g (off + 3) (by omega) (by omega)]
  · rw [if_neg h4, if_neg h4]

/-- The page-body slice is unchanged between two buffers of one length
agreeing beyond the status word. -/
theorem slice_congr {b1 b2 : Buffer} {off n : Nat} (hlen : b1.length = b2.length)
    (hAg : ∀ j, off + 16 ≤ j → j < off + n → b1[j]? = b2[j]?)
    (h20 : 20 ≤ n) :
    (b2.drop (off + 20)).take (n - 20) = (b1.drop (off + 20)).take (n - 20) := by
  apply List.ext_getElem?
  intro i
  by_cases hi : i < n - 20
  · rw [List.getElem?_take, List.getElem?_take, if_pos hi, if_pos hi,
      List.getElem?_drop, List.getElem?_drop]
    exact (hAg (off + 20 + i) (by omega) (by omega)).symm
  · have hlb2 : ((b2.drop (off + 20)).take (n - 20)).length ≤ i := by
      rw [List.length_take, List.length_drop]
      omega
    have hlb1 : ((b1.drop (off + 20)).take (n - 20)).length ≤ i := by
      rw [List.length_take, List.length_drop]
      omega
    rw [List.getElem?_eq_none hlb2, List.getElem?_eq_none hlb1]

/-- What the compaction pipeline sees of a page: its offset, erase count
and decoded objects (everything except the header fields it ignores). -/
def pageShape (p q : NVMPage) : Prop :=
  p.header.offset = q.header.offset ∧ p.header.eraseCount = q.header.eraseCount ∧
  p.objects = q.objects

/-- `readPage` on a buffer agreeing with `b1` outside the status word at
`off + 12` decodes the same page up to the recorded status value. -/
theorem readPage_status_congr {b1 b2 : Buffer} {off : Nat} {page : NVMPage} {n : Nat}
    (hlen : b1.length = b2.length)
    (h : readPage b1 off = .ok (page, n))
    (hAg : ∀ j, (off ≤ j ∧ j < off + 12) ∨ (off + 16 ≤ j ∧ j < off + n) →
      b1[j]? = b2[j]?) :
    ∃ page2, readPage b2 off = .ok (page2, n) ∧ pageShape page page2 ∧
      page2.header = { page.header with status := page2.header.status } := by
  obtain ⟨h512, hoffn⟩ := readPage_n_ge h
  rcases readPage_ok_char h with ⟨version, magic, ecWord, ecInvWord, status, devInfo, formatInfo,
    hv, hm, rfl, rfl, hec, hb1, hinv, hb2, hcomp, hst, hdev, hfmt, hn, hlenchk, hobj, hheader⟩
  have r1' : readUInt16LE b2 off = .ok 0x01 := by
    rw [readUInt16LE_congr off hlen (fun j hj1 hj2 => hAg j (Or.inl ⟨hj1, by omega⟩))]
    exact hv
  have r2' : readUInt16LE b2 (off + 2) = .ok NVM3_PAGE_MAGIC := by
    rw [readUInt16LE_congr (off + 2) hlen (fun j hj1 hj2 => hAg j (Or.inl ⟨by omega, by omega⟩))]
    exact hm
  have r3' : readUInt32LE b2 (off + 4) = .ok ecWord := by
    rw [readUInt32LE_congr (off + 4) hlen (fun j hj1 hj2 => hAg j (Or.inl ⟨by omega, by omega⟩))]
    exact hec
  have r4' : readUInt32LE b2 (off + 8) = .ok ecInvWord := by
    rw [readUInt32LE_congr (off + 8) hlen (fun j hj1 hj2 => hAg j (Or.inl ⟨by omega, by omega⟩))]
    exact hinv
  set s2 : Nat := b2.getD (off + 12) 0 + 256 * b2.getD (off + 12 + 1) 0 +
    65536 * b2.getD (off + 12 + 2) 0 + 16777216 * b2.getD (off + 12 + 3) 0 with hs2def
  have hs2 : readUInt32LE b2 (off + 12) = .ok s2 :=
    readUInt32LE_eq (by omega)
  have r6' : readUInt16LE b2 (off + 16) = .ok devInfo := by
    rw [readUInt16LE_congr (off + 16) hlen (fun j hj1 hj2 => hAg j (Or.inr ⟨by omega, by omega⟩))]
    exact hdev
  have r7' : readUInt16LE b2 (off + 18) = .ok formatInfo := by
    rw [readUInt16LE_congr (off + 18) hlen (fun j hj1 hj2 => hAg j (Or.inr ⟨by omega, by omega⟩))]
    exact hfmt
  have hlen2 : ¬ b2.length <
      off + min (pageSizeFromBits ((devInfo >>> 13) &&& 0b111)) FLASH_MAX_PAGE_SIZE := by
    rw [← hlen, ← hn]
    omega
  have hobj2 : readObjects ((b2.drop (off + 20)).take
      (min (pageSizeFromBits ((devInfo >>> 13) &&& 0b111)) FLASH_MAX_PAGE_SIZE - 20)) =
      .ok page.objects := by
    rw [← hn]
    rw [slice_congr hlen (fun j hj1 hj2 => hAg j (Or.inr ⟨hj1, hj2⟩)) (by omega)]
    rw [hn] at hobj ⊢
    exact hobj
  have happ := readPage_ok_intro b2 off ecWord ecInvWord s2 devInfo formatInfo page.objects
    r1' r2' r3' hb1 r4' hb2 hcomp hs2 r6' hlen2 r7' hobj2
  refine ⟨⟨{ page.header with status := s2 }, page.objects⟩, ?_, ⟨rfl, rfl, rfl⟩, rfl⟩
  rw [hn, hheader]
  exact happ

/-- Walking a buffer that agrees with `b1` outside the parsed pages' status
words yields the same pages up to their recorded status values. -/
theorem parsePagesGo_status_congr (b1 b2 : Buffer) (hlen : b1.length = b2.length) :
    ∀ fuel off pages1,
      parsePagesGo b1 fuel off = .ok pages1 →
      (∀ j, off ≤ j →
        (∀ p ∈ pages1, j < p.header.offset + 12 ∨ p.header.offset + 16 ≤ j) →
        b1[j]? = b2[j]?) →
      ∃ pages2, parsePagesGo b2 fuel off = .ok pages2 ∧
        List.Forall₂ pageShape pages1 pages2 := by
  intro fuel
  induction fuel with
  | zero =>
      intro off pages1 h hAg
      simp only [parsePagesGo, Except.ok.injEq] at h
      subst h
      exact ⟨[], rfl, List.Forall₂.nil⟩
  | succ fuel ih =>
      intro off pages1 h hAg
      simp only [parsePagesGo] at h
      by_cases hoff : off < b1.length
      · rw [if_pos hoff] at h
        rcases except_bind_ok h with ⟨⟨page, n⟩, hread, h'⟩
        rcases except_bind_ok h' with ⟨rest1, hrest, h''⟩
        simp only [pure, Except.pure, Except.ok.injEq] at h''
        subst h''
        have hrest_ge := parsePagesGo_offsets_ge b1 fuel (off + n) rest1 hrest
        have hpoff : page.header.offset = off := readPage_offset_eq hread
        have h512 : 512 ≤ n := (readPage_n_ge hread).1
        have hAgL1 : ∀ j, (off ≤ j ∧ j < off + 12) ∨ (off + 16 ≤ j ∧ j < off + n) →
            b1[j]? = b2[j]? := by
          intro j hj
          apply hAg j (by omega)
          intro p hp
          rcases List.mem_cons.mp hp with rfl | hp'
          · rw [hpoff]
            omega
          · have := hrest_ge p hp'
            left
            omega
        obtain ⟨page2, hread2, hshape1, -⟩ := readPage_status_congr hlen hread hAgL1
        obtain ⟨rest2, hrest2, hshape2⟩ := ih (off + n) rest1 hrest (by
          intro j hj hw
          apply hAg j (by omega)
          intro p hp
          rcases List.mem_cons.mp hp with rfl | hp'
          · right
            rw [hpoff]
            omega
          · exact hw p hp')
        refine ⟨page2 :: rest2, ?_, List.Forall₂.cons hshape1 hshape2⟩
        simp only [parsePagesGo]
        rw [if_pos (by rw [← hlen]; exact hoff), hread2]
        simp only [ok_bind]
        rw [hrest2]
        simp only [ok_bind]
        rfl
      · rw [if_neg hoff] at h
        simp only [Except.ok.injEq] at h
        subst h
        refine ⟨[], ?_, List.Forall₂.nil⟩
        simp only [parsePagesGo]
        rw [if_neg (by rw [← hlen]; exact hoff)]

theorem comparePages_pageShape {p p' q q' : NVMPage}
    (hp : pageShape p p') (hq : pageShape q q') :
    comparePages p q = comparePages p' q' := by
  unfold comparePages
  rw [hp.1, hp.2.1, hq.1, hq.2.1]

theorem insertPageSorted_pageShape {p p' : NVMPage} (hp : pageShape p p') :
    ∀ {l l' : List NVMPage}, List.Forall₂ pageShape l l' →
      List.Forall₂ pageShape (insertPageSorted p l) (insertPageSorted p' l') := by
  intro l l' h
  induction h with
  | nil => exact List.Forall₂.cons hp List.Forall₂.nil
  | cons hpq htail ih =>
      simp only [insertPageSorted]
      rw [comparePages_pageShape hpq hp]
      split
      · exact List.Forall₂.cons hpq ih
      · exact List.Forall₂.cons hp (List.Forall₂.cons hpq htail)

theorem sortPagesAux_pageShape : ∀ {l l' : List NVMPage},
    List.Forall₂ pageShape l l' →
    ∀ {acc acc' : List NVMPage}, List.Forall₂ pageShape acc acc' →
      List.Forall₂ pageShape (l.foldl (fun a p => insertPageSorted p a) acc)
        (l'.foldl (fun a p => insertPageSorted p a) acc') := by
  intro l l' h
  induction h with
  | nil => intro acc acc' hacc; exact hacc
  | cons hpq htail ih =>
      intro acc acc' hacc
      simp only [List.foldl_cons]
      exact ih (insertPageSorted_pageShape hpq hacc)

theorem sortPages_pageShape {l l' : List NVMPage} (h : List.Forall₂ pageShape l l') :
    List.Forall₂ pageShape (sortPages l) (sortPages l') :=
  sortPagesAux_pageShape h List.Forall₂.nil

theorem filter_app_pageShape : ∀ {l l' : List NVMPage}, List.Forall₂ pageShape l l' →
    List.Forall₂ pageShape
      (l.filter (fun p => p.header.offset < ZWAVE_APPLICATION_NVM_SIZE))
      (l'.filter (fun p => p.header.offset < ZWAVE_APPLICATION_NVM_SIZE)) := by
  intro l l' h
  induction h with
  | nil => exact List.Forall₂.nil
  | cons hpq htail ih =>
      simp only [List.filter_cons]
      rw [hpq.1]
      split
      · exact List.Forall₂.cons hpq ih
      · exact ih

theorem filter_proto_pageShape : ∀ {l l' : List NVMPage}, List.Forall₂ pageShape l l' →
    List.Forall₂ pageShape
      (l.filter (fun p => ZWAVE_APPLICATION_NVM_SIZE ≤ p.header.offset))
      (l'.filter (fun p => ZWAVE_APPLICATION_NVM_SIZE ≤ p.header.offset)) := by
  intro l l' h
  induction h with
  | nil => exact List.Forall₂.nil
  | cons hpq htail ih =>
      simp only [List.filter_cons]
      rw [hpq.1]
      split
      · exact List.Forall₂.cons hpq ih
      · exact ih

theorem foldl_objects_pageShape : ∀ {l l' : List NVMPage},
    List.Forall₂ pageShape l l' →
    ∀ acc : List NVMObject,
      l.foldl (fun acc page => acc ++ page.objects) acc =
        l'.foldl (fun acc page => acc ++ page.objects) acc := by
  intro l l' h
  induction h with
  | nil => intro acc; rfl
  | cons hpq htail ih =>
      intro acc
      simp only [List.foldl_cons]
      rw [hpq.2.2]
      exact ih _

/-- `parseNVM` on a buffer agreeing with `b1` outside the parsed pages'
status words yields the same compacted object maps. -/
theorem parseNVM_status_congr (b1 b2 : Buffer) (hlen : b1.length = b2.length)
    (r1 : ParseResult) (h1 : parseNVM b1 = .ok r1)
    (pages1 : List NVMPage)
    (hp1 : parsePagesGo b1 (b1.length + 1) 0 = .ok pages1)
    (hAg : ∀ j, (∀ p ∈ pages1, j < p.header.offset + 12 ∨ p.header.offset + 16 ≤ j) →
      b1[j]? = b2[j]?) :
    ∃ r2, parseNVM b2 = .ok r2 ∧
      r2.applicationObjects = r1.applicationObjects ∧
      r2.protocolObjects = r1.protocolObjects := by
  obtain ⟨pages2, hp2, hshape⟩ := parsePagesGo_status_congr b1 b2 hlen (b1.length + 1) 0
    pages1 hp1 (fun j _ hw => hAg j hw)
  unfold parseNVM at h1 ⊢
  rw [hp1] at h1
  simp only [ok_bind] at h1
  simp only [pure, Except.pure, Except.ok.injEq] at h1
  rw [← hlen, hp2]
  simp only [ok_bind]
  refine ⟨_, rfl, ?_, ?_⟩
  · rw [← h1]
    exact congrArg compressObjects
      (foldl_objects_pageShape (sortPages_pageShape (filter_app_pageShape hshape)) []).symm
  · rw [← h1]
    exact congrArg compressObjects
      (foldl_objects_pageShape (sortPages_pageShape (filter_proto_pageShape hshape)) []).symm

/-- Header of the S5 erase-count-5 page with status `Bad` (0x0000ffff). -/
def s5hdrA2 : Buffer :=
  [0x01, 0x00, 0x9a, 0xb2, 0x05, 0x00, 0x00, 0xc8, 0xfa, 0xff, 0xff, 0x17,
   0xff, 0xff, 0x00, 0x00, 0xff, 0x1f, 0xff, 0xff]

/-- Header of the S5 erase-count-3 page with status `OK_ErasePending`
(0xffffa5a5). -/
def s5hdrB2 : Buffer :=
  [0x01, 0x00, 0x9a, 0xb2, 0x03, 0x00, 0x00, 0xc8, 0xfc, 0xff, 0xff, 0x17,
   0xa5, 0xa5, 0xff, 0xff, 0xff, 0x1f, 0xff, 0xff]

/-- The second S5 status-variant page. -/
def s5pgB2 : Buffer := s5hdrB2 ++ s5body 0xb1

/-- The S5 image with both page statuses replaced (Bad at offset 0,
OK_ErasePending at offset 512); all other bytes are those of `s5img`. -/
def s5imgS : Buffer := s5hdrA2 ++ (s5body 0xa1 ++ s5pgB2)

/-- The decoded first status-variant page. -/
def s5pageA2 : NVMPage :=
  ⟨{ offset := 0, version := 0x01,
     eraseCount := 0xc8000005 &&& NVM3_PAGE_COUNTER_MASK,
     status := 0x0000ffff, encrypted := (0xffff : Nat) &&& 0b1 = 0,
     pageSize := pageSizeFromBits (((0x1fff : Nat) >>> 13) &&& 0b111),
     writeSize := ((0x1fff : Nat) >>> 11) &&& 0b1,
     memoryMapped := (((0x1fff : Nat) >>> 12) &&& 0b1) ≠ 0,
     deviceFamily := (0x1fff : Nat) &&& 0x7ff }, [s5obj 0xa1]⟩

/-- The decoded second status-variant page. -/
def s5pageB2 : NVMPage :=
  ⟨{ offset := 512, version := 0x01,
     eraseCount := 0xc8000003 &&& NVM3_PAGE_COUNTER_MASK,
     status := 0xffffa5a5, encrypted := (0xffff : Nat) &&& 0b1 = 0,
     pageSize := pageSizeFromBits (((0x1fff : Nat) >>> 13) &&& 0b111),
     writeSize := ((0x1fff : Nat) >>> 11) &&& 0b1,
     memoryMapped := (((0x1fff : Nat) >>> 12) &&& 0b1) ≠ 0,
     deviceFamily := (0x1fff : Nat) &&& 0x7ff }, [s5obj 0xb1]⟩

theorem s5pgB2_length : s5pgB2.length = 512 := by
  show (s5hdrB2 ++ _).length = 512
  rw [List.length_append, s5body_length]
  rfl

theorem s5imgS_length : s5imgS.length = 1024 := by
  show (s5hdrA2 ++ _).length = 1024
  rw [List.length_append, List.length_append, s5body_length, s5pgB2_length]
  rfl

theorem s5imgS_getD_lt {i : Nat} (h : i < 20) : s5imgS.getD i 0 = s5hdrA2.getD i 0 :=
  List.getD_append _ _ _ _ (by rw [show s5hdrA2.length = 20 from rfl]; omega)

theorem s5pgB2_getD_lt {i : Nat} (h : i < 20) : s5pgB2.getD i 0 = s5hdrB2.getD i 0 :=
  List.getD_append _ _ _ _ (by rw [show s5hdrB2.length = 20 from rfl]; omega)

theorem readPage_s5imgSA : readPage s5imgS 0 = .ok (s5pageA2, 512) := by
  have r0 : readUInt16LE s5imgS 0 = .ok 0x01 := by
    rw [readUInt16LE_eq (by rw [s5imgS_length]; omega), s5imgS_getD_lt (by omega),
      s5imgS_getD_lt (by omega)]
    rfl
  have r1 : readUInt16LE s5imgS (0 + 2) = .ok NVM3_PAGE_MAGIC := by
    rw [readUInt16LE_eq (by rw [s5imgS_length]; omega), s5imgS_getD_lt (by omega),
      s5imgS_getD_lt (by omega)]
    rfl
  have r3 : readUInt32LE s5imgS (0 + 4) = .ok 0xc8000005 := by
    rw [readUInt32LE_eq (by rw [s5imgS_length]; omega), s5imgS_getD_lt (by omega),
      s5imgS_getD_lt (by omega), s5imgS_getD_lt (by omega), s5imgS_getD_lt (by omega)]
    rfl
  have r4 : readUInt32LE s5imgS (0 + 8) = .ok 0x17fffffa := by
    rw [readUInt32LE_eq (by rw [s5imgS_length]; omega), s5imgS_getD_lt (by omega),
      s5imgS_getD_lt (by omega), s5imgS_getD_lt (by omega), s5imgS_getD_lt (by omega)]
    rfl
  have r5 : readUInt32LE s5imgS (0 + 12) = .ok 0x0000ffff := by
    rw [readUInt32LE_eq (by rw [s5imgS_length]; omega), s5imgS_getD_lt (by omega),
      s5imgS_getD_lt (by omega), s5imgS_getD_lt (by omega), s5imgS_getD_lt (by omega)]
    rfl
  have r6 : readUInt16LE s5imgS (0 + 16) = .ok 0x1fff := by
    rw [readUInt16LE_eq (by rw [s5imgS_length]; omega), s5imgS_getD_lt (by omega),
      s5imgS_getD_lt (by omega)]
    rfl
  have r7 : readUInt16LE s5imgS (0 + 18) = .ok 0xffff := by
    rw [readUInt16LE_eq (by rw [s5imgS_length]; omega), s5imgS_getD_lt (by omega),
      s5imgS_getD_lt (by omega)]
    rfl
  have hobj : readObjects ((s5imgS.drop (0 + 20)).take
      (min (pageSizeFromBits (((0x1fff : Nat) >>> 13) &&& 0b111)) FLASH_MAX_PAGE_SIZE - 20)) =
      .ok [s5obj 0xa1] := by
    have hdrop : s5imgS.drop (0 + 20) = s5body 0xa1 ++ s5pgB2 := by
      show (s5hdrA2 ++ _).drop (0 + 20) = _
      rw [show (0 + 20 : Nat) = s5hdrA2.length from rfl]
      exact List.drop_left _ _
    rw [hdrop]
    rw [show min (pageSizeFromBits (((0x1fff : Nat) >>> 13) &&& 0b111))
      FLASH_MAX_PAGE_SIZE - 20 = 492 from by decide]
    rw [show (492 : Nat) = (s5body 0xa1).length from (s5body_length 0xa1).symm]
    rw [List.take_left]
    exact readObjects_s5body 0xa1
  exact readPage_ok_intro s5imgS 0 0xc8000005 0x17fffffa 0x0000ffff 0x1fff 0xffff [s5obj 0xa1]
    r0 r1 r3 (by decide) r4 (by decide) (by decide) r5 r6
    (by rw [s5imgS_length]; decide) r7 hobj

theorem readPage_s5imgSB : readPage s5imgS 512 = .ok (s5pageB2, 512) := by
  have hdrop512 : s5imgS.drop 512 = s5pgB2 := by
    have h20 : s5imgS.drop 20 = s5body 0xa1 ++ s5pgB2 := by
      show (s5hdrA2 ++ _).drop 20 = _
      rw [show (20 : Nat) = s5hdrA2.length from rfl]
      exact List.drop_left _ _
    have h492 : (s5imgS.drop 20).drop 492 = s5pgB2 := by
      rw [h20, show (492 : Nat) = (s5body 0xa1).length from (s5body_length 0xa1).symm]
      exact List.drop_left _ _
    rw [← h492, List.drop_drop]
  have r0 : readUInt16LE s5imgS (512 + 0) = .ok 0x01 := by
    rw [readUInt16LE_shift, hdrop512, readUInt16LE_eq (by rw [s5pgB2_length]; omega),
      s5pgB2_getD_lt (by omega), s5pgB2_getD_lt (by omega)]
    rfl
  have r1 : readUInt16LE s5imgS (512 + 2) = .ok NVM3_PAGE_MAGIC := by
    rw [readUInt16LE_shift, hdrop512, readUInt16LE_eq (by rw [s5pgB2_length]; omega),
      s5pgB2_getD_lt (by omega), s5pgB2_getD_lt (by omega)]
    rfl
  have r3 : readUInt32LE s5imgS (512 + 4) = .ok 0xc8000003 := by
    rw [readUInt32LE_shift, hdrop512, readUInt32LE_eq (by rw [s5pgB2_length]; omega),
      s5pgB2_getD_lt (by omega), s5pgB2_getD_lt (by omega), s5pgB2_getD_lt (by omega),
      s5pgB2_getD_lt (by omega)]
    rfl
  have r4 : readUInt32LE s5imgS (512 + 8) = .ok 0x17fffffc := by
    rw [readUInt32LE_shift, hdrop512, readUInt32LE_eq (by rw [s5pgB2_length]; omega),
      s5pgB2_getD_lt (by omega), s5pgB2_getD_lt (by omega), s5pgB2_getD_lt (by omega),
      s5pgB2_getD_lt (by omega)]
    rfl
  have r5 : readUInt32LE s5imgS (512 + 12) = .ok 0xffffa5a5 := by
    rw [readUInt32LE_shift, hdrop512, readUInt32LE_eq (by rw [s5pgB2_length]; omega),
      s5pgB2_getD_lt (by omega), s5pgB2_getD_lt (by omega), s5pgB2_getD_lt (by omega),
      s5pgB2_getD_lt (by omega)]
    rfl
  have r6 : readUInt16LE s5imgS (512 + 16) = .ok 0x1fff := by
    rw [readUInt16LE_shift, hdrop512, readUInt16LE_eq (by rw [s5pgB2_length]; omega),
      s5pgB2_getD_lt (by omega), s5pgB2_getD_lt (by omega)]
    rfl
  have r7 : readUInt16LE s5imgS (512 + 18) = .ok 0xffff := by
    rw [readUInt16LE_shift, hdrop512, readUInt16LE_eq (by rw [s5pgB2_length]; omega),
      s5pgB2_getD_lt (by omega), s5pgB2_getD_lt (by omega)]
    rfl
  have hobj : readObjects ((s5imgS.drop (512 + 20)).take
      (min (pageSizeFromBits (((0x1fff : Nat) >>> 13) &&& 0b111)) FLASH_MAX_PAGE_SIZE - 20)) =
      .ok [s5obj 0xb1] := by
    have hd : s5imgS.drop (512 + 20) = s5body 0xb1 := by
      have h20 : (s5imgS.drop 512).drop 20 = s5body 0xb1 := by
        rw [hdrop512]
        show (s5hdrB2 ++ _).drop 20 = _
        rw [show (20 : Nat) = s5hdrB2.length from rfl]
        exact List.drop_left _ _
      rw [← h20, List.drop_drop]
    rw [hd]
    rw [show min (pageSizeFromBits (((0x1fff : Nat) >>> 13) &&& 0b111))
      FLASH_MAX_PAGE_SIZE - 20 = 492 from by decide]
    rw [show (492 : Nat) = (s5body 0xb1).length from (s5body_length 0xb1).symm]
    rw [List.take_length]
    exact readObjects_s5body 0xb1
  exact readPage_ok_intro s5imgS 512 0xc8000003 0x17fffffc 0xffffa5a5 0x1fff 0xffff [s5obj 0xb1]
    r0 r1 r3 (by decide) r4 (by decide) (by decide) r5 r6
    (by rw [s5imgS_length]; decide) r7 hobj

/-- `parseNVM` on the status-variant S5 image: same page order and same
compacted objects, only the recorded statuses differ. -/
theorem parseNVM_s5imgS :
    parseNVM s5imgS = .ok ⟨[s5pageB2, s5pageA2], [], [(7, s5obj 0xa1)], []⟩ := by
  have hgo : parsePagesGo s5imgS (s5imgS.length + 1) 0 = .ok [s5pageA2, s5pageB2] := by
    rw [s5imgS_length]
    rw [parsePagesGo_step (by rw [s5imgS_length]; decide) readPage_s5imgSA]
    rw [show (0 + 512 : Nat) = 512 from rfl]
    rw [show (1024 : Nat) = 1023 + 1 from rfl]
    rw [parsePagesGo_step (by rw [s5imgS_length]; decide) readPage_s5imgSB]
    rw [show (512 + 512 : Nat) = 1024 from rfl]
    have hdone : ∀ fuel, parsePagesGo s5imgS fuel 1024 = .ok [] :=
      parsePagesGo_done (by rw [s5imgS_length]; decide)
    rw [hdone]
    rfl
  unfold parseNVM
  rw [hgo]
  simp only [ok_bind]
  rfl

/-- Claim C10: `parseNVM` never inspects the decoded page status — for any
two images of one length that agree outside the parsed pages' 4-byte status
words (at each page offset + 12), the second also parses and yields the
identical compacted application and protocol object maps; concretely, the
S5 image with its statuses rewritten to `Bad` and `OK_ErasePending` (all
other bytes unchanged) parses with those statuses recorded and produces the
same object maps as the all-`OK` original. -/
theorem C10_theorem :
    (∀ (b1 b2 : Buffer) (pages1 : List NVMPage) (r1 : ParseResult),
      b1.length = b2.length →
      parseNVM b1 = .ok r1 →
      parsePagesGo b1 (b1.length + 1) 0 = .ok pages1 →
      (∀ j, (∀ p ∈ pages1, j < p.header.offset + 12 ∨ p.header.offset + 16 ≤ j) →
        b1[j]? = b2[j]?) →
      ∃ r2, parseNVM b2 = .ok r2 ∧
        r2.applicationObjects = r1.applicationObjects ∧
        r2.protocolObjects = r1.protocolObjects) ∧
    (∃ r1 r2, parseNVM s5img = .ok r1 ∧ parseNVM s5imgS = .ok r2 ∧
      s5imgS = s5hdrA2 ++ (s5body 0xa1 ++ (s5hdrB2 ++ s5body 0xb1)) ∧
      s5hdrA2.take 12 = s5hdrA.take 12 ∧ s5hdrA2.drop 16 = s5hdrA.drop 16 ∧
      s5hdrB2.take 12 = s5hdrB.take 12 ∧ s5hdrB2.drop 16 = s5hdrB.drop 16 ∧
      r1.applicationPages.map (fun p => p.header.status) =
        [PageStatus.OK, PageStatus.OK] ∧
      r2.applicationPages.map (fun p => p.header.status) =
        [PageStatus.OK_ErasePending, PageStatus.Bad] ∧
      r2.applicationObjects = r1.applicationObjects ∧
      r2.protocolObjects = r1.protocolObjects) := by
  constructor
  · intro b1 b2 pages1 r1 hlen h1 hp1 hAg
    exact parseNVM_status_congr b1 b2 hlen r1 h1 pages1 hp1 hAg
  · exact ⟨_, _, parseNVM_s5img, parseNVM_s5imgS, rfl, rfl, rfl, rfl, rfl,
      rfl, rfl, rfl, rfl⟩

/-! ## Claim C5 -/

theorem shiftRight_or_distrib (a b s : Nat) : (a ||| b) >>> s = a >>> s ||| b >>> s := by
  apply Nat.eq_of_testBit_eq
  intro i
  simp [Nat.testBit_shiftRight, Nat.testBit_or]

theorem shiftRight_zero_of_lt {x b : Nat} (h : x < 2 ^ b) : x >>> b = 0 := by
  rw [Nat.shiftRight_eq_div_pow]
  exact Nat.div_eq_of_lt h

theorem shiftLeft_shiftRight_cancel {x a b : Nat} (h : b ≤ a) :
    (x <<< a) >>> b = x <<< (a - b) := by
  rw [Nat.shiftLeft_eq, Nat.shiftLeft_eq, Nat.shiftRight_eq_div_pow,
    show (2 : Nat) ^ a = 2 ^ (a - b) * 2 ^ b from by rw [← pow_add]; congr 1; omega,
    ← Nat.mul_assoc]
  exact Nat.mul_div_cancel _ (pow_pos (by decide) b)

theorem shiftLeft_shiftRight_cancel' {x a b : Nat} (h : a ≤ b) :
    (x <<< a) >>> b = x >>> (b - a) := by
  rw [Nat.shiftLeft_eq, Nat.shiftRight_eq_div_pow, Nat.shiftRight_eq_div_pow,
    show (2 : Nat) ^ b = 2 ^ a * 2 ^ (b - a) from by rw [← pow_add]; congr 1; omega,
    Nat.mul_comm x (2 ^ a)]
  exact Nat.mul_div_mul_left x (2 ^ (b - a)) (pow_pos (by decide) a)

theorem shiftLeft_lt_pow {x k : Nat} (a : Nat) (h : x < 2 ^ k) : x <<< a < 2 ^ (k + a) := by
  rw [Nat.shiftLeft_eq, pow_add]
  exact (Nat.mul_lt_mul_right (pow_pos (by decide) a)).mpr h

theorem shiftLeft_and_mask_zero {x a m : Nat} (h : m ≤ a) : (x <<< a) &&& (2 ^ m - 1) = 0 := by
  rw [Nat.and_pow_two_sub_one_eq_mod, Nat.shiftLeft_eq,
    show (2 : Nat) ^ a = 2 ^ (a - m) * 2 ^ m from by rw [← pow_add]; congr 1; omega,
    ← Nat.mul_assoc]
  exact Nat.mul_mod_left _ _

theorem and_mask_of_lt {x m : Nat} (h : x < 2 ^ m) : x &&& (2 ^ m - 1) = x := by
  rw [Nat.and_pow_two_sub_one_eq_mod]
  exact Nat.mod_eq_of_lt h

/-- Decomposition of the packed object-header word: with the fields in
their disjoint bit ranges, each decode mask recovers its field. -/
theorem headerWord_decomp (k l f c : Nat) (hk : k < 2 ^ 20) (hl : l < 2 ^ 7)
    (hf : f < 2 ^ 2) (hc : c < 2 ^ 3) :
    (k ||| l <<< 20 ||| f <<< 27 ||| c <<< 29) >>> 29 = c ∧
    (k ||| l <<< 20 ||| f <<< 27 ||| c <<< 29) &&& 0xFFFFF = k ∧
    ((k ||| l <<< 20 ||| f <<< 27 ||| c <<< 29) >>> 20) &&& 0x7F = l ∧
    ((k ||| l <<< 20 ||| f <<< 27 ||| c <<< 29) >>> 27) &&& 3 = f ∧
    k ||| l <<< 20 ||| f <<< 27 ||| c <<< 29 < 2 ^ 32 := by
  have hL27 : l <<< 20 < 2 ^ 27 := shiftLeft_lt_pow 20 hl
  have hF29 : f <<< 27 < 2 ^ 29 := shiftLeft_lt_pow 27 hf
  have hC32 : c <<< 29 < 2 ^ 32 := shiftLeft_lt_pow 29 hc
  refine ⟨?_, ?_, ?_, ?_, ?_⟩
  · rw [shiftRight_or_distrib, shiftRight_or_distrib, shiftRight_or_distrib]
    rw [shiftRight_zero_of_lt (show k < 2 ^ 29 by
      have : (2:Nat) ^ 20 ≤ 2 ^ 29 := by norm_num
      omega)]
    rw [shiftRight_zero_of_lt (show l <<< 20 < 2 ^ 29 by
      have : (2:Nat) ^ 27 ≤ 2 ^ 29 := by norm_num
      omega)]
    rw [shiftRight_zero_of_lt hF29]
    rw [shiftLeft_shiftRight_cancel (Nat.le_refl 29), Nat.sub_self, Nat.shiftLeft_zero]
    simp [Nat.zero_or]
  · rw [show (0xFFFFF : Nat) = 2 ^ 20 - 1 from by norm_num]
    rw [Nat.and_distrib_right, Nat.and_distrib_right, Nat.and_distrib_right]
    rw [and_mask_of_lt hk, shiftLeft_and_mask_zero (by omega),
      shiftLeft_and_mask_zero (by omega), shiftLeft_and_mask_zero (by omega)]
    simp [Nat.or_zero]
  · rw [shiftRight_or_distrib, shiftRight_or_distrib, shiftRight_or_distrib]
    rw [shiftRight_zero_of_lt hk]
    rw [shiftLeft_shiftRight_cancel (by omega), Nat.sub_self, Nat.shiftLeft_zero]
    rw [shiftLeft_shiftRight_cancel (show (20 : Nat) ≤ 27 by omega)]
    rw [shiftLeft_shiftRight_cancel (show (20 : Nat) ≤ 29 by omega)]
    rw [show (27 - 20 : Nat) = 7 from rfl, show (29 - 20 : Nat) = 9 from rfl]
    rw [show (0x7F : Nat) = 2 ^ 7 - 1 from by norm_num]
    rw [Nat.and_distrib_right, Nat.and_distrib_right, Nat.and_distrib_right]
    rw [Nat.zero_and, and_mask_of_lt hl, shiftLeft_and_mask_zero (Nat.le_refl 7),
      shiftLeft_and_mask_zero (by omega)]
    simp [Nat.or_zero, Nat.zero_or]
  · rw [shiftRight_or_distrib, shiftRight_or_distrib, shiftRight_or_distrib]
    rw [shiftRight_zero_of_lt (show k < 2 ^ 27 by
      have : (2:Nat) ^ 20 ≤ 2 ^ 27 := by norm_num
      omega)]
    rw [shiftLeft_shiftRight_cancel' (show (20 : Nat) ≤ 27 by omega),
      show (27 - 20 : Nat) = 7 from rfl, shiftRight_zero_of_lt hl]
    rw [shiftLeft_shiftRight_cancel (Nat.le_refl 27), Nat.sub_self, Nat.shiftLeft_zero]
    rw [shiftLeft_shiftRight_cancel (show (27 : Nat) ≤ 29 by omega),
      show (29 - 27 : Nat) = 2 from rfl]
    rw [show (3 : Nat) = 2 ^ 2 - 1 from by norm_num]
    rw [Nat.and_distrib_right, Nat.and_distrib_right, Nat.and_distrib_right]
    rw [Nat.zero_and, and_mask_of_lt hf,
      shiftLeft_and_mask_zero (Nat.le_refl 2)]
    simp [Nat.or_zero, Nat.zero_or]
  · have hk32 : k < 2 ^ 32 := by
      have : (2:Nat) ^ 20 ≤ 2 ^ 32 := by norm_num
      omega
    have hL32 : l <<< 20 < 2 ^ 32 := by
      have : (2:Nat) ^ 27 ≤ 2 ^ 32 := by norm_num
      omega
    have hF32 : f <<< 27 < 2 ^ 32 := by
      have : (2:Nat) ^ 29 ≤ 2 ^ 32 := by norm_num
      omega
    exact Nat.or_lt_two_pow (Nat.or_lt_two_pow (Nat.or_lt_two_pow hk32 hL32) hF32) hC32

/-- A well-formed small-data map entry: an unfragmented `DataSmall` object
whose stored key matches the map key, with a present payload of at most
127 bytes (the 7-bit wire length) and a 20-bit key. -/
def smallEntry (kv : Nat × NVMObject) : Prop :=
  ∃ d : Buffer, kv.2 = ⟨.DataSmall, kv.1, none, some d⟩ ∧ d.length ≤ 127 ∧ kv.1 < 2 ^ 20

theorem readUInt32LE_u32Bytes (w : Nat) (hw : w < 2 ^ 32) (rest : Buffer) :
    readUInt32LE (u32Bytes w ++ rest) 0 = .ok w := by
  unfold readUInt32LE
  rw [if_pos (by rw [List.length_append, show (u32Bytes w).length = 4 from rfl]; omega)]
  rw [List.getD_append _ _ _ _ (by rw [show (u32Bytes w).length = 4 from rfl]; omega),
    List.getD_append _ _ _ _ (by rw [show (u32Bytes w).length = 4 from rfl]; omega),
    List.getD_append _ _ _ _ (by rw [show (u32Bytes w).length = 4 from rfl]; omega),
    List.getD_append _ _ _ _ (by rw [show (u32Bytes w).length = 4 from rfl]; omega)]
  rw [show (u32Bytes w).getD 0 0 = w % 256 from rfl,
    show (u32Bytes w).getD (0 + 1) 0 = (w / 256) % 256 from rfl,
    show (u32Bytes w).getD (0 + 2) 0 = (w / 65536) % 256 from rfl,
    show (u32Bytes w).getD (0 + 3) 0 = (w / 16777216) % 256 from rfl]
  have hsum : w % 256 + 256 * (w / 256 % 256) + 65536 * (w / 65536 % 256) +
      16777216 * (w / 16777216 % 256) = w := by omega
  rw [hsum]

/-- Shape of a well-formed unfragmented small data object. -/
def smallShape (o : NVMObject) : Prop :=
  ∃ k d, o = ⟨.DataSmall, k, none, some d⟩ ∧ k < 2 ^ 20 ∧ d.length ≤ 127

theorem readObject_small_core (w : Nat) (key : Nat) (d pad rest : Buffer)
    (hw32 : w < 2 ^ 32)
    (h29 : w >>> 29 = 1) (hkey : w &&& 0xFFFFF = key)
    (hlen : (w >>> 20) &&& 0x7F = d.length) (hfrag : (w >>> 27) &&& 3 = 0) :
    readObject (u32Bytes w ++ (d ++ (pad ++ rest))) 0 =
      .ok (⟨.DataSmall, key, none, some d⟩,
        min (align4 (4 + d.length)) (4 + (d.length + (pad.length + rest.length)))) := by
  unfold readObject
  rw [readUInt32LE_u32Bytes w hw32]
  simp only [ok_bind]
  rw [h29, show objectTypeFromCode 1 = .ok ObjectType.DataSmall from rfl]
  simp only [ok_bind]
  rw [hlen, hkey, hfrag]
  rw [if_pos (by
    simp only [List.length_append, show ∀ v, (u32Bytes v).length = 4 from fun v => rfl,
      show NVM3_OBJ_HEADER_SIZE_SMALL = 4 from rfl]
    omega)]
  have hdrop : (u32Bytes w ++ (d ++ (pad ++ rest))).drop (0 + 4) = d ++ (pad ++ rest) := by
    rw [show (0 + 4 : Nat) = (u32Bytes w).length from rfl]
    exact List.drop_left _ _
  rw [hdrop, List.take_left]
  unfold objConsumed
  simp only [List.length_append, show ∀ v, (u32Bytes v).length = 4 from fun v => rfl,
    show NVM3_OBJ_HEADER_SIZE_SMALL = 4 from rfl, Nat.sub_zero]
  rfl

/-- The wire facts of one serialized small object at the head of a buffer:
its header word reads back, is not the erased pattern, and `readObject`
returns the object, consuming its aligned size. -/
theorem writeObject_small_wire (key : Nat) (d rest : Buffer)
    (hk : key < 2 ^ 20) (hd : d.length ≤ 127) :
    ∃ w, readUInt32LE (writeObject ⟨.DataSmall, key, none, some d⟩ ++ rest) 0 = .ok w ∧
      ¬ w = 0xFFFFFFFF ∧
      readObject (writeObject ⟨.DataSmall, key, none, some d⟩ ++ rest) 0 =
        .ok (⟨.DataSmall, key, none, some d⟩, align4 (4 + d.length)) := by
  have hkm : key &&& 0xFFFFF = key := by
    rw [show (0xFFFFF : Nat) = 2 ^ 20 - 1 from by norm_num]
    exact and_mask_of_lt hk
  have hlm : d.length &&& 0x7F = d.length := by
    rw [show (0x7F : Nat) = 2 ^ 7 - 1 from by norm_num]
    exact and_mask_of_lt (by omega)
  obtain ⟨h29, hkey, hlen, hfrag, hw32⟩ :=
    headerWord_decomp (key &&& 0xFFFFF) (d.length &&& 0x7F) 0 1
      (by rw [hkm]; exact hk) (by rw [hlm]; omega) (by norm_num) (by norm_num)
  have hwdef : objHeaderWord ⟨.DataSmall, key, none, some d⟩ d.length =
      (key &&& 0xFFFFF) ||| (d.length &&& 0x7F) <<< 20 ||| 0 <<< 27 ||| 1 <<< 29 := rfl
  have hwr : writeObject (⟨.DataSmall, key, none, some d⟩ : NVMObject) =
      (u32Bytes (objHeaderWord ⟨.DataSmall, key, none, some d⟩ d.length) ++ d) ++
        List.replicate (align4 (4 + d.length) - (4 + d.length)) 0xFF := by
    show padTo4 (u32Bytes (objHeaderWord ⟨.DataSmall, key, none, some d⟩ d.length) ++ d) = _
    unfold padTo4
    rw [List.length_append,
      show (u32Bytes (objHeaderWord ⟨.DataSmall, key, none, some d⟩ d.length)).length = 4
        from rfl]
  have hB : writeObject (⟨.DataSmall, key, none, some d⟩ : NVMObject) ++ rest =
      u32Bytes (objHeaderWord ⟨.DataSmall, key, none, some d⟩ d.length) ++
        (d ++ (List.replicate (align4 (4 + d.length) - (4 + d.length)) 0xFF ++ rest)) := by
    rw [hwr, List.append_assoc, List.append_assoc]
  refine ⟨objHeaderWord ⟨.DataSmall, key, none, some d⟩ d.length, ?_, ?_, ?_⟩
  · rw [hB]
    exact readUInt32LE_u32Bytes _ (by rw [hwdef]; exact hw32) _
  · intro hcontra
    have h7 : objHeaderWord ⟨.DataSmall, key, none, some d⟩ d.length >>> 29 = 1 := by
      rw [hwdef, h29]
    rw [hcontra] at h7
    simp at h7
  · rw [hB]
    have hcore := readObject_small_core
      (objHeaderWord ⟨.DataSmall, key, none, some d⟩ d.length) key d
      (List.replicate (align4 (4 + d.length) - (4 + d.length)) 0xFF) rest
      (by rw [hwdef]; exact hw32)
      (by rw [hwdef, h29])
      (by rw [hwdef, hkey, hkm])
      (by rw [hwdef, hlen, hlm])
      (by rw [hwdef, hfrag])
    rw [hcore]
    have hmin : min (align4 (4 + d.length))
        (4 + (d.length + ((List.replicate (align4 (4 + d.length) - (4 + d.length))
          (0xFF : Nat)).length + rest.length))) = align4 (4 + d.length) := by
      rw [List.length_replicate]
      have hle := align4_le (4 + d.length)
      omega
    rw [hmin]

theorem drop_append_shift (a b : Buffer) (k : Nat) :
    (a ++ b).drop (a.length + k) = b.drop k := by
  have h : ((a ++ b).drop a.length).drop k = b.drop k := by rw [List.drop_left]
  rw [← h, List.drop_drop, Nat.add_comm]

theorem readUInt32LE_append_shift (a b : Buffer) (k : Nat) :
    readUInt32LE (a ++ b) (a.length + k) = readUInt32LE b k := by
  rw [readUInt32LE_shift, List.drop_left]

theorem objConsumed_shift (a b : Buffer) (off s : Nat) :
    objConsumed (a ++ b) (a.length + off) s = objConsumed b off s := by
  unfold objConsumed
  rw [List.length_append]
  congr 1
  omega

/-- `readObject` is translation-invariant: reading at `a.length + off` in
`a ++ b` is reading at `off` in `b`. -/
theorem readObject_shift (a b : Buffer) (off : Nat) :
    readObject (a ++ b) (a.length + off) = readObject b off := by
  have hlen : (a ++ b).length = a.length + b.length := List.length_append a b
  unfold readObject
  rw [readUInt32LE_append_shift]
  cases hw : readUInt32LE b off with
  | error e => rfl
  | ok w =>
      simp only [ok_bind]
      cases ht : objectTypeFromCode (w >>> 29) with
      | error e => rfl
      | ok t =>
          simp only [ok_bind]
          cases t with
          | Deleted => rw [objConsumed_shift]
          | Link => rw [objConsumed_shift]
          | DataSmall =>
              by_cases hc : off + NVM3_OBJ_HEADER_SIZE_SMALL + (w >>> 20 &&& 0x7F) ≤ b.length
              · rw [if_pos (by rw [hlen]; omega), if_pos hc]
                rw [Nat.add_assoc, drop_append_shift,
                  objConsumed_shift a b off (NVM3_OBJ_HEADER_SIZE_SMALL + (w >>> 20 &&& 0x7F))]
              · rw [if_neg (by rw [hlen]; omega), if_neg hc]
          | CounterSmall =>
              by_cases hc : off + NVM3_OBJ_HEADER_SIZE_SMALL + NVM_COUNTER_PAYLOAD_SIZE ≤
                  b.length
              · have hcond : a.length + off + NVM3_OBJ_HEADER_SIZE_SMALL +
                    NVM_COUNTER_PAYLOAD_SIZE ≤ (a ++ b).length := by rw [hlen]; omega
                rw [if_pos hcond, if_pos hc]
                rw [Nat.add_assoc a.length off 4, drop_append_shift,
                  objConsumed_shift a b off
                    (NVM3_OBJ_HEADER_SIZE_SMALL + NVM_COUNTER_PAYLOAD_SIZE)]
              · have hcond : ¬ a.length + off + NVM3_OBJ_HEADER_SIZE_SMALL +
                    NVM_COUNTER_PAYLOAD_SIZE ≤ (a ++ b).length := by rw [hlen]; omega
                rw [if_neg hcond, if_neg hc]
          | DataLarge =>
              rw [Nat.add_assoc a.length off 4, readUInt32LE_append_shift]
              cases hext : readUInt32LE b (off + 4) with
              | error e => rfl
              | ok extLen =>
                  simp only [ok_bind]
                  by_cases hc : off + NVM3_OBJ_HEADER_SIZE_LARGE + extLen ≤ b.length
                  · have hcond : a.length + off + NVM3_OBJ_HEADER_SIZE_LARGE + extLen ≤
                        (a ++ b).length := by rw [hlen]; omega
                    rw [if_pos hcond, if_pos hc]
                    rw [show a.length + off + 8 = a.length + (off + 8) from by omega,
                      drop_append_shift,
                      objConsumed_shift a b off (NVM3_OBJ_HEADER_SIZE_LARGE + extLen)]
                  · have hcond : ¬ a.length + off + NVM3_OBJ_HEADER_SIZE_LARGE + extLen ≤
                        (a ++ b).length := by rw [hlen]; omega
                    rw [if_neg hcond, if_neg hc]
          | CounterLarge =>
              rw [Nat.add_assoc a.length off 4, readUInt32LE_append_shift]
              cases hext : readUInt32LE b (off + 4) with
              | error e => rfl
              | ok extLen =>
                  simp only [ok_bind]
                  by_cases hc : off + NVM3_OBJ_HEADER_SIZE_LARGE + extLen ≤ b.length
                  · have hcond : a.length + off + NVM3_OBJ_HEADER_SIZE_LARGE + extLen ≤
                        (a ++ b).length := by rw [hlen]; omega
                    rw [if_pos hcond, if_pos hc]
                    rw [show a.length + off + 8 = a.length + (off + 8) from by omega,
                      drop_append_shift,
                      objConsumed_shift a b off (NVM3_OBJ_HEADER_SIZE_LARGE + extLen)]
                  · have hcond : ¬ a.length + off + NVM3_OBJ_HEADER_SIZE_LARGE + extLen ≤
                        (a ++ b).length := by rw [hlen]; omega
                    rw [if_neg hcond, if_neg hc]

/-- The object loop is translation-invariant. -/
theorem readObjectsGo_shift (a b : Buffer) : ∀ (fuel off : Nat),
    readObjectsGo (a ++ b) fuel (a.length + off) = readObjectsGo b fuel off := by
  intro fuel
  induction fuel with
  | zero => intro off; rfl
  | succ fuel ih =>
      intro off
      simp only [readObjectsGo]
      rw [List.length_append]
      by_cases h4 : b.length < off + 4
      · rw [if_pos (by omega), if_pos h4]
      · rw [if_neg (by omega), if_neg h4]
        rw [readUInt32LE_append_shift]
        cases hw : readUInt32LE b off with
        | error e => rfl
        | ok w =>
            simp only [ok_bind]
            by_cases hff : w = 0xFFFFFFFF
            · rw [if_pos hff, if_pos hff]
            · rw [if_neg hff, if_neg hff]
              rw [readObject_shift]
              cases hobj : readObject b off with
              | error e => rfl
              | ok pr =>
                  simp only [ok_bind]
                  obtain ⟨o, n⟩ := pr
                  rw [Nat.add_assoc, ih (off + n)]

theorem readObjectsGo_replicate_ff (m : Nat) : ∀ fuel,
    readObjectsGo (List.replicate m 0xff) fuel 0 = .ok []
  | 0 => rfl
  | fuel + 1 => by
      by_cases h4 : m < 4
      · simp only [readObjectsGo]
        rw [List.length_replicate, if_pos (by omega)]
      · exact readObjectsGo_stop (readUInt32LE_replicate_ff (by omega)) (fuel + 1)

theorem flatten_small_length_ge : ∀ (os : List NVMObject),
    (∀ o ∈ os, ∃ k d, o = ⟨.DataSmall, k, none, some d⟩) →
    os.length ≤ ((os.map writeObject).flatten).length := by
  intro os
  induction os with
  | nil => intro _; simp
  | cons o os' ih =>
      intro hall
      obtain ⟨k, d, rfl⟩ := hall o (by simp)
      have hrest := ih (fun q hq => hall q (by simp [hq]))
      simp only [List.map_cons, List.flatten_cons, List.length_append, List.length_cons]
      have hWlen : (writeObject (⟨.DataSmall, k, none, some d⟩ : NVMObject)).length =
          align4 (4 + d.length) := writeObject_dataSmall_length rfl
      have hle := align4_le (4 + d.length)
      omega

theorem readObjectsGo_flatten_small : ∀ (os : List NVMObject),
    (∀ o ∈ os, smallShape o) →
    ∀ (m fuel : Nat), os.length ≤ fuel →
    readObjectsGo ((os.map writeObject).flatten ++ List.replicate m 0xff) fuel 0 = .ok os := by
  intro os
  induction os with
  | nil =>
      intro _ m fuel _
      rw [show ((([] : List NVMObject).map writeObject).flatten ++
        List.replicate m (0xff : Nat)) = List.replicate m 0xff from by simp]
      exact readObjectsGo_replicate_ff m fuel
  | cons o os' ih =>
      intro hall m fuel hfuel
      obtain ⟨k, d, rfl, hk, hd⟩ := hall o (by simp)
      cases fuel with
      | zero => simp at hfuel
      | succ f =>
          have hdata : (((⟨.DataSmall, k, none, some d⟩ : NVMObject) :: os').map
                writeObject).flatten ++ List.replicate m (0xff : Nat) =
              writeObject ⟨.DataSmall, k, none, some d⟩ ++
                ((os'.map writeObject).flatten ++ List.replicate m 0xff) := by
            simp [List.map_cons, List.flatten_cons, List.append_assoc]
          obtain ⟨w, hw, hne, hobj⟩ := writeObject_small_wire k d
            ((os'.map writeObject).flatten ++ List.replicate m 0xff) hk hd
          rw [hdata]
          have hWlen : (writeObject (⟨.DataSmall, k, none, some d⟩ : NVMObject)).length =
              align4 (4 + d.length) := writeObject_dataSmall_length rfl
          have hle := align4_le (4 + d.length)
          have h4 : ¬ (writeObject (⟨.DataSmall, k, none, some d⟩ : NVMObject) ++
              ((os'.map writeObject).flatten ++ List.replicate m (0xff : Nat))).length <
              0 + 4 := by
            rw [List.length_append, hWlen]
            omega
          rw [readObjectsGo_step h4 hw hne hobj]
          rw [show (0 + align4 (4 + d.length) : Nat) =
            (writeObject (⟨.DataSmall, k, none, some d⟩ : NVMObject)).length + 0 from by
              rw [hWlen]; omega]
          rw [readObjectsGo_shift]
          rw [ih (fun q hq => hall q (by simp [hq])) m f
            (by simp only [List.length_cons] at hfuel; omega)]
          rfl

/-- Reading back a page body: the concatenated wire forms of well-formed
small objects followed by erased fill decode to exactly those objects. -/
theorem readObjects_flatten_small (os : List NVMObject)
    (h : ∀ o ∈ os, smallShape o) (m : Nat) :
    readObjects ((os.map writeObject).flatten ++ List.replicate m 0xff) = .ok os := by
  unfold readObjects
  apply readObjectsGo_flatten_small os h m
  have hge := flatten_small_length_ge os (fun o ho => by
    obtain ⟨k, d, heq, -, -⟩ := h o ho
    exact ⟨k, d, heq⟩)
  rw [List.length_append]
  omega

/-- `Buffer.alloc(pageSize, 0xff)` with the default header copied in is the
header followed by an erased body. -/
theorem emptyPageDefault_eq :
    emptyPageDefault = defaultPageHeaderBytes ++ List.replicate 2028 0xff := by
  show bufCopy defaultPageHeaderBytes (List.replicate 2048 0xff) 0 = _
  unfold bufCopy
  rw [List.length_replicate]
  rw [List.take_of_length_le (show defaultPageHeaderBytes.length ≤ 2048 - 0 by
    rw [show defaultPageHeaderBytes.length = 20 from rfl]; omega)]
  rw [show (0 + defaultPageHeaderBytes.length : Nat) = 20 from rfl]
  rw [List.drop_replicate]
  rfl

/-- The first page of a region during single-page placement: the default
header, the wire bytes written so far and erased fill. -/
def stPage (ws : Buffer) : Buffer :=
  defaultPageHeaderBytes ++ (ws ++ List.replicate (2028 - ws.length) 0xff)

theorem stPage_length {ws : Buffer} (h : ws.length ≤ 2028) : (stPage ws).length = 2048 := by
  show (defaultPageHeaderBytes ++ _).length = 2048
  rw [List.length_append, List.length_append, List.length_replicate,
    show defaultPageHeaderBytes.length = 20 from rfl]
  omega

theorem take_append_shift (a b : Buffer) (k : Nat) :
    (a ++ b).take (a.length + k) = a ++ b.take k := by
  rw [List.take_append_eq_append_take, List.take_of_length_le (by omega),
    Nat.add_sub_cancel_left]

theorem bufCopy_stPage (ws wo : Buffer) (h : ws.length + wo.length ≤ 2028) :
    bufCopy wo (stPage ws) (20 + ws.length) = stPage (ws ++ wo) := by
  unfold bufCopy
  rw [stPage_length (by omega)]
  rw [List.take_of_length_le (show wo.length ≤ 2048 - (20 + ws.length) by omega)]
  have htake : (stPage ws).take (20 + ws.length) = defaultPageHeaderBytes ++ ws := by
    show (defaultPageHeaderBytes ++ (ws ++ _)).take (20 + ws.length) = _
    rw [show (20 + ws.length : Nat) = defaultPageHeaderBytes.length + ws.length from by
      rw [show defaultPageHeaderBytes.length = 20 from rfl]]
    rw [take_append_shift, List.take_left]
  have hdrop : (stPage ws).drop (20 + ws.length + wo.length) =
      List.replicate (2028 - ws.length - wo.length) 0xff := by
    show (defaultPageHeaderBytes ++ (ws ++ _)).drop (20 + ws.length + wo.length) = _
    rw [show (20 + ws.length + wo.length : Nat) =
      defaultPageHeaderBytes.length + (ws.length + wo.length) from by
        rw [show defaultPageHeaderBytes.length = 20 from rfl]; omega]
    rw [drop_append_shift, drop_append_shift, List.drop_replicate]
  rw [htake, hdrop]
  unfold stPage
  rw [List.length_append,
    show (2028 - ws.length - wo.length : Nat) = 2028 - (ws.length + wo.length) from by omega,
    List.append_assoc defaultPageHeaderBytes ws wo, List.append_assoc]

/-- The placement state while all writes land on the first page: `k` spare
empty pages, wire bytes `ws` on the page, write log `w`. -/
def mkSt (k : Nat) (ws : Buffer) (w : List (Int × Nat × Buffer)) : WriteState :=
  ⟨stPage ws :: List.replicate k emptyPageDefault, 0, 20 + ws.length, w⟩

theorem placeObject_small_fit (st : WriteState) (o : NVMObject)
    (htype : o.type = .DataSmall)
    (hfit : ¬ remainingSpace 2048 st <
      ((NVM3_OBJ_HEADER_SIZE_SMALL + (objData o).length : Nat) : Int)) :
    placeObject 2048 st o = .ok (writeFragment st o) := by
  have hdel : ¬ o.type = .Deleted := by simp [htype]
  have hlarge : ¬ (o.type = .DataLarge ∨ o.type = .CounterLarge) := by simp [htype]
  have hnotCounter : ¬ o.type = .CounterSmall := by simp [htype]
  unfold placeObject
  rw [if_neg hdel]
  rw [if_neg (by
    intro hcontra
    rcases hcontra with ⟨ht, -⟩ | ⟨-, hlt⟩
    · exact hnotCounter ht
    · exact hfit hlt)]
  simp only [pureu_bind]
  rw [if_neg hlarge]
  simp only [List.length_cons, List.length_nil]
  rw [show decide (1 < 0 + 1) = false from rfl]
  simp only [writeFragmentsGo]
  rw [if_neg (by simp)]
  simp only [pureu_bind]

theorem writeFragment_mkSt (k : Nat) (ws : Buffer) (w : List (Int × Nat × Buffer))
    (key : Nat) (d : Buffer) (hfit : ws.length + align4 (4 + d.length) ≤ 2028) :
    writeFragment (mkSt k ws w) ⟨.DataSmall, key, none, some d⟩ =
      mkSt k (ws ++ writeObject ⟨.DataSmall, key, none, some d⟩)
        (w ++ [(0, 20 + ws.length, writeObject ⟨.DataSmall, key, none, some d⟩)]) := by
  have hWlen : (writeObject (⟨.DataSmall, key, none, some d⟩ : NVMObject)).length =
      align4 (4 + d.length) := writeObject_dataSmall_length rfl
  have hcopy : bufCopy (writeObject ⟨.DataSmall, key, none, some d⟩) (stPage ws)
      (20 + ws.length) = stPage (ws ++ writeObject ⟨.DataSmall, key, none, some d⟩) :=
    bufCopy_stPage ws _ (by rw [hWlen]; omega)
  show WriteState.mk _ _ _ _ = WriteState.mk _ _ _ _
  simp only [WriteState.mk.injEq]
  refine ⟨?_, rfl, ?_, rfl⟩
  · show (stPage ws :: List.replicate k emptyPageDefault).set (Int.toNat 0)
      (bufCopy _ ((stPage ws :: List.replicate k emptyPageDefault).getD (Int.toNat 0) [])
        (20 + ws.length)) = _
    rw [show Int.toNat 0 = 0 from rfl]
    rw [show (stPage ws :: List.replicate k emptyPageDefault).getD 0 [] = stPage ws from rfl]
    rw [hcopy]
    rfl
  · show 20 + ws.length + align4 (writeObject
      (⟨.DataSmall, key, none, some d⟩ : NVMObject)).length = 20 + (ws ++ _).length
    rw [hWlen, align4_idem, List.length_append, hWlen]
    omega

/-- Placing a list of fitting well-formed small objects appends their wire
forms contiguously on the first page. -/
theorem place_single_page : ∀ (os : List NVMObject) (k : Nat) (ws : Buffer)
    (w : List (Int × Nat × Buffer)),
    (∀ o ∈ os, smallShape o) →
    ws.length + ((os.map smallCost).sum) ≤ 2028 →
    ∃ w', List.foldlM (placeObject 2048) (mkSt k ws w) os =
      .ok (mkSt k (ws ++ (os.map writeObject).flatten) w') := by
  intro os
  induction os with
  | nil =>
      intro k ws w _ _
      refine ⟨w, ?_⟩
      simp only [List.foldlM_nil, List.map_nil, List.flatten_nil, List.append_nil]
      rfl
  | cons o os' ih =>
      intro k ws w hall hfit
      obtain ⟨key, d, rfl, hk, hd⟩ := hall o (by simp)
      have hsum : (((⟨.DataSmall, key, none, some d⟩ :: os' : List NVMObject).map
          smallCost).sum) = align4 (4 + d.length) + ((os'.map smallCost).sum) := by
        simp only [List.map_cons, List.sum_cons]
        rfl
      rw [hsum] at hfit
      have hle4 := align4_le (4 + d.length)
      have hfit1 : ¬ remainingSpace 2048 (mkSt k ws w) <
          ((NVM3_OBJ_HEADER_SIZE_SMALL +
            (objData ⟨.DataSmall, key, none, some d⟩).length : Nat) : Int) := by
        unfold remainingSpace mkSt
        simp only [show objData (⟨.DataSmall, key, none, some d⟩ : NVMObject) = d from rfl,
          show NVM3_OBJ_HEADER_SIZE_SMALL = 4 from rfl]
        push_cast
        omega
      rw [List.foldlM_cons]
      rw [placeObject_small_fit _ _ rfl hfit1]
      simp only [ok_bind]
      rw [writeFragment_mkSt k ws w key d (by omega)]
      have hWlen : (writeObject (⟨.DataSmall, key, none, some d⟩ : NVMObject)).length =
          align4 (4 + d.length) := writeObject_dataSmall_length rfl
      obtain ⟨w', hw'⟩ := ih k (ws ++ writeObject ⟨.DataSmall, key, none, some d⟩)
        (w ++ [(0, 20 + ws.length, writeObject ⟨.DataSmall, key, none, some d⟩)])
        (fun q hq => hall q (by simp [hq]))
        (by rw [List.length_append, hWlen]; omega)
      refine ⟨w', ?_⟩
      rw [hw']
      simp only [List.map_cons, List.flatten_cons, List.append_assoc]

/-- `writeObjects` over a region whose well-formed small objects all fit
the first page: the final state is the wire bytes laid out contiguously on
page 0 after the header, the other pages untouched. -/
theorem writeObjects_single_page (A : List (Nat × NVMObject)) (n : Nat) (hn : 0 < n)
    (hall : ∀ kv ∈ A, smallShape kv.2)
    (hfit : ((A.map (fun kv => smallCost kv.2)).sum) ≤ 2028) :
    ∃ w', writeObjects 2048 (List.replicate n emptyPageDefault) A =
      .ok (mkSt (n - 1) (((A.map Prod.snd).map writeObject).flatten) w') := by
  have hrep : List.replicate n emptyPageDefault =
      stPage [] :: List.replicate (n - 1) emptyPageDefault := by
    cases n with
    | zero => omega
    | succ m =>
        rw [Nat.succ_sub_one, List.replicate_succ,
          show emptyPageDefault = stPage [] from by rw [emptyPageDefault_eq]; rfl]
  have hnext : nextPage ⟨List.replicate n emptyPageDefault, -1, 0, []⟩ =
      .ok (mkSt (n - 1) [] []) := by
    unfold nextPage
    rw [if_neg (by rw [List.length_replicate]; push_cast; omega)]
    unfold mkSt
    rw [← hrep]
    rfl
  unfold writeObjects
  rw [hnext]
  simp only [ok_bind]
  obtain ⟨w', hw'⟩ := place_single_page (A.map Prod.snd) (n - 1) [] []
    (by
      intro o ho
      obtain ⟨kv, hkv, rfl⟩ := List.mem_map.mp ho
      exact hall kv hkv)
    (by
      simp only [List.length_nil, List.map_map]
      rw [show ((smallCost ∘ Prod.snd) : Nat × NVMObject → Nat) =
        (fun kv => smallCost kv.2) from rfl]
      omega)
  refine ⟨w', ?_⟩
  rw [hw']
  rfl

theorem emptyPageDefault_stPage : emptyPageDefault = stPage [] := by
  rw [emptyPageDefault_eq]; rfl

/-- The page decoded from a default-header page at offset `off` whose body
holds the objects `objs`: version 1, erase count 0, status OK, page size
2048, write size 16, memory-mapped, device family 2047. -/
def pageAt (off : Nat) (objs : List NVMObject) : NVMPage :=
  ⟨{ offset := off, version := 1, eraseCount := 0, status := 0xffffffff,
     encrypted := false, pageSize := 2048, writeSize := 1,
     memoryMapped := true, deviceFamily := 2047 }, objs⟩

/-- Reading a page whose bytes are a default header, wire bytes and erased
fill (as placement produces) decodes the objects from the body. -/
theorem readPage_stPage (img : Buffer) (off : Nat) (ws tail : Buffer)
    (objs : List NVMObject)
    (hdrop : img.drop off = stPage ws ++ tail)
    (hoff : off ≤ img.length)
    (hws : ws.length ≤ 2028)
    (hobjs : readObjects (ws ++ List.replicate (2028 - ws.length) 0xff) = .ok objs) :
    readPage img off = .ok (pageAt off objs, 2048) := by
  have hsl := stPage_length hws
  have hlen : img.length = off + (2048 + tail.length) := by
    have h := congrArg List.length hdrop
    rw [List.length_drop, List.length_append, hsl] at h
    omega
  have hsplen : (stPage ws ++ tail).length = 2048 + tail.length := by
    rw [List.length_append, hsl]
  have hget : ∀ i, i < 20 →
      (stPage ws ++ tail).getD i 0 = defaultPageHeaderBytes.getD i 0 := by
    intro i hi
    rw [List.getD_append _ _ _ _ (by rw [hsl]; omega)]
    show (defaultPageHeaderBytes ++ _).getD i 0 = _
    exact List.getD_append _ _ _ _
      (by rw [show defaultPageHeaderBytes.length = 20 from rfl]; omega)
  have r0 : readUInt16LE img off = .ok 0x01 := by
    have h := readUInt16LE_shift img off 0
    rw [Nat.add_zero, hdrop] at h
    rw [h, readUInt16LE_eq (by rw [hsplen]; omega), hget 0 (by omega), hget 1 (by omega)]
    rfl
  have r1 : readUInt16LE img (off + 2) = .ok NVM3_PAGE_MAGIC := by
    rw [readUInt16LE_shift img off 2, hdrop,
      readUInt16LE_eq (by rw [hsplen]; omega), hget 2 (by omega), hget 3 (by omega)]
    rfl
  have r3 : readUInt32LE img (off + 4) = .ok 0xd8000000 := by
    rw [readUInt32LE_shift img off 4, hdrop,
      readUInt32LE_eq (by rw [hsplen]; omega), hget 4 (by omega), hget 5 (by omega),
      hget 6 (by omega), hget 7 (by omega)]
    rfl
  have r4 : readUInt32LE img (off + 8) = .ok 0x07ffffff := by
    rw [readUInt32LE_shift img off 8, hdrop,
      readUInt32LE_eq (by rw [hsplen]; omega), hget 8 (by omega), hget 9 (by omega),
      hget 10 (by omega), hget 11 (by omega)]
    rfl
  have r5 : readUInt32LE img (off + 12) = .ok 0xffffffff := by
    rw [readUInt32LE_shift img off 12, hdrop,
      readUInt32LE_eq (by rw [hsplen]; omega), hget 12 (by omega), hget 13 (by omega),
      hget 14 (by omega), hget 15 (by omega)]
    rfl
  have r6 : readUInt16LE img (off + 16) = .ok 0x5fff := by
    rw [readUInt16LE_shift img off 16, hdrop,
      readUInt16LE_eq (by rw [hsplen]; omega), hget 16 (by omega), hget 17 (by omega)]
    rfl
  have r7 : readUInt16LE img (off + 18) = .ok 0xffff := by
    rw [readUInt16LE_shift img off 18, hdrop,
      readUInt16LE_eq (by rw [hsplen]; omega), hget 18 (by omega), hget 19 (by omega)]
    rfl
  have hnotshort : ¬ img.length <
      off + min (pageSizeFromBits (((0x5fff : Nat) >>> 13) &&& 0b111)) FLASH_MAX_PAGE_SIZE := by
    rw [show min (pageSizeFromBits (((0x5fff : Nat) >>> 13) &&& 0b111))
      FLASH_MAX_PAGE_SIZE = 2048 from by decide]
    omega
  have hX : (ws ++ List.replicate (2028 - ws.length) (0xff : Nat)).length = 2028 := by
    rw [List.length_append, List.length_replicate]
    omega
  have hobj : readObjects ((img.drop (off + 20)).take
      (min (pageSizeFromBits (((0x5fff : Nat) >>> 13) &&& 0b111))
        FLASH_MAX_PAGE_SIZE - 20)) = .ok objs := by
    rw [show min (pageSizeFromBits (((0x5fff : Nat) >>> 13) &&& 0b111))
      FLASH_MAX_PAGE_SIZE - 20 = 2028 from by decide]
    have hd20 : img.drop (off + 20) =
        (ws ++ List.replicate (2028 - ws.length) 0xff) ++ tail := by
      rw [← List.drop_drop, hdrop]
      show (defaultPageHeaderBytes ++ (ws ++ _) ++ tail).drop 20 = _
      rw [List.append_assoc, show (20 : Nat) = defaultPageHeaderBytes.length from rfl]
      exact List.drop_left _ _
    rw [hd20, List.take_left' hX]
    exact hobjs
  exact readPage_ok_intro img off 0xd8000000 0x07ffffff 0xffffffff 0x5fff 0xffff objs
    r0 r1 r3 (by decide) r4 (by decide) (by decide) r5 r6 hnotshort r7 hobj

/-- The exact byte length of contiguously laid-out small objects. -/
theorem flatten_small_length : ∀ (os : List NVMObject), (∀ o ∈ os, smallShape o) →
    ((os.map writeObject).flatten).length = (os.map smallCost).sum := by
  intro os
  induction os with
  | nil => intro _; simp
  | cons o os' ih =>
      intro hall
      obtain ⟨k, d, rfl, hk, hd⟩ := hall o (by simp)
      simp only [List.map_cons, List.flatten_cons, List.length_append, List.sum_cons]
      rw [ih (fun q hq => hall q (by simp [hq])), writeObject_dataSmall_length rfl]
      rfl

/-- The pages the walk decodes from consecutive default-header pages whose
bodies hold the given wire bytes and objects. -/
def pagesFromItems : Nat → List (Buffer × List NVMObject) → List NVMPage
  | _, [] => []
  | off, it :: rest => pageAt off it.2 :: pagesFromItems (off + 2048) rest

/-- The page walk over an image that is a concatenation of default-header
pages decodes them in order. -/
theorem parsePagesGo_items : ∀ (items : List (Buffer × List NVMObject))
    (img : Buffer) (off fuel : Nat),
    (∀ it ∈ items, it.1.length ≤ 2028 ∧
      readObjects (it.1 ++ List.replicate (2028 - it.1.length) 0xff) = .ok it.2) →
    img.drop off = (items.map (fun it => stPage it.1)).flatten →
    off ≤ img.length →
    items.length ≤ fuel →
    parsePagesGo img fuel off = .ok (pagesFromItems off items) := by
  intro items
  induction items with
  | nil =>
      intro img off fuel _ hdrop hoff _
      simp only [List.map_nil, List.flatten_nil] at hdrop
      refine parsePagesGo_done ?_ fuel
      have h := congrArg List.length hdrop
      rw [List.length_drop] at h
      simp only [List.length_nil] at h
      omega
  | cons it rest ih =>
      intro img off fuel hall hdrop hoff hfuel
      obtain ⟨hws, hobjs⟩ := hall it (by simp)
      simp only [List.map_cons, List.flatten_cons] at hdrop
      have hsl := stPage_length hws
      have hlen : img.length =
          off + (2048 + ((rest.map (fun it => stPage it.1)).flatten).length) := by
        have h := congrArg List.length hdrop
        rw [List.length_drop, List.length_append, hsl] at h
        omega
      have hread := readPage_stPage img off it.1
        ((rest.map (fun it => stPage it.1)).flatten) it.2 hdrop hoff hws hobjs
      cases fuel with
      | zero => simp at hfuel
      | succ f =>
          rw [parsePagesGo_step (by omega) hread f]
          have hdrop' : img.drop (off + 2048) =
              (rest.map (fun it => stPage it.1)).flatten := by
            rw [← List.drop_drop, hdrop, ← hsl]
            exact List.drop_left _ _
          rw [ih img (off + 2048) f (fun q hq => hall q (by simp [hq])) hdrop'
            (by omega) (by simp only [List.length_cons] at hfuel; omega)]
          rfl

/-- Compaction over a log of distinct-key unfragmented small data objects
appends each entry to the live map in order. -/
theorem compress_go : ∀ (A acc ps : List (Nat × NVMObject)),
    (∀ kv ∈ A, smallEntry kv) →
    (A.map Prod.fst).Nodup →
    (∀ kv ∈ A, acc.any (fun q => q.1 = kv.1) = false) →
    ((A.map Prod.snd).foldl compressStep ⟨acc, ps⟩).live = acc ++ A := by
  intro A
  induction A with
  | nil =>
      intro acc ps _ _ _
      simp only [List.map_nil, List.foldl_nil, List.append_nil]
  | cons kv rest ih =>
      intro acc ps hall hnodup hfresh
      obtain ⟨d, hobj, hd, hk⟩ := hall kv (by simp)
      have hfreshkv := hfresh kv (by simp)
      simp only [List.map_cons, List.foldl_cons]
      have hstep : compressStep ⟨acc, ps⟩ kv.2 = ⟨acc ++ [(kv.1, kv.2)], ps⟩ := by
        rw [hobj]
        show CompressState.mk
          (mapSet acc kv.1 (⟨.DataSmall, kv.1, none, some d⟩ : NVMObject)) ps = _
        unfold mapSet
        rw [if_neg (by
          intro hcontra
          rw [hfreshkv] at hcontra
          exact Bool.false_ne_true hcontra)]
      rw [hstep]
      have hfresh' : ∀ q ∈ rest,
          (acc ++ [(kv.1, kv.2)]).any (fun p => p.1 = q.1) = false := by
        intro q hq
        rw [List.any_append, hfresh q (by simp [hq])]
        simp only [Bool.false_or, List.any_cons, List.any_nil, Bool.or_false]
        simp only [decide_eq_false_iff_not]
        intro heq
        simp only [List.map_cons, List.nodup_cons] at hnodup
        exact hnodup.1 (by rw [heq]; exact List.mem_map_of_mem Prod.fst hq)
      rw [ih (acc ++ [(kv.1, kv.2)]) ps (fun q hq => hall q (by simp [hq]))
        (by simp only [List.map_cons] at hnodup; exact hnodup.of_cons) hfresh']
      rw [List.append_assoc]
      rfl

/-- Compacting the values of a map of well-formed distinct-key small
entries recovers the map itself. -/
theorem compress_smalls (A : List (Nat × NVMObject))
    (hA : ∀ kv ∈ A, smallEntry kv) (hk : (A.map Prod.fst).Nodup) :
    compressObjects (A.map Prod.snd) = A :=
  (compress_go A [] [] hA hk (fun kv _ => rfl)).trans (List.nil_append A)

theorem stPage_flatten_length : ∀ (items : List (Buffer × List NVMObject)),
    (∀ it ∈ items, it.1.length ≤ 2028) →
    ((items.map (fun it => stPage it.1)).flatten).length = 2048 * items.length := by
  intro items
  induction items with
  | nil => intro _; simp
  | cons it rest ih =>
      intro hall
      simp only [List.map_cons, List.flatten_cons, List.length_append, List.length_cons]
      rw [stPage_length (hall it (by simp)), ih (fun q hq => hall q (by simp [hq]))]
      ring

/-- The 24 pages of a default-options image whose regions each hold all
their wire bytes on the first page: application body, 5 empty application
pages, protocol body, 17 empty protocol pages. -/
def c5items (bA : Buffer) (oA : List NVMObject) (bP : Buffer) (oP : List NVMObject) :
    List (Buffer × List NVMObject) :=
  (bA, oA) :: ([], []) :: ([], []) :: ([], []) :: ([], []) :: ([], []) ::
  (bP, oP) :: ([], []) :: ([], []) :: ([], []) :: ([], []) :: ([], []) ::
  ([], []) :: ([], []) :: ([], []) :: ([], []) :: ([], []) :: ([], []) ::
  ([], []) :: ([], []) :: ([], []) :: ([], []) :: ([], []) :: ([], []) :: []

/-- The decoded pages of that image, in on-disk order. -/
def c5pages (oA oP : List NVMObject) : List NVMPage :=
  [pageAt 0 oA, pageAt 2048 [], pageAt 4096 [], pageAt 6144 [], pageAt 8192 [],
   pageAt 10240 [],
   pageAt 12288 oP, pageAt 14336 [], pageAt 16384 [], pageAt 18432 [],
   pageAt 20480 [], pageAt 22528 [], pageAt 24576 [], pageAt 26624 [],
   pageAt 28672 [], pageAt 30720 [], pageAt 32768 [], pageAt 34816 [],
   pageAt 36864 [], pageAt 38912 [], pageAt 40960 [], pageAt 43008 [],
   pageAt 45056 [], pageAt 47104 []]

/-- The application partition of those pages (offsets below 0x3000). -/
def c5app (oA : List NVMObject) : List NVMPage :=
  [pageAt 0 oA, pageAt 2048 [], pageAt 4096 [], pageAt 6144 [], pageAt 8192 [],
   pageAt 10240 []]

/-- The protocol partition of those pages (offsets at or above 0x3000). -/
def c5proto (oP : List NVMObject) : List NVMPage :=
  [pageAt 12288 oP, pageAt 14336 [], pageAt 16384 [], pageAt 18432 [],
   pageAt 20480 [], pageAt 22528 [], pageAt 24576 [], pageAt 26624 [],
   pageAt 28672 [], pageAt 30720 [], pageAt 32768 [], pageAt 34816 [],
   pageAt 36864 [], pageAt 38912 [], pageAt 40960 [], pageAt 43008 [],
   pageAt 45056 [], pageAt 47104 []]

theorem pagesFromItems_c5 (bA : Buffer) (oA : List NVMObject)
    (bP : Buffer) (oP : List NVMObject) :
    pagesFromItems 0 (c5items bA oA bP oP) = c5pages oA oP := rfl

set_option maxHeartbeats 1000000 in
theorem c5_filter_app (oA oP : List NVMObject) :
    (c5pages oA oP).filter (fun p => p.header.offset < ZWAVE_APPLICATION_NVM_SIZE) =
      c5app oA := rfl

set_option maxHeartbeats 1000000 in
theorem c5_filter_proto (oA oP : List NVMObject) :
    (c5pages oA oP).filter (fun p => ZWAVE_APPLICATION_NVM_SIZE ≤ p.header.offset) =
      c5proto oP := rfl

theorem comparePages_pageAt (o1 o2 : Nat) (x y : List NVMObject) (h : o1 ≤ o2) :
    comparePages (pageAt o1 x) (pageAt o2 y) ≤ 0 := by
  unfold comparePages
  rw [if_pos (show (pageAt o1 x).header.eraseCount =
    (pageAt o2 y).header.eraseCount from rfl)]
  show (o1 : Int) - (o2 : Int) ≤ 0
  omega

/-- Inserting a page that compares `≥` every element appends it. -/
theorem insertPageSorted_last (p : NVMPage) : ∀ (l : List NVMPage),
    (∀ q ∈ l, comparePages q p ≤ 0) →
    insertPageSorted p l = l ++ [p] := by
  intro l
  induction l with
  | nil => intro _; rfl
  | cons q qs ih =>
      intro h
      simp only [insertPageSorted]
      rw [if_pos (h q (by simp))]
      rw [ih (fun r hr => h r (by simp [hr]))]
      rfl

theorem sortPages_go : ∀ (l acc : List NVMPage),
    (∀ q ∈ acc, ∀ p ∈ l, comparePages q p ≤ 0) →
    l.Pairwise (fun a b => comparePages a b ≤ 0) →
    l.foldl (fun acc p => insertPageSorted p acc) acc = acc ++ l := by
  intro l
  induction l with
  | nil => intro acc _ _; simp
  | cons p t ih =>
      intro acc hacc hpair
      simp only [List.foldl_cons]
      rw [insertPageSorted_last p acc (fun q hq => hacc q hq p (by simp))]
      rw [List.pairwise_cons] at hpair
      rw [ih (acc ++ [p]) ?_ hpair.2]
      · rw [List.append_assoc]
        rfl
      · intro q hq r hr
        rcases List.mem_append.mp hq with h1 | h1
        · exact hacc q h1 r (by simp [hr])
        · rw [List.mem_singleton] at h1
          subst h1
          exact hpair.1 r hr

/-- A JS stable comparator sort leaves an already-sorted list unchanged. -/
theorem sortPages_sorted (l : List NVMPage)
    (h : l.Pairwise (fun a b => comparePages a b ≤ 0)) : sortPages l = l := by
  unfold sortPages
  rw [sortPages_go l [] (fun q hq => absurd hq (List.not_mem_nil q)) h]
  exact List.nil_append l

theorem c5app_pairwise (oA : List NVMObject) :
    (c5app oA).Pairwise (fun a b => comparePages a b ≤ 0) := by
  show (([(0, oA), (2048, []), (4096, []), (6144, []), (8192, []),
    (10240, [])] : List (Nat × List NVMObject)).map
      (fun x => pageAt x.1 x.2)).Pairwise (fun a b => comparePages a b ≤ 0)
  rw [List.pairwise_map]
  have h0 : (([(0, oA), (2048, []), (4096, []), (6144, []), (8192, []),
      (10240, [])] : List (Nat × List NVMObject)).map Prod.fst).Pairwise
        (fun a b => a ≤ b) :=
    show (([0, 2048, 4096, 6144, 8192, 10240] : List Nat)).Pairwise
      (fun a b => a ≤ b) by decide
  have h1 := List.pairwise_map.mp h0
  exact h1.imp (fun hab => comparePages_pageAt _ _ _ _ hab)

theorem c5proto_pairwise (oP : List NVMObject) :
    (c5proto oP).Pairwise (fun a b => comparePages a b ≤ 0) := by
  show (([(12288, oP), (14336, []), (16384, []), (18432, []), (20480, []),
    (22528, []), (24576, []), (26624, []), (28672, []), (30720, []), (32768, []),
    (34816, []), (36864, []), (38912, []), (40960, []), (43008, []), (45056, []),
    (47104, [])] : List (Nat × List NVMObject)).map
      (fun x => pageAt x.1 x.2)).Pairwise (fun a b => comparePages a b ≤ 0)
  rw [List.pairwise_map]
  have h0 : (([(12288, oP), (14336, []), (16384, []), (18432, []), (20480, []),
      (22528, []), (24576, []), (26624, []), (28672, []), (30720, []), (32768, []),
      (34816, []), (36864, []), (38912, []), (40960, []), (43008, []), (45056, []),
      (47104, [])] : List (Nat × List NVMObject)).map Prod.fst).Pairwise
        (fun a b => a ≤ b) :=
    show (([12288, 14336, 16384, 18432, 20480, 22528, 24576, 26624, 28672, 30720,
      32768, 34816, 36864, 38912, 40960, 43008, 45056, 47104] : List Nat)).Pairwise
      (fun a b => a ≤ b) by decide
  have h1 := List.pairwise_map.mp h0
  exact h1.imp (fun hab => comparePages_pageAt _ _ _ _ hab)

theorem c5_sort_app (oA : List NVMObject) : sortPages (c5app oA) = c5app oA :=
  sortPages_sorted _ (c5app_pairwise oA)

theorem c5_sort_proto (oP : List NVMObject) : sortPages (c5proto oP) = c5proto oP :=
  sortPages_sorted _ (c5proto_pairwise oP)

set_option maxHeartbeats 2000000 in
/-- The round trip for maps of well-formed distinct-key small data entries
whose wire bytes fit a single page per region: encoding succeeds and
parsing the image returns both maps exactly. -/
theorem c5_roundtrip (A P : List (Nat × NVMObject))
    (hA : ∀ kv ∈ A, smallEntry kv) (hP : ∀ kv ∈ P, smallEntry kv)
    (hAk : (A.map Prod.fst).Nodup) (hPk : (P.map Prod.fst).Nodup)
    (hAfit : 20 + ((A.map (fun kv => smallCost kv.2)).sum) ≤ 2048)
    (hPfit : 20 + ((P.map (fun kv => smallCost kv.2)).sum) ≤ 2048) :
    ∃ buf r, encodeNVM A P none = .ok buf ∧ parseNVM buf = .ok r ∧
      r.applicationObjects = A ∧ r.protocolObjects = P := by
  have hAshape : ∀ o ∈ A.map Prod.snd, smallShape o := by
    intro o ho
    obtain ⟨kv, hkv, rfl⟩ := List.mem_map.mp ho
    obtain ⟨d, hobj, hd, hk⟩ := hA kv hkv
    exact ⟨kv.1, d, hobj, hk, hd⟩
  have hPshape : ∀ o ∈ P.map Prod.snd, smallShape o := by
    intro o ho
    obtain ⟨kv, hkv, rfl⟩ := List.mem_map.mp ho
    obtain ⟨d, hobj, hd, hk⟩ := hP kv hkv
    exact ⟨kv.1, d, hobj, hk, hd⟩
  have hAshape' : ∀ kv ∈ A, smallShape kv.2 :=
    fun kv hkv => hAshape kv.2 (List.mem_map_of_mem Prod.snd hkv)
  have hPshape' : ∀ kv ∈ P, smallShape kv.2 :=
    fun kv hkv => hPshape kv.2 (List.mem_map_of_mem Prod.snd hkv)
  have hAsum : (((A.map Prod.snd).map smallCost).sum) =
      ((A.map (fun kv => smallCost kv.2)).sum) := by
    rw [List.map_map]
    rfl
  have hPsum : (((P.map Prod.snd).map smallCost).sum) =
      ((P.map (fun kv => smallCost kv.2)).sum) := by
    rw [List.map_map]
    rfl
  obtain ⟨wA, hWA⟩ := writeObjects_single_page A 6 (by omega) hAshape' (by omega)
  obtain ⟨wP, hWP⟩ := writeObjects_single_page P 18 (by omega) hPshape' (by omega)
  have hbAlen : (((A.map Prod.snd).map writeObject).flatten).length ≤ 2028 := by
    rw [flatten_small_length _ hAshape, hAsum]; omega
  have hbPlen : (((P.map Prod.snd).map writeObject).flatten).length ≤ 2028 := by
    rw [flatten_small_length _ hPshape, hPsum]; omega
  set oA := A.map Prod.snd with hoA
  set oP := P.map Prod.snd with hoP
  set bA := (oA.map writeObject).flatten with hbA
  set bP := (oP.map writeObject).flatten with hbP
  set img := ((c5items bA oA bP oP).map (fun it => stPage it.1)).flatten with himg
  have hitems : ∀ it ∈ c5items bA oA bP oP, it.1.length ≤ 2028 ∧
      readObjects (it.1 ++ List.replicate (2028 - it.1.length) 0xff) = .ok it.2 := by
    have hrA : readObjects (bA ++ List.replicate (2028 - bA.length) 0xff) = .ok oA :=
      readObjects_flatten_small oA hAshape _
    have hrP : readObjects (bP ++ List.replicate (2028 - bP.length) 0xff) = .ok oP :=
      readObjects_flatten_small oP hPshape _
    have hrE : readObjects (([] : Buffer) ++
        List.replicate (2028 - ([] : Buffer).length) 0xff) = .ok ([] : List NVMObject) :=
      readObjects_replicate_ff 2028
    intro it hit
    simp only [c5items, List.mem_cons] at hit
    rcases hit with rfl | rfl | rfl | rfl | rfl | rfl | rfl | rfl | rfl | rfl | rfl | rfl |
      rfl | rfl | rfl | rfl | rfl | rfl | rfl | rfl | rfl | rfl | rfl | rfl | hend
    · exact ⟨hbAlen, hrA⟩
    · exact ⟨by simp, hrE⟩
    · exact ⟨by simp, hrE⟩
    · exact ⟨by simp, hrE⟩
    · exact ⟨by simp, hrE⟩
    · exact ⟨by simp, hrE⟩
    · exact ⟨hbPlen, hrP⟩
    · exact ⟨by simp, hrE⟩
    · exact ⟨by simp, hrE⟩
    · exact ⟨by simp, hrE⟩
    · exact ⟨by simp, hrE⟩
    · exact ⟨by simp, hrE⟩
    · exact ⟨by simp, hrE⟩
    · exact ⟨by simp, hrE⟩
    · exact ⟨by simp, hrE⟩
    · exact ⟨by simp, hrE⟩
    · exact ⟨by simp, hrE⟩
    · exact ⟨by simp, hrE⟩
    · exact ⟨by simp, hrE⟩
    · exact ⟨by simp, hrE⟩
    · exact ⟨by simp, hrE⟩
    · exact ⟨by simp, hrE⟩
    · exact ⟨by simp, hrE⟩
    · exact ⟨by simp, hrE⟩
    · exact absurd hend (List.not_mem_nil it)
  have hdrop0 : img.drop 0 = ((c5items bA oA bP oP).map (fun it => stPage it.1)).flatten := by
    rw [List.drop_zero]
  have hlen24 : img.length = 49152 := by
    rw [himg, stPage_flatten_length _ (fun it hit => (hitems it hit).1)]
    rfl
  have hwalk : parsePagesGo img (img.length + 1) 0 = .ok (c5pages oA oP) := by
    rw [parsePagesGo_items (c5items bA oA bP oP) img 0 (img.length + 1) hitems hdrop0
      (by omega)
      (by rw [show (c5items bA oA bP oP).length = 24 from rfl]; omega)]
    rw [pagesFromItems_c5]
  have henc : encodeNVM A P none = .ok img := by
    rw [encodeNVM_none_eq]
    rw [show FLASH_MAX_PAGE_SIZE = 2048 from rfl]
    rw [hWA, hWP]
    simp only [ok_bind]
    show Except.ok _ = _
    rw [himg]
    refine congrArg Except.ok ?_
    rw [show (6 - 1 : Nat) = 5 from rfl, show (18 - 1 : Nat) = 17 from rfl]
    show (stPage bA :: List.replicate 5 emptyPageDefault).flatten ++
      (stPage bP :: List.replicate 17 emptyPageDefault).flatten = _
    rw [emptyPageDefault_stPage]
    simp only [c5items, List.map_cons, List.map_nil, List.flatten_cons, List.flatten_nil,
      List.replicate, List.append_assoc, List.append_nil, List.nil_append]
  have hpipe : parseNVM img = .ok ⟨c5app oA, c5proto oP,
      compressObjects ((c5app oA).foldl (fun acc page => acc ++ page.objects) []),
      compressObjects ((c5proto oP).foldl (fun acc page => acc ++ page.objects) [])⟩ := by
    unfold parseNVM
    rw [hwalk]
    simp only [ok_bind]
    show Except.ok (ParseResult.mk _ _ _ _) = _
    rw [c5_filter_app, c5_filter_proto, c5_sort_app, c5_sort_proto]
  have hcompA : compressObjects
      ((c5app oA).foldl (fun acc page => acc ++ page.objects) []) = A := by
    have h1 : (c5app oA).foldl (fun acc page => acc ++ page.objects) [] = oA := by
      simp [c5app, pageAt]
    rw [h1, hoA]
    exact compress_smalls A hA hAk
  have hcompP : compressObjects
      ((c5proto oP).foldl (fun acc page => acc ++ page.objects) []) = P := by
    have h1 : (c5proto oP).foldl (fun acc page => acc ++ page.objects) [] = oP := by
      simp [c5proto, pageAt]
    rw [h1, hoP]
    exact compress_smalls P hP hPk
  rw [hcompA, hcompP] at hpipe
  exact ⟨img, _, henc, hpipe, rfl, rfl⟩

/-- `placeObject` skips a `Deleted` entry, leaving the state unchanged. -/
theorem placeObject_deleted (pageSize : Nat) (st : WriteState) (k : Nat) :
    placeObject pageSize st ⟨.Deleted, k, none, none⟩ = .ok st := rfl

theorem writeObjects_skip_deleted (pages : List Buffer) (k : Nat) :
    writeObjects FLASH_MAX_PAGE_SIZE pages [(k, ⟨.Deleted, k, none, none⟩)] =
      writeObjects FLASH_MAX_PAGE_SIZE pages [] := by
  unfold writeObjects
  cases hn : nextPage ⟨pages, -1, 0, []⟩ with
  | error e => rfl
  | ok st =>
      simp only [ok_bind, List.map_cons, List.map_nil]
      simp only [List.foldlM_cons, List.foldlM_nil]
      rw [placeObject_deleted]
      simp only [ok_bind]

/-! ### The general round trip: mixed object types, multiple pages,
fragmented large objects -/

/-- The concatenated wire forms of a page's objects. -/
def wireBytes (os : List NVMObject) : Buffer := (os.map writeObject).flatten

/-- Remaining space on the current page during placement. -/
def remNat (cur : List NVMObject) : Nat := 2048 - (20 + (wireBytes cur).length)

/-- A live, well-formed map value: matching in-range key, not a fragment,
payload present and of the type's wire-representable size (a 7-bit length
for `DataSmall`, the 4-byte counter payload for `CounterSmall`, a 32-bit
extended length for the large types). `Deleted` and `Link` objects are not
live data. -/
def liveShape (o : NVMObject) : Prop :=
  o.key < 2 ^ 20 ∧ o.fragmentType = none ∧
    ((o.type = .DataSmall ∧ ∃ d, o.data = some d ∧ d.length ≤ 127) ∨
     (o.type = .CounterSmall ∧ ∃ d, o.data = some d ∧ d.length = 4) ∨
     ((o.type = .DataLarge ∨ o.type = .CounterLarge) ∧ ∃ d, o.data = some d ∧
        d.length < 2 ^ 32))

/-- Map entry: the stored key matches the map key and the value is live. -/
def liveEntry (kv : Nat × NVMObject) : Prop := kv.2.key = kv.1 ∧ liveShape kv.2

/-- Objects as they appear on a page: live values or large-object
fragments (whose fragment status is arbitrary). -/
def wireShape (o : NVMObject) : Prop :=
  o.key < 2 ^ 20 ∧
    ((o.type = .DataSmall ∧ o.fragmentType = none ∧ ∃ d, o.data = some d ∧ d.length ≤ 127) ∨
     (o.type = .CounterSmall ∧ o.fragmentType = none ∧ ∃ d, o.data = some d ∧ d.length = 4) ∨
     ((o.type = .DataLarge ∨ o.type = .CounterLarge) ∧ ∃ d, o.data = some d ∧
        d.length < 2 ^ 32))

/-- The abstract greedy layout mirroring `writeObjects` over default-sized
pages: `done` pages already finalized, the current page's objects, and the
number of remaining fresh pages. It refuses (`none`) exactly where the
writer would fail (`Not enough pages!`), where an entry is not live data
(`Deleted` is silently dropped, `Link` silently ignored at compaction), and
where the writer would corrupt the image: fragmenting a large object with
fewer than 8 remaining bytes makes `Buffer.copy` truncate the 8-byte
fragment header at the page end (bytes are lost, or with 0 bytes left the
whole first fragment is dropped), so the image no longer parses back. -/
def placeSim : List (List NVMObject) × List NVMObject × Nat → List NVMObject →
    Option (List (List NVMObject) × List NVMObject × Nat)
  | st, [] => some st
  | (done, cur, spare), o :: rest =>
    match o.type with
    | .Deleted => none
    | .Link => none
    | .DataSmall =>
        if remNat cur < 4 + (objData o).length then
          if spare = 0 then none
          else placeSim (done ++ [cur], [o], spare - 1) rest
        else placeSim (done, cur ++ [o], spare) rest
    | .CounterSmall =>
        if remNat cur < 20 then
          if spare = 0 then none
          else placeSim (done ++ [cur], [o], spare - 1) rest
        else placeSim (done, cur ++ [o], spare) rest
    | _ =>
        if 8 + (objData o).length ≤ remNat cur then
          placeSim (done, cur ++ [o], spare) rest
        else if remNat cur < 8 then none
        else
          let frags := fragmentLargeObject o ((remNat cur : Nat) : Int) 2028
          if frags.length ≤ spare then
            placeSim (done ++ ([cur ++ [frags.headD o]] ++ frags.tail.map (fun x => [x])),
              [], spare - frags.length) rest
          else none

/-- The concrete `WriteState` a layout denotes: finalized pages, the
partially filled current page, fresh pages, and some write log. -/
def stOf (done : List (List NVMObject)) (cur : List NVMObject) (spare : Nat)
    (w : List (Int × Nat × Buffer)) : WriteState :=
  ⟨done.map (fun os => stPage (wireBytes os)) ++
     stPage (wireBytes cur) :: List.replicate spare emptyPageDefault,
   (done.length : Int), 20 + (wireBytes cur).length, w⟩

/-- Layout invariant: every page's wire bytes fit the 2028-byte body and
every object on a page has a readable wire shape. -/
def PageInv (done : List (List NVMObject)) (cur : List NVMObject) : Prop :=
  (∀ pg ∈ done, (wireBytes pg).length ≤ 2028 ∧ ∀ o ∈ pg, wireShape o) ∧
  (wireBytes cur).length ≤ 2028 ∧ ∀ o ∈ cur, wireShape o

/-- The `first` fragment of a fragmented object. -/
def firstFrag (o : NVMObject) (d0 : Buffer) : NVMObject :=
  { o with fragmentType := some FragmentType.first, data := some d0 }

/-- `fs` is a valid wire rendering of `o`: the object itself, or a `first`
fragment followed by `next`*/`last` fragments whose payloads reassemble to
the object's payload. -/
def FragSeq (o : NVMObject) (fs : List NVMObject) : Prop :=
  fs = [o] ∨
  ∃ d0 ps, ps ≠ [] ∧ d0 ++ ps.flatten = objData o ∧
    fs = firstFrag o d0 :: fragTail o ps

theorem wireBytes_nil : wireBytes [] = [] := rfl

theorem wireBytes_append_one (os : List NVMObject) (o : NVMObject) :
    wireBytes (os ++ [o]) = wireBytes os ++ writeObject o := by
  unfold wireBytes
  rw [List.map_append, List.flatten_append]
  simp

theorem writeObject_counterSmall_length {o : NVMObject} (h : o.type = .CounterSmall) :
    (writeObject o).length = align4 (NVM3_OBJ_HEADER_SIZE_SMALL + (objData o).length) := by
  obtain ⟨t, k, fr, dt⟩ := o
  simp only at h
  subst h
  simp [writeObject, padTo4_length, u32Bytes, objData, NVM3_OBJ_HEADER_SIZE_SMALL]
  congr 1
  omega

theorem writeObject_large_length {o : NVMObject}
    (h : o.type = .DataLarge ∨ o.type = .CounterLarge) :
    (writeObject o).length = align4 (NVM3_OBJ_HEADER_SIZE_LARGE + (objData o).length) := by
  obtain ⟨t, k, fr, dt⟩ := o
  rcases h with h | h <;>
    (simp only at h
     subst h
     simp [writeObject, padTo4_length, u32Bytes, objData, NVM3_OBJ_HEADER_SIZE_LARGE]
     congr 1
     omega)

theorem writeObject_length_mod4 (o : NVMObject) : (writeObject o).length % 4 = 0 := by
  obtain ⟨t, k, fr, dt⟩ := o
  cases t <;> simp [writeObject, padTo4_length, align4_mod, u32Bytes]

theorem writeObject_length_ge4 (o : NVMObject) : 4 ≤ (writeObject o).length := by
  obtain ⟨t, k, fr, dt⟩ := o
  cases t <;>
    simp [writeObject, padTo4_length, u32Bytes] <;>
    (have h := align4_le (4 + (Option.getD dt []).length)
     unfold align4 NVM3_WORD_SIZE
     omega)

theorem wireBytes_mod4 : ∀ (os : List NVMObject), (wireBytes os).length % 4 = 0
  | [] => rfl
  | o :: rest => by
      show ((writeObject o ++ wireBytes rest).length) % 4 = 0
      rw [List.length_append]
      have h1 := writeObject_length_mod4 o
      have h2 := wireBytes_mod4 rest
      omega

theorem align4_eq_of_mod {n : Nat} (h : n % 4 = 0) : align4 n = n := by
  unfold align4 NVM3_WORD_SIZE
  omega

theorem align4_le_of_le {x y : Nat} (h : x ≤ y) (hy : y % 4 = 0) : align4 x ≤ y := by
  unfold align4 NVM3_WORD_SIZE
  omega

theorem liveShape_wireShape {o : NVMObject} (h : liveShape o) : wireShape o := by
  obtain ⟨hk, hfr, hcases⟩ := h
  refine ⟨hk, ?_⟩
  rcases hcases with ⟨ht, d, hd, hl⟩ | ⟨ht, d, hd, hl⟩ | ⟨ht, d, hd, hl⟩
  · exact Or.inl ⟨ht, hfr, d, hd, hl⟩
  · exact Or.inr (Or.inl ⟨ht, hfr, d, hd, hl⟩)
  · exact Or.inr (Or.inr ⟨ht, d, hd, hl⟩)

theorem fragCode_lt (fr : Option FragmentType) : fragCode fr < 2 ^ 2 := by
  cases fr with
  | none => decide
  | some ft => cases ft <;> decide

theorem fragFromCode_fragCode (fr : Option FragmentType) : fragFromCode (fragCode fr) = fr := by
  cases fr with
  | none => rfl
  | some ft => cases ft <;> rfl

theorem readObject_counter_core (w : Nat) (key : Nat) (d pad rest : Buffer)
    (hw32 : w < 2 ^ 32)
    (h29 : w >>> 29 = 3) (hkey : w &&& 0xFFFFF = key) (hfrag : (w >>> 27) &&& 3 = 0)
    (hd : d.length = 4) :
    readObject (u32Bytes w ++ (d ++ (pad ++ rest))) 0 =
      .ok (⟨.CounterSmall, key, none, some d⟩, 8) := by
  unfold readObject
  rw [readUInt32LE_u32Bytes w hw32]
  simp only [ok_bind]
  rw [h29, show objectTypeFromCode 3 = .ok ObjectType.CounterSmall from rfl]
  simp only [ok_bind]
  rw [hkey, hfrag]
  rw [if_pos (by
    simp only [List.length_append, show ∀ v, (u32Bytes v).length = 4 from fun v => rfl,
      show NVM3_OBJ_HEADER_SIZE_SMALL = 4 from rfl,
      show NVM_COUNTER_PAYLOAD_SIZE = 4 from rfl]
    omega)]
  have hdrop : (u32Bytes w ++ (d ++ (pad ++ rest))).drop (0 + 4) = d ++ (pad ++ rest) := by
    rw [show (0 + 4 : Nat) = (u32Bytes w).length from rfl]
    exact List.drop_left _ _
  rw [hdrop, show NVM_COUNTER_PAYLOAD_SIZE = 4 from rfl, List.take_left' hd]
  unfold objConsumed
  simp only [List.length_append, show ∀ v, (u32Bytes v).length = 4 from fun v => rfl,
    show NVM3_OBJ_HEADER_SIZE_SMALL = 4 from rfl, Nat.sub_zero]
  rw [show min (align4 (4 + 4)) (4 + (d.length + (pad.length + rest.length))) = 8 from by
    rw [show align4 (4 + 4) = 8 from rfl]
    omega]
  rfl

/-- The wire facts of one serialized small counter at the head of a buffer. -/
theorem writeObject_counter_wire (key : Nat) (d rest : Buffer)
    (hk : key < 2 ^ 20) (hd : d.length = 4) :
    ∃ w, readUInt32LE (writeObject ⟨.CounterSmall, key, none, some d⟩ ++ rest) 0 = .ok w ∧
      ¬ w = 0xFFFFFFFF ∧
      readObject (writeObject ⟨.CounterSmall, key, none, some d⟩ ++ rest) 0 =
        .ok (⟨.CounterSmall, key, none, some d⟩, 8) := by
  have hkm : key &&& 0xFFFFF = key := by
    rw [show (0xFFFFF : Nat) = 2 ^ 20 - 1 from by norm_num]
    exact and_mask_of_lt hk
  obtain ⟨h29, hkey, hlen, hfrag, hw32⟩ :=
    headerWord_decomp (key &&& 0xFFFFF) (0 &&& 0x7F) 0 3
      (by rw [hkm]; exact hk) (by norm_num) (by norm_num) (by norm_num)
  have hwdef : objHeaderWord ⟨.CounterSmall, key, none, some d⟩ 0 =
      (key &&& 0xFFFFF) ||| (0 &&& 0x7F) <<< 20 ||| 0 <<< 27 ||| 3 <<< 29 := rfl
  have hwr : writeObject (⟨.CounterSmall, key, none, some d⟩ : NVMObject) =
      (u32Bytes (objHeaderWord ⟨.CounterSmall, key, none, some d⟩ 0) ++ d) ++
        List.replicate (align4 (4 + d.length) - (4 + d.length)) 0xFF := by
    show padTo4 (u32Bytes (objHeaderWord ⟨.CounterSmall, key, none, some d⟩ 0) ++ d) = _
    unfold padTo4
    rw [List.length_append,
      show (u32Bytes (objHeaderWord ⟨.CounterSmall, key, none, some d⟩ 0)).length = 4
        from rfl]
  have hB : writeObject (⟨.CounterSmall, key, none, some d⟩ : NVMObject) ++ rest =
      u32Bytes (objHeaderWord ⟨.CounterSmall, key, none, some d⟩ 0) ++
        (d ++ (List.replicate (align4 (4 + d.length) - (4 + d.length)) 0xFF ++ rest)) := by
    rw [hwr, List.append_assoc, List.append_assoc]
  refine ⟨objHeaderWord ⟨.CounterSmall, key, none, some d⟩ 0, ?_, ?_, ?_⟩
  · rw [hB]
    exact readUInt32LE_u32Bytes _ (by rw [hwdef]; exact hw32) _
  · intro hcontra
    have h7 : objHeaderWord ⟨.CounterSmall, key, none, some d⟩ 0 >>> 29 = 3 := by
      rw [hwdef, h29]
    rw [hcontra] at h7
    simp at h7
  · rw [hB]
    exact readObject_counter_core _ key d _ rest
      (by rw [hwdef]; exact hw32) (by rw [hwdef, h29]) (by rw [hwdef, hkey, hkm])
      (by rw [hwdef, hfrag]) hd

theorem readObject_large_core (w : Nat) (key : Nat) (fr : Option FragmentType)
    (T : ObjectType) (d pad rest : Buffer)
    (hT : T = .DataLarge ∨ T = .CounterLarge)
    (hw32 : w < 2 ^ 32)
    (h29 : w >>> 29 = T.code) (hkey : w &&& 0xFFFFF = key)
    (hfrag : fragFromCode ((w >>> 27) &&& 3) = fr)
    (hd32 : d.length < 2 ^ 32) :
    readObject (u32Bytes w ++ (u32Bytes d.length ++ (d ++ (pad ++ rest)))) 0 =
      .ok (⟨T, key, fr, some d⟩,
        min (align4 (8 + d.length)) (8 + (d.length + (pad.length + rest.length)))) := by
  have hext : readUInt32LE (u32Bytes w ++ (u32Bytes d.length ++ (d ++ (pad ++ rest))))
      (0 + 4) = .ok d.length := by
    rw [show (0 + 4 : Nat) = (u32Bytes w).length + 0 from rfl, readUInt32LE_append_shift]
    exact readUInt32LE_u32Bytes _ hd32 _
  have hdrop : (u32Bytes w ++ (u32Bytes d.length ++ (d ++ (pad ++ rest)))).drop (0 + 8) =
      d ++ (pad ++ rest) := by
    rw [show (0 + 8 : Nat) = (u32Bytes w).length + 4 from rfl, drop_append_shift,
      show (4 : Nat) = (u32Bytes d.length).length from rfl]
    exact List.drop_left _ _
  have hlen : (u32Bytes w ++ (u32Bytes d.length ++ (d ++ (pad ++ rest)))).length =
      8 + (d.length + (pad.length + rest.length)) := by
    simp only [List.length_append, show ∀ v, (u32Bytes v).length = 4 from fun v => rfl]
    omega
  rcases hT with rfl | rfl
  · unfold readObject
    rw [readUInt32LE_u32Bytes w hw32]
    simp only [ok_bind]
    rw [h29, show objectTypeFromCode ObjectType.DataLarge.code = .ok ObjectType.DataLarge
      from rfl]
    simp only [ok_bind]
    rw [hkey, hfrag, hext]
    simp only [ok_bind]
    rw [if_pos (by rw [hlen, show NVM3_OBJ_HEADER_SIZE_LARGE = 8 from rfl]; omega)]
    rw [hdrop, List.take_left' rfl]
    unfold objConsumed
    rw [hlen, show NVM3_OBJ_HEADER_SIZE_LARGE = 8 from rfl, Nat.sub_zero]
    rfl
  · unfold readObject
    rw [readUInt32LE_u32Bytes w hw32]
    simp only [ok_bind]
    rw [h29, show objectTypeFromCode ObjectType.CounterLarge.code = .ok ObjectType.CounterLarge
      from rfl]
    simp only [ok_bind]
    rw [hkey, hfrag, hext]
    simp only [ok_bind]
    rw [if_pos (by rw [hlen, show NVM3_OBJ_HEADER_SIZE_LARGE = 8 from rfl]; omega)]
    rw [hdrop, List.take_left' rfl]
    unfold objConsumed
    rw [hlen, show NVM3_OBJ_HEADER_SIZE_LARGE = 8 from rfl, Nat.sub_zero]
    rfl

/-- The wire facts of one serialized large object (any fragment status) at
the head of a buffer. -/
theorem writeObject_large_wire (T : ObjectType) (key : Nat) (fr : Option FragmentType)
    (d rest : Buffer) (hT : T = .DataLarge ∨ T = .CounterLarge)
    (hk : key < 2 ^ 20) (hd32 : d.length < 2 ^ 32) :
    ∃ w, readUInt32LE (writeObject ⟨T, key, fr, some d⟩ ++ rest) 0 = .ok w ∧
      ¬ w = 0xFFFFFFFF ∧
      readObject (writeObject ⟨T, key, fr, some d⟩ ++ rest) 0 =
        .ok (⟨T, key, fr, some d⟩, align4 (8 + d.length)) := by
  have hkm : key &&& 0xFFFFF = key := by
    rw [show (0xFFFFF : Nat) = 2 ^ 20 - 1 from by norm_num]
    exact and_mask_of_lt hk
  have hcode : T.code < 2 ^ 3 := by rcases hT with rfl | rfl <;> decide
  obtain ⟨h29, hkey, hlen, hfrag, hw32⟩ :=
    headerWord_decomp (key &&& 0xFFFFF) (0 &&& 0x7F) (fragCode fr) T.code
      (by rw [hkm]; exact hk) (by norm_num) (fragCode_lt fr) hcode
  have hwdef : objHeaderWord ⟨T, key, fr, some d⟩ 0 =
      (key &&& 0xFFFFF) ||| (0 &&& 0x7F) <<< 20 ||| fragCode fr <<< 27 ||| T.code <<< 29 := rfl
  have hwr : writeObject (⟨T, key, fr, some d⟩ : NVMObject) =
      ((u32Bytes (objHeaderWord ⟨T, key, fr, some d⟩ 0) ++ u32Bytes d.length) ++ d) ++
        List.replicate (align4 (8 + d.length) - (8 + d.length)) 0xFF := by
    rcases hT with rfl | rfl
    · show padTo4 ((u32Bytes (objHeaderWord ⟨.DataLarge, key, fr, some d⟩ 0) ++
        u32Bytes d.length) ++ d) = _
      unfold padTo4
      rw [List.length_append, List.length_append,
        show (u32Bytes (objHeaderWord ⟨.DataLarge, key, fr, some d⟩ 0)).length = 4 from rfl,
        show (u32Bytes d.length).length = 4 from rfl,
        show (4 + 4 : Nat) = 8 from rfl]
    · show padTo4 ((u32Bytes (objHeaderWord ⟨.CounterLarge, key, fr, some d⟩ 0) ++
        u32Bytes d.length) ++ d) = _
      unfold padTo4
      rw [List.length_append, List.length_append,
        show (u32Bytes (objHeaderWord ⟨.CounterLarge, key, fr, some d⟩ 0)).length = 4 from rfl,
        show (u32Bytes d.length).length = 4 from rfl,
        show (4 + 4 : Nat) = 8 from rfl]
  have hB : writeObject (⟨T, key, fr, some d⟩ : NVMObject) ++ rest =
      u32Bytes (objHeaderWord ⟨T, key, fr, some d⟩ 0) ++
        (u32Bytes d.length ++ (d ++
          (List.replicate (align4 (8 + d.length) - (8 + d.length)) 0xFF ++ rest))) := by
    rw [hwr, List.append_assoc, List.append_assoc, List.append_assoc]
  refine ⟨objHeaderWord ⟨T, key, fr, some d⟩ 0, ?_, ?_, ?_⟩
  · rw [hB]
    exact readUInt32LE_u32Bytes _ (by rw [hwdef]; exact hw32) _
  · intro hcontra
    have h7 : objHeaderWord ⟨T, key, fr, some d⟩ 0 >>> 29 = T.code := by
      rw [hwdef, h29]
    rw [hcontra] at h7
    rcases hT with rfl | rfl <;> exact absurd h7 (by decide)
  · rw [hB]
    have hcore := readObject_large_core (objHeaderWord ⟨T, key, fr, some d⟩ 0) key fr T d
      (List.replicate (align4 (8 + d.length) - (8 + d.length)) 0xFF) rest hT
      (by rw [hwdef]; exact hw32)
      (by rw [hwdef, h29])
      (by rw [hwdef, hkey, hkm])
      (by rw [hwdef, hfrag]; exact fragFromCode_fragCode fr)
      hd32
    rw [hcore]
    have hmin : min (align4 (8 + d.length))
        (8 + (d.length + ((List.replicate (align4 (8 + d.length) - (8 + d.length))
          (0xFF : Nat)).length + rest.length))) = align4 (8 + d.length) := by
      rw [List.length_replicate]
      have hle := align4_le (8 + d.length)
      omega
    rw [hmin]

/-- The wire facts of any readable-shape object. -/
theorem readObject_wire (o : NVMObject) (ho : wireShape o) (rest : Buffer) :
    ∃ w, readUInt32LE (writeObject o ++ rest) 0 = .ok w ∧ ¬ w = 0xFFFFFFFF ∧
      readObject (writeObject o ++ rest) 0 = .ok (o, (writeObject o).length) := by
  obtain ⟨t, k, fr, dt⟩ := o
  obtain ⟨hk, hcase⟩ := ho
  rcases hcase with ⟨ht, hfr, d, hd, hl⟩ | ⟨ht, hfr, d, hd, hl⟩ | ⟨ht, d, hd, hl⟩
  · have ht' : t = .DataSmall := ht
    have hfr' : fr = none := hfr
    have hd' : dt = some d := hd
    subst ht' hfr' hd'
    obtain ⟨w, hw, hne, hro⟩ := writeObject_small_wire k d rest hk hl
    refine ⟨w, hw, hne, ?_⟩
    rw [hro, writeObject_dataSmall_length rfl]
    rfl
  · have ht' : t = .CounterSmall := ht
    have hfr' : fr = none := hfr
    have hd' : dt = some d := hd
    subst ht' hfr' hd'
    obtain ⟨w, hw, hne, hro⟩ := writeObject_counter_wire k d rest hk hl
    refine ⟨w, hw, hne, ?_⟩
    have hlen8 : (writeObject (⟨.CounterSmall, k, none, some d⟩ : NVMObject)).length = 8 := by
      rw [writeObject_counterSmall_length rfl]
      show align4 (4 + d.length) = 8
      rw [hl]
      rfl
    rw [hro, hlen8]
  · have hd' : dt = some d := hd
    subst hd'
    have ht' : t = .DataLarge ∨ t = .CounterLarge := ht
    obtain ⟨w, hw, hne, hro⟩ := writeObject_large_wire t k fr d rest ht' hk hl
    refine ⟨w, hw, hne, ?_⟩
    rw [hro, writeObject_large_length ht']
    rfl

theorem wireBytes_length_ge : ∀ (os : List NVMObject), os.length ≤ (wireBytes os).length
  | [] => Nat.le_refl 0
  | o :: rest => by
      show (o :: rest).length ≤ (writeObject o ++ wireBytes rest).length
      rw [List.length_append, List.length_cons]
      have h1 := writeObject_length_ge4 o
      have h2 := wireBytes_length_ge rest
      omega

theorem readObjectsGo_flatten_wire : ∀ (os : List NVMObject),
    (∀ o ∈ os, wireShape o) →
    ∀ (m fuel : Nat), os.length ≤ fuel →
    readObjectsGo (wireBytes os ++ List.replicate m 0xff) fuel 0 = .ok os := by
  intro os
  induction os with
  | nil =>
      intro _ m fuel _
      rw [show (wireBytes [] ++ List.replicate m (0xff : Nat)) = List.replicate m 0xff
        from by rw [wireBytes_nil]; rfl]
      exact readObjectsGo_replicate_ff m fuel
  | cons o os' ih =>
      intro hall m fuel hfuel
      cases fuel with
      | zero => simp at hfuel
      | succ f =>
          have hdata : wireBytes (o :: os') ++ List.replicate m (0xff : Nat) =
              writeObject o ++ (wireBytes os' ++ List.replicate m 0xff) := by
            show (writeObject o ++ wireBytes os') ++ _ = _
            rw [List.append_assoc]
          obtain ⟨w, hw, hne, hobj⟩ := readObject_wire o (hall o (by simp))
            (wireBytes os' ++ List.replicate m 0xff)
          rw [hdata]
          have hge4 := writeObject_length_ge4 o
          have h4 : ¬ (writeObject o ++
              (wireBytes os' ++ List.replicate m (0xff : Nat))).length < 0 + 4 := by
            rw [List.length_append]
            omega
          rw [readObjectsGo_step h4 hw hne hobj]
          rw [show (0 + (writeObject o).length : Nat) = (writeObject o).length + 0 from by
            omega]
          rw [readObjectsGo_shift]
          rw [ih (fun q hq => hall q (by simp [hq])) m f
            (by simp only [List.length_cons] at hfuel; omega)]
          rfl

/-- Reading back a page body: the concatenated wire forms of readable-shape
objects followed by erased fill decode to exactly those objects. -/
theorem readObjects_flatten_wire (os : List NVMObject)
    (h : ∀ o ∈ os, wireShape o) (m : Nat) :
    readObjects (wireBytes os ++ List.replicate m 0xff) = .ok os := by
  unfold readObjects
  apply readObjectsGo_flatten_wire os h m
  have hge := wireBytes_length_ge os
  rw [List.length_append]
  omega

theorem set_append_left {α : Type} (x : α) : ∀ (a b : List α),
    (a ++ b).set a.length x = a ++ b.set 0 x
  | [], b => rfl
  | h :: t, b => by
      show (h :: (t ++ b)).set (t.length + 1) x = h :: (t ++ b.set 0 x)
      simp only [List.set]
      rw [set_append_left x t b]

theorem getD_append_len {α : Type} (a b : List α) (d : α) :
    (a ++ b).getD a.length d = b.getD 0 d := by
  rw [List.getD_append_right _ _ _ _ (Nat.le_refl _), Nat.sub_self]

theorem stOf_pages_length (done : List (List NVMObject)) (cur : List NVMObject)
    (spare : Nat) (w : List (Int × Nat × Buffer)) :
    (stOf done cur spare w).pages.length = done.length + 1 + spare := by
  show (done.map _ ++ _ :: List.replicate spare _).length = _
  rw [List.length_append, List.length_map, List.length_cons, List.length_replicate]
  omega

theorem remaining_stOf (done : List (List NVMObject)) (cur : List NVMObject)
    (spare : Nat) (w : List (Int × Nat × Buffer))
    (h : (wireBytes cur).length ≤ 2028) :
    remainingSpace 2048 (stOf done cur spare w) = ((remNat cur : Nat) : Int) := by
  show (2048 : Int) - ((20 + (wireBytes cur).length : Nat) : Int) = _
  unfold remNat
  push_cast
  omega

theorem writeFragment_stOf (done : List (List NVMObject)) (cur : List NVMObject)
    (spare : Nat) (w : List (Int × Nat × Buffer)) (o : NVMObject)
    (hfit : (wireBytes cur).length + (writeObject o).length ≤ 2028) :
    writeFragment (stOf done cur spare w) o =
      stOf done (cur ++ [o]) spare
        (w ++ [((done.length : Int), 20 + (wireBytes cur).length, writeObject o)]) := by
  simp only [writeFragment, stOf]
  simp only [WriteState.mk.injEq]
  refine ⟨?_, trivial, ?_, trivial⟩
  · rw [show Int.toNat ((done.length : Nat) : Int) = done.length from rfl]
    rw [show done.length = (done.map (fun os => stPage (wireBytes os))).length from
      (List.length_map _ _).symm]
    rw [getD_append_len, set_append_left]
    rw [show (stPage (wireBytes cur) :: List.replicate spare emptyPageDefault).getD 0 [] =
      stPage (wireBytes cur) from rfl]
    rw [bufCopy_stPage _ _ hfit, ← wireBytes_append_one]
    rfl
  · rw [align4_eq_of_mod (writeObject_length_mod4 o), wireBytes_append_one,
      List.length_append]
    omega

theorem nextPage_stOf (done : List (List NVMObject)) (cur : List NVMObject)
    (spare : Nat) (w : List (Int × Nat × Buffer)) (h : 1 ≤ spare) :
    nextPage (stOf done cur spare w) = .ok (stOf (done ++ [cur]) [] (spare - 1) w) := by
  unfold nextPage
  rw [if_neg (by
    rw [stOf_pages_length]
    show ¬ ((done.length + 1 + spare : Nat) : Int) ≤ (stOf done cur spare w).pageIndex + 1
    show ¬ ((done.length + 1 + spare : Nat) : Int) ≤ ((done.length : Nat) : Int) + 1
    push_cast
    omega)]
  refine congrArg Except.ok ?_
  simp only [stOf]
  simp only [WriteState.mk.injEq]
  refine ⟨?_, ?_, ?_, trivial⟩
  · rw [List.map_append,
      show List.replicate spare emptyPageDefault =
        emptyPageDefault :: List.replicate (spare - 1) emptyPageDefault from by
          cases spare with
          | zero => omega
          | succ n => rw [List.replicate_succ, Nat.succ_sub_one],
      emptyPageDefault_stPage]
    simp only [List.map_cons, List.map_nil, List.append_assoc, List.cons_append,
      List.nil_append]
    rfl
  · rw [List.length_append, List.length_singleton]
    push_cast
    omega
  · rfl

theorem placeObject_noadvance (st : WriteState) (o : NVMObject)
    (hdel : ¬ o.type = .Deleted)
    (hlarge : ¬ (o.type = .DataLarge ∨ o.type = .CounterLarge))
    (hcond : ¬ ((o.type = .CounterSmall ∧ remainingSpace 2048 st <
        ((NVM3_OBJ_HEADER_SIZE_SMALL + NVM_COUNTER_SIZE : Nat) : Int)) ∨
      (o.type = .DataSmall ∧ remainingSpace 2048 st <
        ((NVM3_OBJ_HEADER_SIZE_SMALL + (objData o).length : Nat) : Int)))) :
    placeObject 2048 st o = .ok (writeFragment st o) := by
  unfold placeObject
  rw [if_neg hdel]
  rw [if_neg hcond]
  simp only [pureu_bind]
  rw [if_neg hlarge]
  simp only [List.length_cons, List.length_nil]
  rw [show decide (1 < 0 + 1) = false from rfl]
  simp only [writeFragmentsGo]
  rw [if_neg (by simp)]
  simp only [pureu_bind]

theorem placeObject_advance (st st1 : WriteState) (o : NVMObject)
    (hdel : ¬ o.type = .Deleted)
    (hlarge : ¬ (o.type = .DataLarge ∨ o.type = .CounterLarge))
    (hcond : (o.type = .CounterSmall ∧ remainingSpace 2048 st <
        ((NVM3_OBJ_HEADER_SIZE_SMALL + NVM_COUNTER_SIZE : Nat) : Int)) ∨
      (o.type = .DataSmall ∧ remainingSpace 2048 st <
        ((NVM3_OBJ_HEADER_SIZE_SMALL + (objData o).length : Nat) : Int)))
    (hnext : nextPage st = .ok st1) :
    placeObject 2048 st o = .ok (writeFragment st1 o) := by
  unfold placeObject
  rw [if_neg hdel]
  rw [if_pos hcond, hnext]
  simp only [ok_bind]
  rw [if_neg hlarge]
  simp only [List.length_cons, List.length_nil]
  rw [show decide (1 < 0 + 1) = false from rfl]
  simp only [writeFragmentsGo]
  rw [if_neg (by simp)]
  simp only [pureu_bind]

theorem placeObject_large_eq (st : WriteState) (o : NVMObject)
    (htype : o.type = .DataLarge ∨ o.type = .CounterLarge) :
    placeObject 2048 st o =
      writeFragmentsGo (decide (1 < (fragmentLargeObject o (remainingSpace 2048 st)
          (((2048 : Nat) : Int) - ((NVM3_PAGE_HEADER_SIZE : Nat) : Int))).length)) st
        (fragmentLargeObject o (remainingSpace 2048 st)
          (((2048 : Nat) : Int) - ((NVM3_PAGE_HEADER_SIZE : Nat) : Int))) := by
  have hdel : ¬ o.type = .Deleted := by
    rcases htype with h | h <;> simp [h]
  have hcond : ¬ ((o.type = .CounterSmall ∧ remainingSpace 2048 st <
      ((NVM3_OBJ_HEADER_SIZE_SMALL + NVM_COUNTER_SIZE : Nat) : Int)) ∨
    (o.type = .DataSmall ∧ remainingSpace 2048 st <
      ((NVM3_OBJ_HEADER_SIZE_SMALL + (objData o).length : Nat) : Int))) := by
    rcases htype with h | h <;> simp [h]
  unfold placeObject
  rw [if_neg hdel, if_neg hcond]
  simp only [pureu_bind]
  rw [if_pos htype]

theorem fragmentLargeObject_single (o : NVMObject) {maxFirst : Int}
    (h : ((NVM3_OBJ_HEADER_SIZE_LARGE + (objData o).length : Nat) : Int) ≤ maxFirst)
    (mf : Int) : fragmentLargeObject o maxFirst mf = [o] := by
  unfold fragmentLargeObject
  rw [if_pos h]

theorem fragmentLargeObject_frags (o : NVMObject) {maxFirst mf : Int}
    (h : ¬ ((NVM3_OBJ_HEADER_SIZE_LARGE + (objData o).length : Nat) : Int) ≤ maxFirst) :
    fragmentLargeObject o maxFirst mf =
      firstFrag o ((objData o).take (maxFirst - (NVM3_OBJ_HEADER_SIZE_LARGE : Int)).toNat) ::
        fragTail o (chunkList (mf - (NVM3_OBJ_HEADER_SIZE_LARGE : Int)).toNat
          ((objData o).drop (maxFirst - (NVM3_OBJ_HEADER_SIZE_LARGE : Int)).toNat)) := by
  unfold fragmentLargeObject
  rw [if_neg h]
  rfl

theorem chunkListGo_flatten {n : Nat} (hn : 0 < n) : ∀ (fuel : Nat) (l : Buffer),
    l.length ≤ fuel → (chunkListGo n fuel l).flatten = l
  | 0, l => by
      intro h
      have hl : l = [] := List.eq_nil_of_length_eq_zero (by omega)
      subst hl
      simp [chunkListGo]
  | fuel + 1, l => by
      intro h
      cases l with
      | nil => simp [chunkListGo]
      | cons a t =>
          simp only [chunkListGo]
          rw [if_neg (by simp), if_neg (by omega)]
          simp only [List.flatten_cons]
          rw [chunkListGo_flatten hn fuel ((a :: t).drop n) (by
            rw [List.length_drop]
            simp only [List.length_cons] at h ⊢
            omega)]
          exact List.take_append_drop n (a :: t)

theorem chunkList_flatten {n : Nat} (hn : 0 < n) (l : Buffer) :
    (chunkList n l).flatten = l :=
  chunkListGo_flatten hn l.length l (Nat.le_refl _)

theorem chunkListGo_mem_length {n : Nat} (hn : 0 < n) : ∀ (fuel : Nat) (l : Buffer),
    l.length ≤ fuel → ∀ c ∈ chunkListGo n fuel l, c.length ≤ n
  | 0, l => by
      intro h c hc
      have hl : l = [] := List.eq_nil_of_length_eq_zero (by omega)
      subst hl
      simp [chunkListGo] at hc
  | fuel + 1, l => by
      intro h c hc
      cases l with
      | nil => simp [chunkListGo] at hc
      | cons a t =>
          simp only [chunkListGo] at hc
          rw [if_neg (by simp), if_neg (by omega)] at hc
          rcases List.mem_cons.mp hc with rfl | hc'
          · rw [List.length_take]
            omega
          · exact chunkListGo_mem_length hn fuel ((a :: t).drop n) (by
              rw [List.length_drop]
              simp only [List.length_cons] at h ⊢
              omega) c hc'

theorem chunkList_mem_length {n : Nat} (hn : 0 < n) (l : Buffer) :
    ∀ c ∈ chunkList n l, c.length ≤ n :=
  chunkListGo_mem_length hn l.length l (Nat.le_refl _)

/-- A `next` fragment of a fragmented object. -/
def nextFrag (o : NVMObject) (p : Buffer) : NVMObject :=
  { o with fragmentType := some FragmentType.next, data := some p }

/-- The `last` fragment of a fragmented object. -/
def lastFrag (o : NVMObject) (p : Buffer) : NVMObject :=
  { o with fragmentType := some FragmentType.last, data := some p }

theorem mem_fragTail (o : NVMObject) : ∀ (ps : List Buffer) (x : NVMObject),
    x ∈ fragTail o ps → ∃ p ∈ ps, x = nextFrag o p ∨ x = lastFrag o p
  | [], x => by
      intro hx
      simp [fragTail] at hx
  | [p], x => by
      intro hx
      simp only [fragTail, List.mem_singleton] at hx
      exact ⟨p, by simp, Or.inr hx⟩
  | p :: q :: rest, x => by
      intro hx
      simp only [fragTail] at hx
      rcases List.mem_cons.mp hx with rfl | hx'
      · exact ⟨p, by simp, Or.inl rfl⟩
      · obtain ⟨r, hr, hor⟩ := mem_fragTail o (q :: rest) x hx'
        exact ⟨r, List.mem_cons_of_mem p hr, hor⟩

theorem writeFragmentsGo_true_cons (st : WriteState) (f : NVMObject)
    (rest : List NVMObject) :
    writeFragmentsGo true st (f :: rest) =
      nextPage (writeFragment st f) >>= fun st1 => writeFragmentsGo true st1 rest := by
  simp only [writeFragmentsGo]
  rfl

/-- Writing fragments in multi-page mode from a fresh page: each fragment
occupies its own page, and the writer ends on a fresh page. -/
theorem writeFragmentsGo_true_stOf : ∀ (fs : List NVMObject)
    (done : List (List NVMObject)) (spare : Nat) (w : List (Int × Nat × Buffer)),
    (∀ f ∈ fs, (writeObject f).length ≤ 2028) →
    fs.length ≤ spare →
    ∃ w', writeFragmentsGo true (stOf done [] spare w) fs =
      .ok (stOf (done ++ fs.map (fun f => [f])) [] (spare - fs.length) w') := by
  intro fs
  induction fs with
  | nil =>
      intro done spare w _ _
      refine ⟨w, ?_⟩
      simp only [writeFragmentsGo, List.map_nil, List.append_nil, List.length_nil,
        Nat.sub_zero]
  | cons f rest ih =>
      intro done spare w hall hsp
      rw [writeFragmentsGo_true_cons]
      rw [writeFragment_stOf done [] spare w f (by
        rw [wireBytes_nil]
        simpa using hall f (by simp))]
      simp only [List.nil_append]
      rw [nextPage_stOf done [f] spare _ (by
        simp only [List.length_cons] at hsp
        omega)]
      simp only [ok_bind]
      obtain ⟨w', hw'⟩ := ih (done ++ [[f]]) (spare - 1)
        (w ++ [((done.length : Int), 20 + (wireBytes ([] : List NVMObject)).length,
          writeObject f)])
        (fun q hq => hall q (by simp [hq]))
        (by simp only [List.length_cons] at hsp; omega)
      rw [List.append_assoc] at hw'
      rw [show ([[f]] ++ rest.map (fun f => [f]) : List (List NVMObject)) =
        (f :: rest).map (fun f => [f]) from rfl] at hw'
      rw [show spare - 1 - rest.length = spare - (f :: rest).length from by
        simp only [List.length_cons]
        omega] at hw'
      exact ⟨w', hw'⟩

theorem placeSim_nil (st : List (List NVMObject) × List NVMObject × Nat) :
    placeSim st [] = some st := rfl

theorem placeSim_dataSmall (done : List (List NVMObject)) (cur : List NVMObject)
    (spare : Nat) (o : NVMObject) (rest : List NVMObject) (ht : o.type = .DataSmall) :
    placeSim (done, cur, spare) (o :: rest) =
      if remNat cur < 4 + (objData o).length then
        if spare = 0 then none
        else placeSim (done ++ [cur], [o], spare - 1) rest
      else placeSim (done, cur ++ [o], spare) rest := by
  obtain ⟨t, k, fr, dt⟩ := o
  have ht' : t = .DataSmall := ht
  subst ht'
  rfl

theorem placeSim_counterSmall (done : List (List NVMObject)) (cur : List NVMObject)
    (spare : Nat) (o : NVMObject) (rest : List NVMObject) (ht : o.type = .CounterSmall) :
    placeSim (done, cur, spare) (o :: rest) =
      if remNat cur < 20 then
        if spare = 0 then none
        else placeSim (done ++ [cur], [o], spare - 1) rest
      else placeSim (done, cur ++ [o], spare) rest := by
  obtain ⟨t, k, fr, dt⟩ := o
  have ht' : t = .CounterSmall := ht
  subst ht'
  rfl

theorem placeSim_large (done : List (List NVMObject)) (cur : List NVMObject)
    (spare : Nat) (o : NVMObject) (rest : List NVMObject)
    (ht : o.type = .DataLarge ∨ o.type = .CounterLarge) :
    placeSim (done, cur, spare) (o :: rest) =
      (if 8 + (objData o).length ≤ remNat cur then
        placeSim (done, cur ++ [o], spare) rest
      else if remNat cur < 8 then none
      else
        let frags := fragmentLargeObject o ((remNat cur : Nat) : Int) 2028
        if frags.length ≤ spare then
          placeSim (done ++ ([cur ++ [frags.headD o]] ++ frags.tail.map (fun x => [x])),
            [], spare - frags.length) rest
        else none) := by
  obtain ⟨t, k, fr, dt⟩ := o
  rcases ht with h | h <;>
    (first
      | (have h' : t = ObjectType.DataLarge := h
         subst h'
         rfl)
      | (have h' : t = ObjectType.CounterLarge := h
         subst h'
         rfl))

theorem flatten_map_singleton : ∀ (l : List NVMObject),
    (l.map (fun x => [x])).flatten = l
  | [] => rfl
  | a :: t => by
      simp only [List.map_cons, List.flatten_cons, List.singleton_append,
        flatten_map_singleton t]

theorem foldlM_cons_except {α σ : Type} (f : σ → α → Except NVMError σ) (b : σ)
    (a : α) (l : List α) :
    List.foldlM f b (a :: l) = f b a >>= fun c => List.foldlM f c l := rfl

theorem wireBytes_singleton (o : NVMObject) : wireBytes [o] = writeObject o := by
  show (writeObject o :: List.map writeObject []).flatten = writeObject o
  simp

theorem writeFragmentsGo_false_single (st : WriteState) (o : NVMObject) :
    writeFragmentsGo false st [o] = .ok (writeFragment st o) := rfl

/-- Aligned wire data that fits the remaining space keeps the page within
its 2028-byte body. -/
theorem wire_fit_bound {cur : List NVMObject} {n : Nat}
    (hcur : (wireBytes cur).length ≤ 2028) (hfit : n ≤ remNat cur) :
    (wireBytes cur).length + align4 n ≤ 2028 := by
  have hmod := wireBytes_mod4 cur
  have h1 : n ≤ 2028 - (wireBytes cur).length := by
    unfold remNat at hfit
    omega
  have h2 := align4_le_of_le h1 (by omega)
  omega

/-- Soundness of the layout simulation: a successful `placeSim` run over
live objects yields pages satisfying the layout invariant, preserves the
total page count, lays down exactly a fragment-sequence rendering of the
objects, and the concrete `writeObjects` fold over `placeObject` succeeds
and reaches exactly the corresponding `WriteState`. -/
theorem placeSim_correct : ∀ (objs : List NVMObject) (done : List (List NVMObject))
    (cur : List NVMObject) (spare : Nat)
    (res : List (List NVMObject) × List NVMObject × Nat),
    (∀ o ∈ objs, liveShape o) →
    PageInv done cur →
    placeSim (done, cur, spare) objs = some res →
    PageInv res.1 res.2.1 ∧
    res.1.length + 1 + res.2.2 = done.length + 1 + spare ∧
    (∃ exp : List (List NVMObject), List.Forall₂ FragSeq objs exp ∧
      res.1.flatten ++ res.2.1 = (done.flatten ++ cur) ++ exp.flatten) ∧
    (∀ w, ∃ w', List.foldlM (placeObject 2048) (stOf done cur spare w) objs =
      .ok (stOf res.1 res.2.1 res.2.2 w')) := by
  intro objs
  induction objs with
  | nil =>
      intro done cur spare res _ hInv hsim
      rw [placeSim_nil] at hsim
      injection hsim with h
      subst h
      exact ⟨hInv, rfl, ⟨[], List.Forall₂.nil, by simp⟩, fun w => ⟨w, rfl⟩⟩
  | cons o rest ih =>
      intro done cur spare res hall hInv hsim
      have ho : liveShape o := hall o (List.mem_cons_self o rest)
      have hallR : ∀ q ∈ rest, liveShape q := fun q hq => hall q (List.mem_cons_of_mem o hq)
      obtain ⟨hk, hfr, hsh⟩ := ho
      obtain ⟨hdone, hcurLen, hcurSh⟩ := hInv
      rcases hsh with ⟨ht, d, hd, hdl⟩ | ⟨ht, d, hd, hdl⟩ | ⟨ht, d, hd, hdl⟩
      · -- DataSmall
        have hod : objData o = d := by unfold objData; rw [hd]; rfl
        have hdel : ¬ o.type = ObjectType.Deleted := by
          rw [ht]; exact fun hc => ObjectType.noConfusion hc
        have hlarge : ¬ (o.type = ObjectType.DataLarge ∨ o.type = ObjectType.CounterLarge) := by
          rw [ht]; rintro (hc | hc) <;> exact ObjectType.noConfusion hc
        have hwsh : wireShape o := liveShape_wireShape ⟨hk, hfr, Or.inl ⟨ht, d, hd, hdl⟩⟩
        rw [placeSim_dataSmall done cur spare o rest ht] at hsim
        by_cases hfit : remNat cur < 4 + (objData o).length
        · -- does not fit: advance to a fresh page
          rw [if_pos hfit] at hsim
          by_cases hsp : spare = 0
          · rw [if_pos hsp] at hsim
            exact Option.noConfusion hsim
          rw [if_neg hsp] at hsim
          have hsp' : 1 ≤ spare := Nat.one_le_iff_ne_zero.mpr hsp
          have hwo : (writeObject o).length ≤ 2028 := by
            rw [writeObject_dataSmall_length ht]
            have hbound : NVM3_OBJ_HEADER_SIZE_SMALL + (objData o).length ≤ 2028 := by
              show 4 + (objData o).length ≤ 2028
              rw [hod]
              omega
            exact align4_le_of_le hbound (by omega)
          have hInv' : PageInv (done ++ [cur]) [o] := by
            refine ⟨?_, ?_, ?_⟩
            · intro pg hpg
              rcases List.mem_append.mp hpg with h1 | h1
              · exact hdone pg h1
              · rw [List.mem_singleton] at h1
                subst h1
                exact ⟨hcurLen, hcurSh⟩
            · rw [wireBytes_singleton]
              exact hwo
            · intro q hq
              rw [List.mem_singleton] at hq
              subst hq
              exact hwsh
          obtain ⟨hIres, hcount, ⟨exp, hF, hflat⟩, hfold⟩ :=
            ih (done ++ [cur]) [o] (spare - 1) res hallR hInv' hsim
          refine ⟨hIres, ?_, ⟨[o] :: exp, List.Forall₂.cons (Or.inl rfl) hF, ?_⟩, ?_⟩
          · rw [hcount, List.length_append, List.length_singleton]
            omega
          · rw [hflat]
            simp [List.flatten_append, List.flatten_cons, List.append_assoc]
          · intro w
            have hrem := remaining_stOf done cur spare w hcurLen
            have hcond : (o.type = ObjectType.CounterSmall ∧
                remainingSpace 2048 (stOf done cur spare w) <
                  ((NVM3_OBJ_HEADER_SIZE_SMALL + NVM_COUNTER_SIZE : Nat) : Int)) ∨
              (o.type = ObjectType.DataSmall ∧
                remainingSpace 2048 (stOf done cur spare w) <
                  ((NVM3_OBJ_HEADER_SIZE_SMALL + (objData o).length : Nat) : Int)) := by
              refine Or.inr ⟨ht, ?_⟩
              rw [hrem]
              exact Int.ofNat_lt.mpr hfit
            have hnext := nextPage_stOf done cur spare w hsp'
            have hstep := placeObject_advance (stOf done cur spare w) _ o hdel hlarge hcond hnext
            obtain ⟨w', hw'⟩ := hfold (w ++ [(((done ++ [cur]).length : Int),
              20 + (wireBytes ([] : List NVMObject)).length, writeObject o)])
            refine ⟨w', ?_⟩
            rw [foldlM_cons_except, hstep, ok_bind,
              writeFragment_stOf (done ++ [cur]) [] (spare - 1) w o (by
                rw [wireBytes_nil]
                simpa using hwo)]
            exact hw'
        · -- fits on the current page
          rw [if_neg hfit] at hsim
          have hfit' : 4 + (objData o).length ≤ remNat cur := Nat.not_lt.mp hfit
          have hfitb : (wireBytes cur).length + (writeObject o).length ≤ 2028 := by
            rw [writeObject_dataSmall_length ht]
            exact wire_fit_bound hcurLen hfit'
          have hInv' : PageInv done (cur ++ [o]) := by
            refine ⟨hdone, ?_, ?_⟩
            · rw [wireBytes_append_one, List.length_append]
              exact hfitb
            · intro q hq
              rcases List.mem_append.mp hq with h1 | h1
              · exact hcurSh q h1
              · rw [List.mem_singleton] at h1
                subst h1
                exact hwsh
          obtain ⟨hIres, hcount, ⟨exp, hF, hflat⟩, hfold⟩ :=
            ih done (cur ++ [o]) spare res hallR hInv' hsim
          refine ⟨hIres, hcount, ⟨[o] :: exp, List.Forall₂.cons (Or.inl rfl) hF, ?_⟩, ?_⟩
          · rw [hflat]
            simp [List.flatten_cons, List.append_assoc]
          · intro w
            have hrem := remaining_stOf done cur spare w hcurLen
            have hcond : ¬ ((o.type = ObjectType.CounterSmall ∧
                remainingSpace 2048 (stOf done cur spare w) <
                  ((NVM3_OBJ_HEADER_SIZE_SMALL + NVM_COUNTER_SIZE : Nat) : Int)) ∨
              (o.type = ObjectType.DataSmall ∧
                remainingSpace 2048 (stOf done cur spare w) <
                  ((NVM3_OBJ_HEADER_SIZE_SMALL + (objData o).length : Nat) : Int))) := by
              rintro (⟨hc, _⟩ | ⟨_, hlt⟩)
              · rw [ht] at hc
                exact ObjectType.noConfusion hc
              · rw [hrem] at hlt
                exact absurd (Int.ofNat_lt.mp hlt) (Nat.not_lt.mpr hfit')
            have hstep := placeObject_noadvance (stOf done cur spare w) o hdel hlarge hcond
            obtain ⟨w', hw'⟩ := hfold (w ++ [((done.length : Int),
              20 + (wireBytes cur).length, writeObject o)])
            refine ⟨w', ?_⟩
            rw [foldlM_cons_except, hstep, ok_bind,
              writeFragment_stOf done cur spare w o hfitb]
            exact hw'
      · -- CounterSmall
        have hod : objData o = d := by unfold objData; rw [hd]; rfl
        have hdel : ¬ o.type = ObjectType.Deleted := by
          rw [ht]; exact fun hc => ObjectType.noConfusion hc
        have hlarge : ¬ (o.type = ObjectType.DataLarge ∨ o.type = ObjectType.CounterLarge) := by
          rw [ht]; rintro (hc | hc) <;> exact ObjectType.noConfusion hc
        have hwsh : wireShape o := liveShape_wireShape
          ⟨hk, hfr, Or.inr (Or.inl ⟨ht, d, hd, hdl⟩)⟩
        have hwolen : (writeObject o).length = align4 (4 + 4) := by
          rw [writeObject_counterSmall_length ht, hod, hdl]
          rfl
        rw [placeSim_counterSmall done cur spare o rest ht] at hsim
        by_cases hfit : remNat cur < 20
        · -- does not fit: advance to a fresh page
          rw [if_pos hfit] at hsim
          by_cases hsp : spare = 0
          · rw [if_pos hsp] at hsim
            exact Option.noConfusion hsim
          rw [if_neg hsp] at hsim
          have hsp' : 1 ≤ spare := Nat.one_le_iff_ne_zero.mpr hsp
          have hwo : (writeObject o).length ≤ 2028 := by
            rw [hwolen]
            show 8 ≤ 2028
            omega
          have hInv' : PageInv (done ++ [cur]) [o] := by
            refine ⟨?_, ?_, ?_⟩
            · intro pg hpg
              rcases List.mem_append.mp hpg with h1 | h1
              · exact hdone pg h1
              · rw [List.mem_singleton] at h1
                subst h1
                exact ⟨hcurLen, hcurSh⟩
            · rw [wireBytes_singleton]
              exact hwo
            · intro q hq
              rw [List.mem_singleton] at hq
              subst hq
              exact hwsh
          obtain ⟨hIres, hcount, ⟨exp, hF, hflat⟩, hfold⟩ :=
            ih (done ++ [cur]) [o] (spare - 1) res hallR hInv' hsim
          refine ⟨hIres, ?_, ⟨[o] :: exp, List.Forall₂.cons (Or.inl rfl) hF, ?_⟩, ?_⟩
          · rw [hcount, List.length_append, List.length_singleton]
            omega
          · rw [hflat]
            simp [List.flatten_append, List.flatten_cons, List.append_assoc]
          · intro w
            have hrem := remaining_stOf done cur spare w hcurLen
            have hcond : (o.type = ObjectType.CounterSmall ∧
                remainingSpace 2048 (stOf done cur spare w) <
                  ((NVM3_OBJ_HEADER_SIZE_SMALL + NVM_COUNTER_SIZE : Nat) : Int)) ∨
              (o.type = ObjectType.DataSmall ∧
                remainingSpace 2048 (stOf done cur spare w) <
                  ((NVM3_OBJ_HEADER_SIZE_SMALL + (objData o).length : Nat) : Int)) := by
              refine Or.inl ⟨ht, ?_⟩
              rw [hrem]
              exact Int.ofNat_lt.mpr hfit
            have hnext := nextPage_stOf done cur spare w hsp'
            have hstep := placeObject_advance (stOf done cur spare w) _ o hdel hlarge hcond hnext
            obtain ⟨w', hw'⟩ := hfold (w ++ [(((done ++ [cur]).length : Int),
              20 + (wireBytes ([] : List NVMObject)).length, writeObject o)])
            refine ⟨w', ?_⟩
            rw [foldlM_cons_except, hstep, ok_bind,
              writeFragment_stOf (done ++ [cur]) [] (spare - 1) w o (by
                rw [wireBytes_nil]
                simpa using hwo)]
            exact hw'
        · -- fits on the current page
          rw [if_neg hfit] at hsim
          have hfit' : 20 ≤ remNat cur := Nat.not_lt.mp hfit
          have hfitb : (wireBytes cur).length + (writeObject o).length ≤ 2028 := by
            rw [hwolen]
            exact wire_fit_bound hcurLen (by omega)
          have hInv' : PageInv done (cur ++ [o]) := by
            refine ⟨hdone, ?_, ?_⟩
            · rw [wireBytes_append_one, List.length_append]
              exact hfitb
            · intro q hq
              rcases List.mem_append.mp hq with h1 | h1
              · exact hcurSh q h1
              · rw [List.mem_singleton] at h1
                subst h1
                exact hwsh
          obtain ⟨hIres, hcount, ⟨exp, hF, hflat⟩, hfold⟩ :=
            ih done (cur ++ [o]) spare res hallR hInv' hsim
          refine ⟨hIres, hcount, ⟨[o] :: exp, List.Forall₂.cons (Or.inl rfl) hF, ?_⟩, ?_⟩
          · rw [hflat]
            simp [List.flatten_cons, List.append_assoc]
          · intro w
            have hrem := remaining_stOf done cur spare w hcurLen
            have hcond : ¬ ((o.type = ObjectType.CounterSmall ∧
                remainingSpace 2048 (stOf done cur spare w) <
                  ((NVM3_OBJ_HEADER_SIZE_SMALL + NVM_COUNTER_SIZE : Nat) : Int)) ∨
              (o.type = ObjectType.DataSmall ∧
                remainingSpace 2048 (stOf done cur spare w) <
                  ((NVM3_OBJ_HEADER_SIZE_SMALL + (objData o).length : Nat) : Int))) := by
              rintro (⟨_, hlt⟩ | ⟨hc, _⟩)
              · rw [hrem] at hlt
                have hlt' : remNat cur < NVM3_OBJ_HEADER_SIZE_SMALL + NVM_COUNTER_SIZE :=
                  Int.ofNat_lt.mp hlt
                have hlt20 : remNat cur < 20 := hlt'
                omega
              · rw [ht] at hc
                exact ObjectType.noConfusion hc
            have hstep := placeObject_noadvance (stOf done cur spare w) o hdel hlarge hcond
            obtain ⟨w', hw'⟩ := hfold (w ++ [((done.length : Int),
              20 + (wireBytes cur).length, writeObject o)])
            refine ⟨w', ?_⟩
            rw [foldlM_cons_except, hstep, ok_bind,
              writeFragment_stOf done cur spare w o hfitb]
            exact hw'
      · -- DataLarge / CounterLarge
        have hod : objData o = d := by unfold objData; rw [hd]; rfl
        rw [placeSim_large done cur spare o rest ht] at hsim
        by_cases hfit : 8 + (objData o).length ≤ remNat cur
        · -- fits unfragmented on the current page
          rw [if_pos hfit] at hsim
          have hwsh : wireShape o := liveShape_wireShape
            ⟨hk, hfr, Or.inr (Or.inr ⟨ht, d, hd, hdl⟩)⟩
          have hfitb : (wireBytes cur).length + (writeObject o).length ≤ 2028 := by
            rw [writeObject_large_length ht]
            exact wire_fit_bound hcurLen hfit
          have hInv' : PageInv done (cur ++ [o]) := by
            refine ⟨hdone, ?_, ?_⟩
            · rw [wireBytes_append_one, List.length_append]
              exact hfitb
            · intro q hq
              rcases List.mem_append.mp hq with h1 | h1
              · exact hcurSh q h1
              · rw [List.mem_singleton] at h1
                subst h1
                exact hwsh
          obtain ⟨hIres, hcount, ⟨exp, hF, hflat⟩, hfold⟩ :=
            ih done (cur ++ [o]) spare res hallR hInv' hsim
          refine ⟨hIres, hcount, ⟨[o] :: exp, List.Forall₂.cons (Or.inl rfl) hF, ?_⟩, ?_⟩
          · rw [hflat]
            simp [List.flatten_cons, List.append_assoc]
          · intro w
            have hrem := remaining_stOf done cur spare w hcurLen
            have hfrag1 : fragmentLargeObject o (remainingSpace 2048 (stOf done cur spare w))
                (((2048 : Nat) : Int) - ((NVM3_PAGE_HEADER_SIZE : Nat) : Int)) = [o] := by
              rw [hrem]
              exact fragmentLargeObject_single o (Int.ofNat_le.mpr hfit) _
            have hstep : placeObject 2048 (stOf done cur spare w) o =
                .ok (writeFragment (stOf done cur spare w) o) := by
              rw [placeObject_large_eq _ _ ht, hfrag1]
              rw [show decide (1 < ([o] : List NVMObject).length) = false from rfl]
              exact writeFragmentsGo_false_single _ _
            obtain ⟨w', hw'⟩ := hfold (w ++ [((done.length : Int),
              20 + (wireBytes cur).length, writeObject o)])
            refine ⟨w', ?_⟩
            rw [foldlM_cons_except, hstep, ok_bind,
              writeFragment_stOf done cur spare w o hfitb]
            exact hw'
        · -- must be fragmented
          rw [if_neg hfit] at hsim
          by_cases h8 : remNat cur < 8
          · rw [if_pos h8] at hsim
            exact Option.noConfusion hsim
          rw [if_neg h8] at hsim
          have hrem8 : 8 ≤ remNat cur := Nat.not_lt.mp h8
          have hremle : remNat cur ≤ 2048 := by unfold remNat; omega
          have hremeq : remNat cur = 2028 - (wireBytes cur).length := by
            unfold remNat
            omega
          have hmod4 : remNat cur % 4 = 0 := by
            have := wireBytes_mod4 cur
            unfold remNat
            omega
          have hlt : remNat cur < 8 + (objData o).length := Nat.not_le.mp hfit
          have hnotfit : ¬ ((NVM3_OBJ_HEADER_SIZE_LARGE + (objData o).length : Nat) : Int) ≤
              ((remNat cur : Nat) : Int) :=
            fun hcon => hfit (Int.ofNat_le.mp hcon)
          have hn0 : (((remNat cur : Nat) : Int) -
              ((NVM3_OBJ_HEADER_SIZE_LARGE : Nat) : Int)).toNat = remNat cur - 8 := by
            rw [show ((NVM3_OBJ_HEADER_SIZE_LARGE : Nat) : Int) = ((8 : Nat) : Int) from rfl]
            omega
          have hn2020 : (((2028 : Int)) - ((NVM3_OBJ_HEADER_SIZE_LARGE : Nat) : Int)).toNat =
              2020 := by decide
          rw [fragmentLargeObject_frags o hnotfit] at hsim
          rw [hn0, hn2020] at hsim
          simp only [List.headD_cons, List.tail_cons, List.length_cons] at hsim
          by_cases hsp : (fragTail o (chunkList 2020
              ((objData o).drop (remNat cur - 8)))).length + 1 ≤ spare
          swap
          · rw [if_neg hsp] at hsim
            exact Option.noConfusion hsim
          rw [if_pos hsp] at hsim
          -- abbreviated facts about the fragments
          have hd0len : ((objData o).take (remNat cur - 8)).length = remNat cur - 8 := by
            rw [List.length_take]
            omega
          have htF : (firstFrag o ((objData o).take (remNat cur - 8))).type =
              ObjectType.DataLarge ∨
              (firstFrag o ((objData o).take (remNat cur - 8))).type =
              ObjectType.CounterLarge := ht
          have hwFlen : (writeObject (firstFrag o
              ((objData o).take (remNat cur - 8)))).length = remNat cur := by
            rw [writeObject_large_length htF]
            rw [show objData (firstFrag o ((objData o).take (remNat cur - 8))) =
              (objData o).take (remNat cur - 8) from rfl]
            rw [hd0len]
            rw [show NVM3_OBJ_HEADER_SIZE_LARGE = 8 from rfl]
            rw [show 8 + (remNat cur - 8) = remNat cur from by omega]
            exact align4_eq_of_mod hmod4
          have hwshF : wireShape (firstFrag o ((objData o).take (remNat cur - 8))) := by
            refine ⟨hk, Or.inr (Or.inr ⟨htF, (objData o).take (remNat cur - 8), rfl, ?_⟩)⟩
            rw [hd0len]
            omega
          have hdropne : (objData o).drop (remNat cur - 8) ≠ [] := by
            intro hcon
            have hlen := congrArg List.length hcon
            rw [List.length_drop] at hlen
            simp only [List.length_nil] at hlen
            omega
          have hcs_ne : chunkList 2020 ((objData o).drop (remNat cur - 8)) ≠ [] :=
            chunkList_ne_nil hdropne
          have hcs_flat : (chunkList 2020 ((objData o).drop (remNat cur - 8))).flatten =
              (objData o).drop (remNat cur - 8) := chunkList_flatten (by omega) _
          have hwT : ∀ f ∈ fragTail o (chunkList 2020 ((objData o).drop (remNat cur - 8))),
              (writeObject f).length ≤ 2028 ∧ wireShape f := by
            intro f hf
            obtain ⟨p, hp, hor⟩ := mem_fragTail o _ f hf
            have hplen : p.length ≤ 2020 := chunkList_mem_length (by omega) _ p hp
            rcases hor with rfl | rfl
            · have htn : (nextFrag o p).type = ObjectType.DataLarge ∨
                  (nextFrag o p).type = ObjectType.CounterLarge := ht
              constructor
              · rw [writeObject_large_length htn,
                  show objData (nextFrag o p) = p from rfl,
                  show NVM3_OBJ_HEADER_SIZE_LARGE = 8 from rfl]
                exact align4_le_of_le (by omega) (by omega)
              · exact ⟨hk, Or.inr (Or.inr ⟨htn, p, rfl, by omega⟩)⟩
            · have htn : (lastFrag o p).type = ObjectType.DataLarge ∨
                  (lastFrag o p).type = ObjectType.CounterLarge := ht
              constructor
              · rw [writeObject_large_length htn,
                  show objData (lastFrag o p) = p from rfl,
                  show NVM3_OBJ_HEADER_SIZE_LARGE = 8 from rfl]
                exact align4_le_of_le (by omega) (by omega)
              · exact ⟨hk, Or.inr (Or.inr ⟨htn, p, rfl, by omega⟩)⟩
          have hInv' : PageInv (done ++ ([cur ++ [firstFrag o
              ((objData o).take (remNat cur - 8))]] ++
              (fragTail o (chunkList 2020 ((objData o).drop (remNat cur - 8)))).map
                (fun x => [x]))) [] := by
            refine ⟨?_, ?_, ?_⟩
            · intro pg hpg
              rcases List.mem_append.mp hpg with h1 | h1
              · exact hdone pg h1
              rcases List.mem_append.mp h1 with h2 | h2
              · rw [List.mem_singleton] at h2
                subst h2
                constructor
                · rw [wireBytes_append_one, List.length_append, hwFlen]
                  omega
                · intro q hq
                  rcases List.mem_append.mp hq with h3 | h3
                  · exact hcurSh q h3
                  · rw [List.mem_singleton] at h3
                    subst h3
                    exact hwshF
              · obtain ⟨f, hf, hfe⟩ := List.mem_map.mp h2
                subst hfe
                obtain ⟨hfw, hfs⟩ := hwT f hf
                constructor
                · rw [wireBytes_singleton]
                  exact hfw
                · intro q hq
                  rw [List.mem_singleton] at hq
                  subst hq
                  exact hfs
            · rw [wireBytes_nil]
              simp
            · intro q hq
              exact absurd hq (List.not_mem_nil q)
          obtain ⟨hIres, hcount, ⟨exp, hF, hflat⟩, hfold⟩ :=
            ih _ [] (spare - ((fragTail o (chunkList 2020
              ((objData o).drop (remNat cur - 8)))).length + 1)) res hallR hInv' hsim
          have hfseq : FragSeq o (firstFrag o ((objData o).take (remNat cur - 8)) ::
              fragTail o (chunkList 2020 ((objData o).drop (remNat cur - 8)))) := by
            refine Or.inr ⟨(objData o).take (remNat cur - 8),
              chunkList 2020 ((objData o).drop (remNat cur - 8)), hcs_ne, ?_, rfl⟩
            rw [hcs_flat]
            exact List.take_append_drop _ _
          refine ⟨hIres, ?_, ⟨(firstFrag o ((objData o).take (remNat cur - 8)) ::
            fragTail o (chunkList 2020 ((objData o).drop (remNat cur - 8)))) :: exp,
            List.Forall₂.cons hfseq hF, ?_⟩, ?_⟩
          · rw [hcount]
            simp only [List.length_append, List.length_cons, List.length_map,
              List.length_singleton, List.length_nil]
            omega
          · rw [hflat]
            simp [List.flatten_append, List.flatten_cons, List.append_assoc,
              flatten_map_singleton]
          · intro w
            have hrem := remaining_stOf done cur spare w hcurLen
            have hfrageqW : fragmentLargeObject o
                (remainingSpace 2048 (stOf done cur spare w))
                (((2048 : Nat) : Int) - ((NVM3_PAGE_HEADER_SIZE : Nat) : Int)) =
                firstFrag o ((objData o).take (remNat cur - 8)) ::
                  fragTail o (chunkList 2020 ((objData o).drop (remNat cur - 8))) := by
              rw [hrem, show (((2048 : Nat) : Int) - ((NVM3_PAGE_HEADER_SIZE : Nat) : Int)) =
                (2028 : Int) from by decide]
              rw [fragmentLargeObject_frags o hnotfit]
              rw [hn0, hn2020]
            have hmulti : decide (1 < (firstFrag o ((objData o).take (remNat cur - 8)) ::
                fragTail o (chunkList 2020 ((objData o).drop (remNat cur - 8)))).length) =
                true := by
              refine decide_eq_true ?_
              simp only [List.length_cons, fragTail_length]
              have hpos : 0 < (chunkList 2020 ((objData o).drop (remNat cur - 8))).length :=
                List.length_pos.mpr hcs_ne
              omega
            obtain ⟨w2, hw2⟩ := writeFragmentsGo_true_stOf
              (fragTail o (chunkList 2020 ((objData o).drop (remNat cur - 8))))
              (done ++ [cur ++ [firstFrag o ((objData o).take (remNat cur - 8))]])
              (spare - 1)
              (w ++ [((done.length : Int), 20 + (wireBytes cur).length,
                writeObject (firstFrag o ((objData o).take (remNat cur - 8))))])
              (fun f hf => (hwT f hf).1)
              (by omega)
            rw [List.append_assoc] at hw2
            rw [show ∀ k : Nat, spare - 1 - k = spare - (k + 1) from fun k => by omega] at hw2
            obtain ⟨w', hw'⟩ := hfold w2
            refine ⟨w', ?_⟩
            rw [foldlM_cons_except, placeObject_large_eq _ _ ht, hfrageqW, hmulti,
              writeFragmentsGo_true_cons,
              writeFragment_stOf done cur spare w _ (by rw [hwFlen]; omega),
              nextPage_stOf done (cur ++ [firstFrag o ((objData o).take (remNat cur - 8))])
                spare _ (by omega),
              ok_bind, hw2, ok_bind]
            exact hw'

/-- A partially reassembled fragment with `p` merged onto its payload. -/
def mergeFrag (cur : NVMObject) (p : Buffer) : NVMObject :=
  { cur with data := some (objData cur ++ p) }

/-- The finished object a `last` fragment produces from the partial `cur`. -/
def finishFrag (cur : NVMObject) (d : Buffer) : NVMObject :=
  { cur with fragmentType := none, data := some d }

theorem find?_map_set {α : Type} (k : Nat) (v : α) : ∀ (m : List (Nat × α)),
    m.any (fun kv => kv.1 = k) = true →
    ((m.map (fun kv => if kv.1 = k then (k, v) else kv)).find?
      (fun kv => kv.1 = k)) = some (k, v)
  | [], h => by simp at h
  | kv :: t, h => by
      by_cases hk : kv.1 = k
      · rw [List.map_cons, if_pos hk]
        exact List.find?_cons_of_pos _ (by simp)
      · rw [List.map_cons, if_neg hk]
        rw [List.find?_cons_of_neg _ (by simp [hk])]
        refine find?_map_set k v t ?_
        simp only [List.any_cons] at h
        simpa [hk] using h

theorem find?_fresh_append {α : Type} (k : Nat) (v : α) : ∀ (m : List (Nat × α)),
    m.any (fun kv => kv.1 = k) = false →
    ((m ++ [(k, v)]).find? (fun kv => kv.1 = k)) = some (k, v)
  | [], _ => by
      rw [List.nil_append]
      exact List.find?_cons_of_pos _ (by simp)
  | kv :: t, h => by
      simp only [List.any_cons, Bool.or_eq_false_iff] at h
      rw [List.cons_append, List.find?_cons_of_neg _ (by
        intro hc
        rw [h.1] at hc
        exact Bool.false_ne_true hc)]
      exact find?_fresh_append k v t h.2

/-- `Map.get` after `Map.set` of the same key returns the new value. -/
theorem mapGet_mapSet_self {α : Type} (m : List (Nat × α)) (k : Nat) (v : α) :
    mapGet (mapSet m k v) k = some v := by
  unfold mapGet mapSet
  by_cases h : m.any (fun kv => kv.1 = k) = true
  · rw [if_pos h, find?_map_set k v m h]
    rfl
  · rw [if_neg h, find?_fresh_append k v m (Bool.not_eq_true _ ▸ eq_false_of_ne_true h)]
    rfl

theorem compressStep_live_lit (live parts : List (Nat × NVMObject)) (T : ObjectType)
    (k : Nat) (dt : Option Buffer)
    (hT : T = ObjectType.DataSmall ∨ T = ObjectType.CounterSmall ∨
      T = ObjectType.DataLarge ∨ T = ObjectType.CounterLarge) :
    compressStep ⟨live, parts⟩ ⟨T, k, none, dt⟩ =
      ⟨mapSet live k ⟨T, k, none, dt⟩, parts⟩ := by
  rcases hT with h | h | h | h <;> (subst h; rfl)

theorem compressStep_first_lit (live parts : List (Nat × NVMObject)) (T : ObjectType)
    (k : Nat) (d0 : Buffer)
    (hT : T = ObjectType.DataSmall ∨ T = ObjectType.CounterSmall ∨
      T = ObjectType.DataLarge ∨ T = ObjectType.CounterLarge) :
    compressStep ⟨live, parts⟩ ⟨T, k, some FragmentType.first, some d0⟩ =
      ⟨live, mapSet parts k ⟨T, k, some FragmentType.first, some d0⟩⟩ := by
  rcases hT with h | h | h | h <;> (subst h; rfl)

theorem compressStep_next_lit (live parts : List (Nat × NVMObject)) (T : ObjectType)
    (k : Nat) (p : Buffer) (cur : NVMObject)
    (hT : T = ObjectType.DataSmall ∨ T = ObjectType.CounterSmall ∨
      T = ObjectType.DataLarge ∨ T = ObjectType.CounterLarge)
    (hget : mapGet parts k = some cur) :
    compressStep ⟨live, parts⟩ ⟨T, k, some FragmentType.next, some p⟩ =
      ⟨live, mapSet parts k (mergeFrag cur p)⟩ := by
  rcases hT with h | h | h | h <;>
    (subst h
     simp only [compressStep]
     rw [hget]
     rfl)

theorem compressStep_last_lit (live parts : List (Nat × NVMObject)) (T : ObjectType)
    (k : Nat) (p : Buffer) (cur : NVMObject)
    (hT : T = ObjectType.DataSmall ∨ T = ObjectType.CounterSmall ∨
      T = ObjectType.DataLarge ∨ T = ObjectType.CounterLarge)
    (hget : mapGet parts k = some cur) :
    compressStep ⟨live, parts⟩ ⟨T, k, some FragmentType.last, some p⟩ =
      ⟨mapSet live k (finishFrag cur (objData cur ++ p)), mapDelete parts k⟩ := by
  rcases hT with h | h | h | h <;>
    (subst h
     simp only [compressStep]
     rw [hget]
     rfl)

/-- Folding the `next`*/`last` tail of a fragment sequence over compaction
finishes the partial into the live map with all payload chunks appended. -/
theorem fragTail_fold (o : NVMObject)
    (ht : o.type = ObjectType.DataSmall ∨ o.type = ObjectType.CounterSmall ∨
      o.type = ObjectType.DataLarge ∨ o.type = ObjectType.CounterLarge) :
    ∀ (ps : List Buffer) (live parts : List (Nat × NVMObject)) (cur : NVMObject),
    ps ≠ [] → mapGet parts o.key = some cur →
    ∃ parts', (fragTail o ps).foldl compressStep ⟨live, parts⟩ =
      ⟨mapSet live o.key (finishFrag cur (objData cur ++ ps.flatten)), parts'⟩
  | [], live, parts, cur => fun hne _ => absurd rfl hne
  | [p], live, parts, cur => fun _ hget => by
      refine ⟨mapDelete parts o.key, ?_⟩
      show ([{ o with fragmentType := some FragmentType.last, data := some p }] :
        List NVMObject).foldl compressStep ⟨live, parts⟩ = _
      rw [List.foldl_cons, List.foldl_nil]
      rw [compressStep_last_lit live parts o.type o.key p cur ht hget]
      rw [show ([p] : List Buffer).flatten = p from by simp]
  | p :: q :: rest, live, parts, cur => fun _ hget => by
      obtain ⟨parts', hrec⟩ := fragTail_fold o ht (q :: rest) live
        (mapSet parts o.key (mergeFrag cur p)) (mergeFrag cur p) (by simp)
        (mapGet_mapSet_self parts o.key _)
      refine ⟨parts', ?_⟩
      show (({ o with fragmentType := some FragmentType.next, data := some p } ::
        fragTail o (q :: rest)) : List NVMObject).foldl compressStep ⟨live, parts⟩ = _
      rw [List.foldl_cons]
      rw [compressStep_next_lit live parts o.type o.key p cur ht hget]
      rw [hrec]
      show CompressState.mk (mapSet live o.key
          (finishFrag cur ((objData cur ++ p) ++ (q :: rest).flatten))) parts' =
        CompressState.mk (mapSet live o.key
          (finishFrag cur (objData cur ++ (p :: q :: rest).flatten))) parts'
      rw [List.append_assoc]
      rw [show (p :: q :: rest : List Buffer).flatten = p ++ (q :: rest).flatten from rfl]

/-- Compacting one entry's fragment-sequence rendering inserts exactly the
original live object under its key. -/
theorem compress_entry (o : NVMObject) (fs : List NVMObject) (hlive : liveShape o)
    (hfs : FragSeq o fs) (live parts : List (Nat × NVMObject)) :
    ∃ parts', fs.foldl compressStep ⟨live, parts⟩ = ⟨mapSet live o.key o, parts'⟩ := by
  obtain ⟨hk, hfr, hsh⟩ := hlive
  have ht4 : o.type = ObjectType.DataSmall ∨ o.type = ObjectType.CounterSmall ∨
      o.type = ObjectType.DataLarge ∨ o.type = ObjectType.CounterLarge := by
    rcases hsh with ⟨ht, _⟩ | ⟨ht, _⟩ | ⟨ht, _⟩
    · exact Or.inl ht
    · exact Or.inr (Or.inl ht)
    · rcases ht with h | h
      · exact Or.inr (Or.inr (Or.inl h))
      · exact Or.inr (Or.inr (Or.inr h))
  have hdata : ∃ d, o.data = some d := by
    rcases hsh with ⟨_, d, hd, _⟩ | ⟨_, d, hd, _⟩ | ⟨_, d, hd, _⟩ <;> exact ⟨d, hd⟩
  obtain ⟨d, hd⟩ := hdata
  rcases hfs with rfl | ⟨d0, ps, hne, hflat, rfl⟩
  · refine ⟨parts, ?_⟩
    rw [List.foldl_cons, List.foldl_nil]
    obtain ⟨t, k2, fr, dt⟩ := o
    have hfr' : fr = none := hfr
    subst hfr'
    exact compressStep_live_lit live parts t k2 dt ht4
  · have hget : mapGet (mapSet parts o.key
        (⟨o.type, o.key, some FragmentType.first, some d0⟩ : NVMObject)) o.key =
        some ⟨o.type, o.key, some FragmentType.first, some d0⟩ :=
      mapGet_mapSet_self parts o.key _
    obtain ⟨parts', hfold⟩ := fragTail_fold o ht4 ps live
      (mapSet parts o.key ⟨o.type, o.key, some FragmentType.first, some d0⟩)
      ⟨o.type, o.key, some FragmentType.first, some d0⟩ hne hget
    refine ⟨parts', ?_⟩
    rw [show firstFrag o d0 =
      (⟨o.type, o.key, some FragmentType.first, some d0⟩ : NVMObject) from rfl]
    rw [List.foldl_cons]
    rw [compressStep_first_lit live parts o.type o.key d0 ht4]
    rw [hfold]
    have hobj : finishFrag (⟨o.type, o.key, some FragmentType.first, some d0⟩ : NVMObject)
        (objData (⟨o.type, o.key, some FragmentType.first, some d0⟩ : NVMObject) ++
          ps.flatten) = o := by
      show NVMObject.mk o.type o.key none (some (d0 ++ ps.flatten)) = o
      rw [hflat]
      obtain ⟨t, k2, fr, dt⟩ := o
      have hfr' : fr = none := hfr
      have hd' : dt = some d := hd
      subst hfr' hd'
      rfl
    rw [hobj]

/-- Compaction over the flattened fragment-sequence renderings of a
distinct-key live map appends every entry to the live accumulator. -/
theorem compress_expansion : ∀ (A : List (Nat × NVMObject))
    (exp : List (List NVMObject)) (live parts : List (Nat × NVMObject)),
    (∀ kv ∈ A, liveEntry kv) →
    (A.map Prod.fst).Nodup →
    (∀ kv ∈ A, live.any (fun q => q.1 = kv.1) = false) →
    List.Forall₂ (fun kv fs => FragSeq kv.2 fs) A exp →
    ((exp.flatten).foldl compressStep ⟨live, parts⟩).live = live ++ A := by
  intro A
  induction A with
  | nil =>
      intro exp live parts _ _ _ hF
      cases hF
      simp
  | cons kv rest ih =>
      intro exp live parts hall hnodup hfresh hF
      cases hF with
      | cons hfs hF' =>
          rename_i fs exp'
          simp only [List.flatten_cons, List.foldl_append]
          obtain ⟨hkey, hshape⟩ := hall kv (by simp)
          obtain ⟨parts', hentry⟩ := compress_entry kv.2 fs hshape hfs live parts
          rw [hentry, hkey]
          have hset : mapSet live kv.1 kv.2 = live ++ [(kv.1, kv.2)] := by
            unfold mapSet
            rw [if_neg (by
              rw [hfresh kv (by simp)]
              exact Bool.false_ne_true)]
          rw [hset]
          have hfresh' : ∀ q ∈ rest,
              (live ++ [(kv.1, kv.2)]).any (fun p => p.1 = q.1) = false := by
            intro q hq
            rw [List.any_append, hfresh q (by simp [hq])]
            simp only [Bool.false_or, List.any_cons, List.any_nil, Bool.or_false]
            simp only [decide_eq_false_iff_not]
            intro heq
            simp only [List.map_cons, List.nodup_cons] at hnodup
            exact hnodup.1 (by rw [heq]; exact List.mem_map_of_mem Prod.fst hq)
          rw [ih exp' (live ++ [(kv.1, kv.2)]) parts'
            (fun q hq => hall q (by simp [hq]))
            (by simp only [List.map_cons] at hnodup; exact hnodup.of_cons) hfresh' hF']
          rw [List.append_assoc]
          rfl

/-- The per-page object lists a finished layout denotes: the finalized
pages, the current page, and the untouched fresh pages. -/
def pagesOf (res : List (List NVMObject) × List NVMObject × Nat) :
    List (List NVMObject) :=
  res.1 ++ res.2.1 :: List.replicate res.2.2 []

/-- The page-walk items of a list of page object lists. -/
def itemsOfPages (ps : List (List NVMObject)) : List (Buffer × List NVMObject) :=
  ps.map (fun os => (wireBytes os, os))

theorem flatten_replicate_nil {α : Type} : ∀ (n : Nat),
    (List.replicate n ([] : List α)).flatten = []
  | 0 => rfl
  | n + 1 => by
      rw [List.replicate_succ, List.flatten_cons, List.nil_append,
        flatten_replicate_nil n]

theorem stOf_pages_eq (done : List (List NVMObject)) (cur : List NVMObject)
    (spare : Nat) (w : List (Int × Nat × Buffer)) :
    (stOf done cur spare w).pages =
      (done ++ cur :: List.replicate spare []).map (fun os => stPage (wireBytes os)) := by
  show done.map (fun os => stPage (wireBytes os)) ++
    stPage (wireBytes cur) :: List.replicate spare emptyPageDefault = _
  simp only [List.map_append, List.map_cons, List.map_replicate]
  rw [show stPage (wireBytes ([] : List NVMObject)) = emptyPageDefault from by
    rw [wireBytes_nil]; exact emptyPageDefault_stPage.symm]

theorem nextPage_fresh (n : Nat) (hn : 0 < n) :
    nextPage ⟨List.replicate n emptyPageDefault, -1, 0, []⟩ =
      .ok (stOf [] [] (n - 1) []) := by
  have hrep : List.replicate n emptyPageDefault =
      stPage (wireBytes []) :: List.replicate (n - 1) emptyPageDefault := by
    cases n with
    | zero => omega
    | succ m =>
        rw [Nat.succ_sub_one, List.replicate_succ,
          show emptyPageDefault = stPage (wireBytes []) from by
            rw [wireBytes_nil]; exact emptyPageDefault_stPage]
  unfold nextPage
  rw [if_neg (by rw [List.length_replicate]; push_cast; omega)]
  unfold stOf
  rw [← hrep]
  rfl

/-- `writeObjects` on fresh default pages realizes exactly the layout a
successful `placeSim` run predicts, and that layout satisfies the page
invariant, has the full page count and lays down a fragment-sequence
rendering of the map's values. -/
theorem writeObjects_placeSim (A : List (Nat × NVMObject)) (n : Nat) (hn : 0 < n)
    (hall : ∀ kv ∈ A, liveEntry kv)
    (res : List (List NVMObject) × List NVMObject × Nat)
    (hsim : placeSim ([], [], n - 1) (A.map Prod.snd) = some res) :
    (PageInv res.1 res.2.1 ∧ res.1.length + 1 + res.2.2 = n ∧
      (∃ exp : List (List NVMObject), List.Forall₂ FragSeq (A.map Prod.snd) exp ∧
        res.1.flatten ++ res.2.1 = exp.flatten)) ∧
    ∃ w', writeObjects 2048 (List.replicate n emptyPageDefault) A =
      .ok (stOf res.1 res.2.1 res.2.2 w') := by
  have hshape : ∀ o ∈ A.map Prod.snd, liveShape o := by
    intro o ho
    obtain ⟨kv, hkv, rfl⟩ := List.mem_map.mp ho
    exact (hall kv hkv).2
  have hInv0 : PageInv [] [] :=
    ⟨fun pg hpg => absurd hpg (List.not_mem_nil pg),
     by rw [wireBytes_nil]; simp,
     fun o ho => absurd ho (List.not_mem_nil o)⟩
  obtain ⟨hInv, hcount, ⟨exp, hF, hflat⟩, hfold⟩ :=
    placeSim_correct (A.map Prod.snd) [] [] (n - 1) res hshape hInv0 hsim
  refine ⟨⟨hInv, ?_, ⟨exp, hF, ?_⟩⟩, ?_⟩
  · rw [hcount]
    simp only [List.length_nil]
    omega
  · simpa using hflat
  · unfold writeObjects
    rw [nextPage_fresh n hn]
    simp only [ok_bind]
    exact hfold []

theorem pagesOf_good (res : List (List NVMObject) × List NVMObject × Nat)
    (hInv : PageInv res.1 res.2.1) :
    ∀ os ∈ pagesOf res, (wireBytes os).length ≤ 2028 ∧ ∀ o ∈ os, wireShape o := by
  intro os hos
  unfold pagesOf at hos
  rcases List.mem_append.mp hos with h | h
  · exact hInv.1 os h
  · rcases List.mem_cons.mp h with rfl | h'
    · exact ⟨hInv.2.1, hInv.2.2⟩
    · rw [List.eq_of_mem_replicate h']
      exact ⟨by rw [wireBytes_nil]; simp, fun o ho => absurd ho (List.not_mem_nil o)⟩

theorem itemsOfPages_cond (ps : List (List NVMObject))
    (h : ∀ os ∈ ps, (wireBytes os).length ≤ 2028 ∧ ∀ o ∈ os, wireShape o) :
    ∀ it ∈ itemsOfPages ps, it.1.length ≤ 2028 ∧
      readObjects (it.1 ++ List.replicate (2028 - it.1.length) 0xff) = .ok it.2 := by
  intro it hit
  obtain ⟨os, hos, rfl⟩ := List.mem_map.mp hit
  obtain ⟨hlen, hsh⟩ := h os hos
  exact ⟨hlen, readObjects_flatten_wire os hsh _⟩

theorem itemsOfPages_stPage (ps : List (List NVMObject)) :
    (itemsOfPages ps).map (fun it => stPage it.1) =
      ps.map (fun os => stPage (wireBytes os)) := by
  unfold itemsOfPages
  rw [List.map_map]
  rfl

theorem itemsOfPages_snd (ps : List (List NVMObject)) :
    (itemsOfPages ps).map Prod.snd = ps := by
  unfold itemsOfPages
  rw [List.map_map]
  exact List.map_id ps

theorem pagesFromItems_append : ∀ (xs ys : List (Buffer × List NVMObject)) (off : Nat),
    pagesFromItems off (xs ++ ys) =
      pagesFromItems off xs ++ pagesFromItems (off + 2048 * xs.length) ys
  | [], ys, off => by
      rw [List.nil_append]
      show pagesFromItems off ys = [] ++ pagesFromItems (off + 2048 * 0) ys
      rw [List.nil_append, Nat.mul_zero, Nat.add_zero]
  | x :: xs, ys, off => by
      show pageAt off x.2 :: pagesFromItems (off + 2048) (xs ++ ys) =
        (pageAt off x.2 :: pagesFromItems (off + 2048) xs) ++ _
      rw [pagesFromItems_append xs ys (off + 2048), List.cons_append, List.length_cons]
      rw [show off + 2048 + 2048 * xs.length = off + 2048 * (xs.length + 1) from by ring]

theorem pagesFromItems_shape : ∀ (items : List (Buffer × List NVMObject)) (off : Nat)
    (p : NVMPage), p ∈ pagesFromItems off items →
    ∃ i objs, i < items.length ∧ p = pageAt (off + 2048 * i) objs
  | [], off, p => fun h => absurd h (List.not_mem_nil p)
  | it :: rest, off, p => fun h => by
      rcases List.mem_cons.mp h with rfl | h'
      · exact ⟨0, it.2, by simp, by rw [Nat.mul_zero, Nat.add_zero]⟩
      · obtain ⟨i, objs, hi, hp⟩ := pagesFromItems_shape rest (off + 2048) p h'
        refine ⟨i + 1, objs, by simp only [List.length_cons]; omega, ?_⟩
        rw [hp]
        rw [show off + 2048 + 2048 * i = off + 2048 * (i + 1) from by ring]

theorem pagesFromItems_pairwise : ∀ (items : List (Buffer × List NVMObject)) (off : Nat),
    (pagesFromItems off items).Pairwise (fun a b => comparePages a b ≤ 0)
  | [], _ => List.Pairwise.nil
  | it :: rest, off => by
      show (pageAt off it.2 :: pagesFromItems (off + 2048) rest).Pairwise _
      refine List.Pairwise.cons ?_ (pagesFromItems_pairwise rest (off + 2048))
      intro q hq
      obtain ⟨i, objs, hi, rfl⟩ := pagesFromItems_shape rest (off + 2048) q hq
      exact comparePages_pageAt off _ _ _ (by omega)

theorem pagesFromItems_fold : ∀ (items : List (Buffer × List NVMObject)) (off : Nat)
    (acc : List NVMObject),
    (pagesFromItems off items).foldl (fun acc page => acc ++ page.objects) acc =
      acc ++ (items.map Prod.snd).flatten
  | [], off, acc => by
      show acc = acc ++ ([] : List NVMObject)
      rw [List.append_nil]
  | it :: rest, off, acc => by
      show ((pageAt off it.2 :: pagesFromItems (off + 2048) rest).foldl
        (fun acc page => acc ++ page.objects) acc) = _
      rw [List.foldl_cons, pagesFromItems_fold rest (off + 2048) _]
      rw [show (pageAt off it.2).objects = it.2 from rfl]
      simp only [List.map_cons, List.flatten_cons, List.append_assoc]

theorem pagesFromItems_filter_app_all (items : List (Buffer × List NVMObject))
    (off : Nat) (h : off + 2048 * items.length ≤ 12288) :
    (pagesFromItems off items).filter
      (fun p => p.header.offset < ZWAVE_APPLICATION_NVM_SIZE) =
      pagesFromItems off items := by
  refine List.filter_eq_self.mpr ?_
  intro p hp
  obtain ⟨i, objs, hi, rfl⟩ := pagesFromItems_shape items off p hp
  refine decide_eq_true ?_
  show off + 2048 * i < ZWAVE_APPLICATION_NVM_SIZE
  have hz : ZWAVE_APPLICATION_NVM_SIZE = 12288 := rfl
  rw [hz]
  have : 2048 * (i + 1) ≤ 2048 * items.length := Nat.mul_le_mul_left 2048 hi
  omega

theorem pagesFromItems_filter_app_nil (items : List (Buffer × List NVMObject))
    (off : Nat) (h : 12288 ≤ off) :
    (pagesFromItems off items).filter
      (fun p => p.header.offset < ZWAVE_APPLICATION_NVM_SIZE) = [] := by
  refine List.filter_eq_nil_iff.mpr ?_
  intro p hp
  obtain ⟨i, objs, hi, rfl⟩ := pagesFromItems_shape items off p hp
  intro hcon
  rw [decide_eq_true_eq] at hcon
  have hlt : off + 2048 * i < 12288 := hcon
  omega

theorem pagesFromItems_filter_proto_all (items : List (Buffer × List NVMObject))
    (off : Nat) (h : 12288 ≤ off) :
    (pagesFromItems off items).filter
      (fun p => ZWAVE_APPLICATION_NVM_SIZE ≤ p.header.offset) =
      pagesFromItems off items := by
  refine List.filter_eq_self.mpr ?_
  intro p hp
  obtain ⟨i, objs, hi, rfl⟩ := pagesFromItems_shape items off p hp
  refine decide_eq_true ?_
  show ZWAVE_APPLICATION_NVM_SIZE ≤ off + 2048 * i
  have hz : ZWAVE_APPLICATION_NVM_SIZE = 12288 := rfl
  rw [hz]
  omega

theorem pagesFromItems_filter_proto_nil (items : List (Buffer × List NVMObject))
    (off : Nat) (h : off + 2048 * items.length ≤ 12288) :
    (pagesFromItems off items).filter
      (fun p => ZWAVE_APPLICATION_NVM_SIZE ≤ p.header.offset) = [] := by
  refine List.filter_eq_nil_iff.mpr ?_
  intro p hp
  obtain ⟨i, objs, hi, rfl⟩ := pagesFromItems_shape items off p hp
  intro hcon
  rw [decide_eq_true_eq] at hcon
  have hle : ZWAVE_APPLICATION_NVM_SIZE ≤ off + 2048 * i := hcon
  have hz : ZWAVE_APPLICATION_NVM_SIZE = 12288 := rfl
  rw [hz] at hle
  have : 2048 * (i + 1) ≤ 2048 * items.length := Nat.mul_le_mul_left 2048 hi
  omega

theorem stOf_pages_pagesOf (res : List (List NVMObject) × List NVMObject × Nat)
    (w : List (Int × Nat × Buffer)) :
    (stOf res.1 res.2.1 res.2.2 w).pages =
      (itemsOfPages (pagesOf res)).map (fun it => stPage it.1) := by
  rw [itemsOfPages_stPage]
  exact stOf_pages_eq res.1 res.2.1 res.2.2 w

set_option maxHeartbeats 1000000 in
/-- The general round trip: for maps of live entries of all four object
types, `encode_nvm` with default options succeeds whenever the abstract
greedy layout succeeds, and `parse_nvm` of the image returns both maps
exactly — covering counters, large objects (fragmented across page
boundaries or not) and layouts spanning multiple pages of each region. -/
theorem c5_roundtrip_general (A P : List (Nat × NVMObject))
    (resA resP : List (List NVMObject) × List NVMObject × Nat)
    (hA : ∀ kv ∈ A, liveEntry kv) (hP : ∀ kv ∈ P, liveEntry kv)
    (hAk : (A.map Prod.fst).Nodup) (hPk : (P.map Prod.fst).Nodup)
    (hsimA : placeSim ([], [], 5) (A.map Prod.snd) = some resA)
    (hsimP : placeSim ([], [], 17) (P.map Prod.snd) = some resP) :
    ∃ buf r, encodeNVM A P none = .ok buf ∧ parseNVM buf = .ok r ∧
      r.applicationObjects = A ∧ r.protocolObjects = P := by
  obtain ⟨⟨hInvA, hcntA, expA, hFA, hflatA⟩, wA, hWA⟩ :=
    writeObjects_placeSim A 6 (by omega) hA resA hsimA
  obtain ⟨⟨hInvP, hcntP, expP, hFP, hflatP⟩, wP, hWP⟩ :=
    writeObjects_placeSim P 18 (by omega) hP resP hsimP
  have hgoodA := pagesOf_good resA hInvA
  have hgoodP := pagesOf_good resP hInvP
  have hcondA := itemsOfPages_cond _ hgoodA
  have hcondP := itemsOfPages_cond _ hgoodP
  have hlenA6 : (pagesOf resA).length = 6 := by
    unfold pagesOf
    rw [List.length_append, List.length_cons, List.length_replicate]
    omega
  have hlenP18 : (pagesOf resP).length = 18 := by
    unfold pagesOf
    rw [List.length_append, List.length_cons, List.length_replicate]
    omega
  have hitemsA6 : (itemsOfPages (pagesOf resA)).length = 6 := by
    unfold itemsOfPages
    rw [List.length_map, hlenA6]
  have hitemsP18 : (itemsOfPages (pagesOf resP)).length = 18 := by
    unfold itemsOfPages
    rw [List.length_map, hlenP18]
  set itemsA := itemsOfPages (pagesOf resA) with hitemsA
  set itemsP := itemsOfPages (pagesOf resP) with hitemsP
  set img := ((itemsA ++ itemsP).map (fun it => stPage it.1)).flatten with himg
  have hcond : ∀ it ∈ itemsA ++ itemsP, it.1.length ≤ 2028 ∧
      readObjects (it.1 ++ List.replicate (2028 - it.1.length) 0xff) = .ok it.2 := by
    intro it hit
    rcases List.mem_append.mp hit with h | h
    · exact hcondA it h
    · exact hcondP it h
  have henc : encodeNVM A P none = .ok img := by
    rw [encodeNVM_none_eq]
    rw [show FLASH_MAX_PAGE_SIZE = 2048 from rfl]
    rw [hWA, hWP]
    simp only [ok_bind]
    show Except.ok _ = _
    refine congrArg Except.ok ?_
    rw [stOf_pages_pagesOf resA wA, stOf_pages_pagesOf resP wP]
    rw [himg, List.map_append, List.flatten_append]
  have hlenimg : img.length = 49152 := by
    rw [himg, stPage_flatten_length _ (fun it hit => (hcond it hit).1)]
    rw [List.length_append, hitemsA6, hitemsP18]
  have hdrop0 : img.drop 0 = ((itemsA ++ itemsP).map (fun it => stPage it.1)).flatten := by
    rw [List.drop_zero]
  have hwalk : parsePagesGo img (img.length + 1) 0 =
      .ok (pagesFromItems 0 (itemsA ++ itemsP)) :=
    parsePagesGo_items (itemsA ++ itemsP) img 0 (img.length + 1) hcond hdrop0
      (by omega)
      (by rw [List.length_append, hitemsA6, hitemsP18]; omega)
  have hsplit : pagesFromItems 0 (itemsA ++ itemsP) =
      pagesFromItems 0 itemsA ++ pagesFromItems 12288 itemsP := by
    rw [pagesFromItems_append]
    rw [show (0 : Nat) + 2048 * itemsA.length = 12288 from by rw [hitemsA6]]
  rw [hsplit] at hwalk
  have hfA : (pagesFromItems 0 itemsA ++ pagesFromItems 12288 itemsP).filter
      (fun p => p.header.offset < ZWAVE_APPLICATION_NVM_SIZE) =
      pagesFromItems 0 itemsA := by
    rw [List.filter_append,
      pagesFromItems_filter_app_all itemsA 0 (by rw [hitemsA6]),
      pagesFromItems_filter_app_nil itemsP 12288 (by omega),
      List.append_nil]
  have hfP : (pagesFromItems 0 itemsA ++ pagesFromItems 12288 itemsP).filter
      (fun p => ZWAVE_APPLICATION_NVM_SIZE ≤ p.header.offset) =
      pagesFromItems 12288 itemsP := by
    rw [List.filter_append,
      pagesFromItems_filter_proto_nil itemsA 0 (by rw [hitemsA6]),
      pagesFromItems_filter_proto_all itemsP 12288 (by omega),
      List.nil_append]
  have hsortA : sortPages (pagesFromItems 0 itemsA) = pagesFromItems 0 itemsA :=
    sortPages_sorted _ (pagesFromItems_pairwise itemsA 0)
  have hsortP : sortPages (pagesFromItems 12288 itemsP) = pagesFromItems 12288 itemsP :=
    sortPages_sorted _ (pagesFromItems_pairwise itemsP 12288)
  have hobjsA : (pagesOf resA).flatten = expA.flatten := by
    unfold pagesOf
    rw [List.flatten_append, List.flatten_cons, flatten_replicate_nil, List.append_nil]
    exact hflatA
  have hobjsP : (pagesOf resP).flatten = expP.flatten := by
    unfold pagesOf
    rw [List.flatten_append, List.flatten_cons, flatten_replicate_nil, List.append_nil]
    exact hflatP
  have hfoldA : (pagesFromItems 0 itemsA).foldl
      (fun acc page => acc ++ page.objects) [] = expA.flatten := by
    rw [pagesFromItems_fold itemsA 0 [], List.nil_append, hitemsA, itemsOfPages_snd]
    exact hobjsA
  have hfoldP : (pagesFromItems 12288 itemsP).foldl
      (fun acc page => acc ++ page.objects) [] = expP.flatten := by
    rw [pagesFromItems_fold itemsP 12288 [], List.nil_append, hitemsP, itemsOfPages_snd]
    exact hobjsP
  have hFA' : List.Forall₂ (fun kv fs => FragSeq kv.2 fs) A expA :=
    List.forall₂_map_left_iff.mp hFA
  have hFP' : List.Forall₂ (fun kv fs => FragSeq kv.2 fs) P expP :=
    List.forall₂_map_left_iff.mp hFP
  have hcompA : compressObjects
      ((pagesFromItems 0 itemsA).foldl (fun acc page => acc ++ page.objects) []) = A := by
    rw [hfoldA]
    show ((expA.flatten).foldl compressStep ⟨[], []⟩).live = A
    rw [compress_expansion A expA [] [] hA hAk (fun kv _ => rfl) hFA']
    exact List.nil_append A
  have hcompP : compressObjects
      ((pagesFromItems 12288 itemsP).foldl (fun acc page => acc ++ page.objects) []) =
      P := by
    rw [hfoldP]
    show ((expP.flatten).foldl compressStep ⟨[], []⟩).live = P
    rw [compress_expansion P expP [] [] hP hPk (fun kv _ => rfl) hFP']
    exact List.nil_append P
  have hpipe : parseNVM img = .ok ⟨pagesFromItems 0 itemsA, pagesFromItems 12288 itemsP,
      compressObjects ((pagesFromItems 0 itemsA).foldl
        (fun acc page => acc ++ page.objects) []),
      compressObjects ((pagesFromItems 12288 itemsP).foldl
        (fun acc page => acc ++ page.objects) [])⟩ := by
    unfold parseNVM
    rw [hwalk]
    simp only [ok_bind]
    show Except.ok (ParseResult.mk _ _ _ _) = _
    rw [hfA, hfP, hsortA, hsortP]
  rw [hcompA, hcompP] at hpipe
  exact ⟨img, _, henc, hpipe, rfl, rfl⟩

/-- Counterexample to C5 as stated: a map holding a `Deleted` entry fits
its region, but `encode_nvm` silently drops the entry (the placement loop
`continue`s on `Deleted` objects), so parsing the image back yields an
empty application map instead of the original one — the round trip is not
pointwise equality for all fitting maps. -/
theorem C5_counterexample :
    ∃ buf r, encodeNVM [(5, ⟨.Deleted, 5, none, none⟩)] [] none = .ok buf ∧
      parseNVM buf = .ok r ∧ r.applicationObjects = [] ∧
      ¬ r.applicationObjects = [(5, (⟨.Deleted, 5, none, none⟩ : NVMObject))] := by
  obtain ⟨buf, r, henc, hp, ha, hpr⟩ := c5_roundtrip [] []
    (fun kv h => absurd h (List.not_mem_nil kv))
    (fun kv h => absurd h (List.not_mem_nil kv))
    List.nodup_nil List.nodup_nil (by norm_num) (by norm_num)
  refine ⟨buf, r, ?_, hp, ha, ?_⟩
  · rw [encodeNVM_none_eq, writeObjects_skip_deleted, ← encodeNVM_none_eq]
    exact henc
  · rw [ha]
    simp

/-- Claim C5 (corrected): the round trip `parse_nvm ∘ encode_nvm` returns
the maps pointwise for maps of live entries that the placement loop lays
out without corruption. The entries may be of all four live object types —
`DataSmall` (payload at most 127 bytes), `CounterSmall` (4-byte payload,
the only counter payload the codec reads back), `DataLarge` and
`CounterLarge` (payload below 2^32, fragmented across page boundaries when
needed) — with stored keys matching the 20-bit map keys and distinct keys
per region, and the layouts may span several pages of the 6-page
application and 18-page protocol regions. "Fits the region" is expressed
by the success of `placeSim`, the abstract greedy layout that mirrors the
writer's placement loop and refuses exactly where the writer fails with
`Not enough pages!` or silently corrupts the image (fragmenting a large
object with fewer than 8 bytes left on a page truncates the fragment
header). Under these hypotheses `encode_nvm(A, P)` with default options
succeeds and `parse_nvm` of the image returns `applicationObjects = A`
and `protocolObjects = P` exactly. (The claim as frozen is false for maps
holding `Deleted` entries, which `encode_nvm` drops — see the
counterexample.) -/
theorem C5_theorem (A P : List (Nat × NVMObject))
    (resA resP : List (List NVMObject) × List NVMObject × Nat)
    (hA : ∀ kv ∈ A, liveEntry kv) (hP : ∀ kv ∈ P, liveEntry kv)
    (hAk : (A.map Prod.fst).Nodup) (hPk : (P.map Prod.fst).Nodup)
    (hsimA : placeSim ([], [], 5) (A.map Prod.snd) = some resA)
    (hsimP : placeSim ([], [], 17) (P.map Prod.snd) = some resP) :
    ∃ buf r, encodeNVM A P none = .ok buf ∧ parseNVM buf = .ok r ∧
      r.applicationObjects = A ∧ r.protocolObjects = P :=
  c5_roundtrip_general A P resA resP hA hP hAk hPk hsimA hsimP

/-- The application map of the C5 witness: a small data object, a counter
and a large data object. -/
def c5wA : List (Nat × NVMObject) :=
  [(1, ⟨.DataSmall, 1, none, some [5]⟩),
   (2, ⟨.CounterSmall, 2, none, some [1, 2, 3, 4]⟩),
   (3, ⟨.DataLarge, 3, none, some [7, 7, 7]⟩)]

/-- The protocol map of the C5 witness. -/
def c5wP : List (Nat × NVMObject) := [(9, ⟨.DataSmall, 9, none, some [1]⟩)]

/-- Witness for C5: a concrete round trip whose application map holds a
small data object, a 4-byte counter and a large data object, and whose
protocol map holds a small data object. -/
theorem C5_witness :
    (∀ kv ∈ c5wA, liveEntry kv) ∧ (∀ kv ∈ c5wP, liveEntry kv) ∧
    ((c5wA.map Prod.fst).Nodup) ∧ ((c5wP.map Prod.fst).Nodup) ∧
    placeSim ([], [], 5) (c5wA.map Prod.snd) = some ([], c5wA.map Prod.snd, 5) ∧
    placeSim ([], [], 17) (c5wP.map Prod.snd) = some ([], c5wP.map Prod.snd, 17) ∧
    ∃ buf r, encodeNVM c5wA c5wP none = .ok buf ∧ parseNVM buf = .ok r ∧
      r.applicationObjects = c5wA ∧ r.protocolObjects = c5wP := by
  have h1 : ∀ kv ∈ c5wA, liveEntry kv := by
    intro kv hkv
    simp only [c5wA, List.mem_cons, List.not_mem_nil, or_false] at hkv
    rcases hkv with rfl | rfl | rfl
    · exact ⟨rfl, by norm_num, rfl, Or.inl ⟨rfl, [5], rfl, by norm_num⟩⟩
    · exact ⟨rfl, by norm_num, rfl, Or.inr (Or.inl ⟨rfl, [1, 2, 3, 4], rfl, rfl⟩)⟩
    · exact ⟨rfl, by norm_num, rfl, Or.inr (Or.inr ⟨Or.inl rfl, [7, 7, 7], rfl,
        by norm_num⟩)⟩
  have h2 : ∀ kv ∈ c5wP, liveEntry kv := by
    intro kv hkv
    simp only [c5wP, List.mem_singleton] at hkv
    subst hkv
    exact ⟨rfl, by norm_num, rfl, Or.inl ⟨rfl, [1], rfl, by norm_num⟩⟩
  have h3 : (c5wA.map Prod.fst).Nodup := by decide
  have h4 : (c5wP.map Prod.fst).Nodup := by decide
  have h5 : placeSim ([], [], 5) (c5wA.map Prod.snd) =
      some ([], c5wA.map Prod.snd, 5) := by rfl
  have h6 : placeSim ([], [], 17) (c5wP.map Prod.snd) =
      some ([], c5wP.map Prod.snd, 17) := by rfl
  exact ⟨h1, h2, h3, h4, h5, h6, C5_theorem c5wA c5wP _ _ h1 h2 h3 h4 h5 h6⟩

/-- Witness for C2: the corrected statement at the concrete page size 2560
(which divides neither region size). -/
theorem C2_witness :
    (encodeNVM [] [] (some { pageSize := some 2560 })).isOk = true :=
  C2_theorem 2560 (by decide) (by decide)

/-- Witness for C1: the corrected statement at the concrete input `(∅, ∅)`. -/
theorem C1_witness :
    ∃ buf, encodeNVM [] [] none = .ok buf ∧
      ∃ app proto, buf = app ++ proto ∧ app.length = ZWAVE_APPLICATION_NVM_SIZE ∧
        proto.length = ZWAVE_PROTOCOL_NVM_SIZE ∧ buf.length = 0xc000 := by
  have hok : (encodeNVM [] [] none).isOk = true := rfl
  cases h : encodeNVM [] [] none with
  | ok buf => exact ⟨buf, rfl, C1_theorem [] [] buf h⟩
  | error e =>
      rw [h] at hok
      simp [Except.isOk, Except.toBool] at hok

end NVM3
